import Mathlib

/-!
Verification development for the protocol-coverage tooling of this repository
(the reconciliation runner `verify-protocol-coverage.py`, the manifest
synchronizer `sync-manifest.py`, the shared extraction library
`lib/spec_extraction.py` and the utility `utils/reset-verification.py`).

The Python sources are shallowly embedded: dictionaries become association
lists, sets become lists used only through membership, in-place mutation
becomes explicit state passing, and the handful of Python string primitives
the scripts rely on (`split`, `title`, `rstrip`, `replace`, `endswith`,
`lower`, `sorted`, substring tests) are reimplemented over explicit
character lists so that every definition evaluates inside the kernel.
Python string methods operate on Unicode; the scripts only ever handle
ASCII identifiers, for which the ASCII `Char.toUpper`/`Char.toLower` of
Lean agree with Python.
-/

/-! ## Character-list string primitives -/

/-- Rebuild a string from an explicit character list. -/
def ofChars (cs : List Char) : String := String.mk cs

/-- Boolean list-prefix test (used to implement the substring primitives). -/
def charsPrefix : List Char → List Char → Bool
  | [], _ => true
  | _ :: _, [] => false
  | a :: as, b :: bs => a == b && charsPrefix as bs

/-- Python `needle in hay` (substring containment) on character lists. -/
def charsContain (hay needle : List Char) : Bool :=
  match hay with
  | [] => charsPrefix needle []
  | _ :: rest => charsPrefix needle hay || charsContain rest needle

/-- Python `needle in hay` for strings. -/
def strContain (hay needle : String) : Bool := charsContain hay.data needle.data

/-- Python `s.startswith(p)`. -/
def pyStartsWith (s p : String) : Bool := charsPrefix p.data s.data

/-- Python `s.endswith(p)`. -/
def pyEndsWith (s p : String) : Bool := charsPrefix p.data.reverse s.data.reverse

/-- Python `s.split(sep)` for a single-character separator (the scripts only
split on a slash). -/
def splitOnCharAux (c : Char) : List Char → List Char → List (List Char)
  | [], acc => [acc.reverse]
  | x :: xs, acc =>
      if x == c then acc.reverse :: splitOnCharAux c xs []
      else splitOnCharAux c xs (x :: acc)

/-- Split a character list at every occurrence of `c` (Python `split`). -/
def splitOnChar (c : Char) (cs : List Char) : List (List Char) :=
  splitOnCharAux c cs []

/-- Python `s.title()` for ASCII text: a character is uppercased when the
previous character is not alphabetic, lowercased otherwise. -/
def pyTitleAux : Bool → List Char → List Char
  | _, [] => []
  | prevAlpha, c :: cs =>
      (if prevAlpha then c.toLower else c.toUpper) :: pyTitleAux c.isAlpha cs

/-- Python `s.title()` on strings. -/
def pyTitle (s : String) : String := ofChars (pyTitleAux false s.data)

/-- Python `s.lower()` for ASCII text. -/
def pyLower (s : String) : String := ofChars (s.data.map Char.toLower)

/-- Python `s.rstrip("s")`: remove every trailing letter s. -/
def pyRstripS (s : String) : String :=
  ofChars ((s.data.reverse.dropWhile (fun c => c == 's')).reverse)

/-- Uppercase the first character of a list (Python `s[0].upper() + s[1:]`). -/
def upperFirst : List Char → List Char
  | [] => []
  | c :: rest => c.toUpper :: rest

/-- Lowercase the first character of a list (Python `s[0].lower() + s[1:]`). -/
def lowerFirst : List Char → List Char
  | [] => []
  | c :: rest => c.toLower :: rest

/-- One fuelled pass of Python `s.replace(pat, repl)`: at each position, if
`pat` is a prefix, emit `repl` and continue after the occurrence, otherwise
keep the character.  The fuel is always instantiated with the length of the
scanned list, which suffices because every step consumes at least one
character when `pat` is nonempty. -/
def charsReplaceAux (pat repl : List Char) : Nat → List Char → List Char
  | 0, cs => cs
  | _ + 1, [] => []
  | fuel + 1, c :: cs =>
      if charsPrefix pat (c :: cs) then
        repl ++ charsReplaceAux pat repl fuel (List.drop (pat.length - 1) cs)
      else
        c :: charsReplaceAux pat repl fuel cs

/-- Python `s.replace(pat, repl)` (non-overlapping, left to right, every
occurrence).  The scripts never call `replace` with an empty pattern, so that
degenerate case simply returns the input. -/
def pyReplace (s pat repl : String) : String :=
  if pat.data.isEmpty then s
  else ofChars (charsReplaceAux pat.data repl.data s.data.length s.data)

/-- Code-point comparison of character lists, matching how Python compares
strings lexicographically. -/
def charsLe : List Char → List Char → Bool
  | [], _ => true
  | _ :: _, [] => false
  | a :: as, b :: bs =>
      if a.toNat < b.toNat then true
      else if b.toNat < a.toNat then false
      else charsLe as bs

/-- Python string comparison `a <= b` (by code points). -/
def pyStrLe (a b : String) : Bool := charsLe a.data b.data

/-! ## Sorting (Python `sorted`) -/

/-- Insert into a sorted list, keeping existing elements first on ties, so the
sort below is stable like Python's. -/
def pyInsert (le : α → α → Bool) (x : α) : List α → List α
  | [] => [x]
  | y :: ys => if le y x then y :: pyInsert le x ys else x :: y :: ys

/-- Stable insertion sort standing in for Python `sorted`. -/
def pySortBy (le : α → α → Bool) : List α → List α
  | [] => []
  | x :: xs => pyInsert le x (pySortBy le xs)

/-- Python `sorted` on a list of strings. -/
def pySortStr (l : List String) : List String := pySortBy pyStrLe l

/-- Python `sorted(d.items())`: sort key/value pairs by key (the keys of a
dictionary are distinct, so Python never compares the values). -/
def pySortPairs (l : List (String × α)) : List (String × α) :=
  pySortBy (fun p q => pyStrLe p.1 q.1) l

theorem pyInsert_perm (le : α → α → Bool) (x : α) :
    ∀ l : List α, (pyInsert le x l).Perm (x :: l) := by
  intro l
  induction l with
  | nil => simp [pyInsert]
  | cons y ys ih =>
      by_cases h : le y x = true
      · simpa [pyInsert, h] using
          (List.Perm.trans (List.Perm.cons y ih) (List.Perm.swap x y ys))
      · simp [pyInsert, h]

theorem pySortBy_perm (le : α → α → Bool) :
    ∀ l : List α, (pySortBy le l).Perm l := by
  intro l
  induction l with
  | nil => simp [pySortBy]
  | cons x xs ih =>
      exact List.Perm.trans (pyInsert_perm le x (pySortBy le xs)) (List.Perm.cons x ih)

theorem mem_pySortBy (le : α → α → Bool) (l : List α) (x : α) :
    x ∈ pySortBy le l ↔ x ∈ l :=
  (pySortBy_perm le l).mem_iff

/-! ## Association lists standing in for Python dictionaries -/

/-- Python `d.get(k)` on an association list (dictionary keys are unique, so
the first binding is the binding). -/
def dictGet : List (String × α) → String → Option α
  | [], _ => none
  | p :: rest, k => if p.1 == k then some p.2 else dictGet rest k

/-- Python `d[k] = v`: overwrite the binding if the key is present, append a
new binding otherwise. -/
def dictSet : List (String × α) → String → α → List (String × α)
  | [], k, v => [(k, v)]
  | p :: rest, k, v =>
      if p.1 == k then (k, v) :: rest else p :: dictSet rest k v

/-- Python `k in d`. -/
def dictHas (l : List (String × α)) (k : String) : Bool :=
  (dictGet l k).isSome

theorem dictGet_dictSet_self (l : List (String × α)) (k : String) (v : α) :
    dictGet (dictSet l k v) k = some v := by
  induction l with
  | nil => simp [dictGet, dictSet]
  | cons p rest ih =>
      by_cases h : p.1 == k
      · simp [dictSet, dictGet, h]
      · simp [dictSet, dictGet, h, ih]

theorem dictGet_dictSet_ne (l : List (String × α)) (k k' : String) (v : α)
    (h : (k' == k) = false) : dictGet (dictSet l k v) k' = dictGet l k' := by
  have hne : ¬ k = k' := by
    intro e; subst e; simp at h
  induction l with
  | nil => simp [dictGet, dictSet, h, hne]
  | cons p rest ih =>
      by_cases hp : p.1 == k
      · have hk : p.1 = k := by simpa [beq_iff_eq] using hp
        simp [dictSet, dictGet, hp, h, hk, hne]
      · simp [dictSet, dictGet, hp, ih]

theorem dictGet_append_left (l₁ l₂ : List (String × α)) (k : String) (v : α)
    (h : dictGet l₁ k = some v) : dictGet (l₁ ++ l₂) k = some v := by
  induction l₁ with
  | nil => simp [dictGet] at h
  | cons p rest ih =>
      by_cases hp : p.1 == k
      · simp [dictGet, hp] at h ⊢; exact h
      · simp [dictGet, hp] at h ⊢; exact ih h

/-! ## Generic fold lemmas used by the synchronizer proofs -/

theorem foldlInvariant {σ α : Type} (f : σ → α → σ) (P : σ → Prop)
    (l : List α) (s : σ) (h0 : P s) (hstep : ∀ s x, P s → P (f s x)) :
    P (l.foldl f s) := by
  induction l generalizing s with
  | nil => simpa using h0
  | cons x xs ih => exact ih (f s x) (hstep s x h0)

theorem foldlChain {σ α : Type} (R : σ → σ → Prop) (f : σ → α → σ)
    (hrefl : ∀ s, R s s) (htrans : ∀ a b c, R a b → R b c → R a c)
    (hstep : ∀ s x, R s (f s x)) :
    ∀ (l : List α) (s : σ), R s (l.foldl f s) := by
  intro l
  induction l with
  | nil => intro s; simpa using hrefl s
  | cons x xs ih =>
      intro s
      exact htrans _ _ _ (hstep s x) (ih (f s x))

theorem foldlMonoKeys {σ β : Type} (f : σ → (String × β) → σ)
    (S : σ → (String × β) → Prop)
    (mono : ∀ s x y, x.1 ≠ y.1 → S s x → S (f s y) x) :
    ∀ (l : List (String × β)) (s : σ) (x : String × β),
      (∀ y ∈ l, x.1 ≠ y.1) → S s x → S (l.foldl f s) x := by
  intro l
  induction l with
  | nil => intro s x _ hs; simpa using hs
  | cons y ys ih =>
      intro s x hne hs
      exact ih (f s y) x (fun z hz => hne z (List.mem_cons_of_mem y hz))
        (mono s x y (hne y (List.mem_cons_self y ys)) hs)

theorem foldlAllKeys {σ β : Type} (f : σ → (String × β) → σ)
    (S : σ → (String × β) → Prop)
    (est : ∀ s x, S (f s x) x)
    (mono : ∀ s x y, x.1 ≠ y.1 → S s x → S (f s y) x) :
    ∀ (l : List (String × β)), (l.map Prod.fst).Nodup →
      ∀ (s : σ) (x : String × β), x ∈ l → S (l.foldl f s) x := by
  intro l
  induction l with
  | nil => intro _ s x hx; simp at hx
  | cons y ys ih =>
      intro hnd s x hx
      have hnd' : (ys.map Prod.fst).Nodup := by
        simpa using hnd.of_cons
      rcases List.mem_cons.mp hx with hxy | hxys
      · subst hxy
        refine foldlMonoKeys f S mono ys (f s x) x ?_ (est s x)
        intro z hz hzx
        have : z.1 ∈ ys.map Prod.fst := List.mem_map.mpr ⟨z, hz, rfl⟩
        rw [List.map_cons] at hnd
        exact (List.nodup_cons.mp hnd).1 (hzx ▸ this)
      · exact ih hnd' (f s y) x hxys

theorem foldlZeroOf {M α : Type} (f : (M × Nat) → α → (M × Nat))
    (S : M → α → Prop)
    (hzero : ∀ m c x, S m x → f (m, c) x = (m, c)) :
    ∀ (l : List α) (m : M) (c : Nat), (∀ x ∈ l, S m x) → l.foldl f (m, c) = (m, c) := by
  intro l
  induction l with
  | nil => intro m c _; rfl
  | cons x xs ih =>
      intro m c hall
      have hx := hzero m c x (hall x (List.mem_cons_self x xs))
      rw [List.foldl_cons, hx]
      exact ih m c (fun y hy => hall y (List.mem_cons_of_mem x hy))

/-! ## ASCII case facts -/

theorem charOfNat_toNat_of_valid (n : Nat) (h : n.isValidChar) :
    (Char.ofNat n).toNat = n := by
  unfold Char.ofNat
  rw [dif_pos h]
  unfold Char.ofNatAux Char.toNat
  simp [UInt32.toNat, BitVec.toNat_ofNatLt]

theorem toUpper_toLower (c : Char) :
    Char.toUpper (Char.toLower c) = Char.toUpper c := by
  unfold Char.toLower Char.toUpper
  by_cases h : c.toNat ≥ 65 ∧ c.toNat ≤ 90
  · rw [if_pos h]
    have hv : (c.toNat + 32).isValidChar := Or.inl (by omega)
    have ht : (Char.ofNat (c.toNat + 32)).toNat = c.toNat + 32 :=
      charOfNat_toNat_of_valid _ hv
    show (if (Char.ofNat (c.toNat + 32)).toNat ≥ 97 ∧ (Char.ofNat (c.toNat + 32)).toNat ≤ 122 then
        Char.ofNat ((Char.ofNat (c.toNat + 32)).toNat - 32) else Char.ofNat (c.toNat + 32)) = _
    rw [ht]
    rw [if_pos (show c.toNat + 32 ≥ 97 ∧ c.toNat + 32 ≤ 122 by omega)]
    show _ = (if c.toNat ≥ 97 ∧ c.toNat ≤ 122 then Char.ofNat (c.toNat - 32) else c)
    rw [if_neg (show ¬ (c.toNat ≥ 97 ∧ c.toNat ≤ 122) by omega)]
    have harith : c.toNat + 32 - 32 = c.toNat := by omega
    rw [harith, Char.ofNat_toNat]
  · rw [if_neg h]

theorem upperFirst_lowerFirst (cs : List Char) :
    upperFirst (lowerFirst cs) = upperFirst cs := by
  cases cs with
  | nil => rfl
  | cons c rest => simp [upperFirst, lowerFirst, toUpper_toLower]

/-! ## Schema model (`schema.json` as seen by `lib/spec_extraction.py`)

A definition under `$defs` is modelled with exactly the keys the scripts
read: `description`, `enum`, `anyOf` (a list of items, each carrying its
`$ref` string when it has one) and `properties`.  A property definition
keeps its `const` key (`properties.method.const`) and its own nested
`properties`, of which only the `type` key of each nested property is ever
read (by the capability extractor). -/

structure NestedDef where
  type : Option String
deriving DecidableEq, Repr

structure PropDef where
  const : Option String
  properties : List (String × NestedDef)
deriving DecidableEq, Repr

structure Defn where
  description : Option String
  enumVals : Option (List String)
  anyOf : List (Option String)
  properties : List (String × PropDef)
deriving DecidableEq, Repr

structure Schema where
  defs : List (String × Defn)
deriving DecidableEq, Repr

/-- The method-shaped suffixes filtered by `extract_types`
(`spec_extraction.py`, lines 34-35). -/
def method_suffixes : List String :=
  ["Request", "RequestParams", "Response", "Result", "Notification", "NotificationParams"]

/-- The description test of `extract_types` / `extract_deprecated`:
true when the lowercased description mentions removal or deprecation. -/
def descDeprecated (d : Defn) : Bool :=
  let desc := pyLower (match d.description with | some s => s | none => "")
  strContain desc "will be removed" || strContain desc "deprecated"

/-- Keep-filter of `extract_types` (`spec_extraction.py`, lines 37-51). -/
def keepSpecType (name : String) (d : Defn) : Bool :=
  !(method_suffixes.any (fun suf => pyEndsWith name suf)) &&
  !(strContain name "Request" && pyEndsWith name "Params") &&
  !(descDeprecated d)

/-- `extract_types(schema)`: public type names (a Python set, modelled as the
list of surviving names). -/
def extract_types (s : Schema) : List String :=
  (s.defs.filter (fun p => keepSpecType p.1 p.2)).map Prod.fst

/-- `extract_enums(schema)`: enum name to sorted case values. -/
def extract_enums (s : Schema) : List (String × List String) :=
  s.defs.filterMap (fun p =>
    match p.2.enumVals with
    | some vals => some (p.1, pySortStr vals)
    | none => none)

/-- `extract_deprecated(schema)`: deprecated type name to description. -/
def extract_deprecated (s : Schema) : List (String × String) :=
  s.defs.filterMap (fun p =>
    if descDeprecated p.2 then
      some (p.1, match p.2.description with | some d => d | none => "")
    else none)

/-- `extract_capabilities(schema, cap_type)`: property name to the nested
property names typed boolean/string/integer (the nested map's values, the
type strings, are never read afterwards, so only the keys are kept). -/
def extract_capabilities (s : Schema) (capType : String) : List (String × List String) :=
  match dictGet s.defs capType with
  | none => []
  | some d =>
      d.properties.map (fun p =>
        (p.1, (p.2.properties.filterMap (fun q =>
          match q.2.type with
          | some t =>
              if t == "boolean" || t == "string" || t == "integer" then some q.1 else none
          | none => none))))

/-- `ref["$ref"].split("/")[-1]`: last slash-separated component of a ref. -/
def refLastComponent (r : String) : String :=
  ofChars ((splitOnChar '/' r.data).getLastD [])

/-- `get_requests_from_union(schema, union_type)`. -/
def get_requests_from_union (s : Schema) (unionType : String) : List String :=
  match dictGet s.defs unionType with
  | none => []
  | some d => d.anyOf.filterMap (fun item => item.map refLastComponent)

/-- `extract_method_name(schema, request_type)`:
`$defs[request_type].properties.method.const`. -/
def extract_method_name (s : Schema) (requestType : String) : Option String :=
  match dictGet s.defs requestType with
  | none => none
  | some d =>
      match dictGet d.properties "method" with
      | none => none
      | some p => p.const

/-- `extract_methods_and_notifications(schema)`: request method names and
notification method names, from the four union declarations. -/
def extract_methods_and_notifications (s : Schema) : List String × List String :=
  let methods :=
    (get_requests_from_union s "ClientRequest" ++ get_requests_from_union s "ServerRequest").filterMap
      (fun t => extract_method_name s t)
  let notifs :=
    (get_requests_from_union s "ClientNotification" ++ get_requests_from_union s "ServerNotification").filterMap
      (fun t => extract_method_name s t)
  (methods, notifs)

/-! ## Name derivation (`sync-manifest.py`) -/

/-- `SWIFT_METHOD_MAPPINGS` (`sync-manifest.py`, lines 145-156): the literal
exception table consulted before the structural derivation. -/
def SWIFT_METHOD_MAPPINGS : List (String × String) :=
  [("sampling/createMessage", "requestSampling"),
   ("elicitation/create", "requestElicitation"),
   ("roots/list", "listRoots"),
   ("logging/setLevel", "setLoggingLevel"),
   ("completion/complete", "complete"),
   ("resources/templates/list", "listResourceTemplates"),
   ("tasks/get", "getTask"),
   ("tasks/list", "listTasks"),
   ("tasks/cancel", "cancelTask"),
   ("tasks/result", "getTaskResult")]

/-- `to_swift_method_name(method)` (`sync-manifest.py`, lines 160-181). -/
def to_swift_method_name (method : String) : String :=
  match dictGet SWIFT_METHOD_MAPPINGS method with
  | some v => v
  | none =>
      match splitOnChar '/' method.data with
      | [categoryChars, actionChars] =>
          let category := ofChars categoryChars
          let action := ofChars actionChars
          let singular := if pyEndsWith category "s" then pyRstripS category else category
          if action == "list" then "list" ++ pyTitle category
          else if action == "get" || action == "read" || action == "call" then
            action ++ pyTitle singular
          else if action == "subscribe" then "subscribeTo" ++ pyTitle singular
          else if action == "unsubscribe" then "unsubscribeFrom" ++ pyTitle singular
          else action ++ pyTitle singular
      | _ => method

/-- `get_method_direction(method_name, client_requests, server_requests,
all_request_types)` (`sync-manifest.py`, lines 184-199).  The sets become
lists used through membership; `if not req_type` is the Python falsiness
test, true for a missing binding and for the empty string. -/
def get_method_direction (methodName : String)
    (clientRequests serverRequests : List String)
    (allRequestTypes : List (String × String)) : String :=
  match dictGet allRequestTypes methodName with
  | none => "unknown"
  | some reqType =>
      if reqType == "" then "unknown"
      else
        let isClient := clientRequests.contains reqType
        let isServer := serverRequests.contains reqType
        if isClient && isServer then "bidirectional"
        else if isClient then "client_to_server"
        else if isServer then "server_to_client"
        else "unknown"

/-- `to_client_handler_name(method)` (`sync-manifest.py`, lines 202-217).
`split` never returns an empty list, and the source indexes `category[0]`,
raising on a method that starts with a slash; that out-of-model crash case
is given an inert value here. -/
def to_client_handler_name (method : String) : String :=
  match splitOnChar '/' method.data with
  | [] => "with" ++ pyTitle method ++ "Handler"
  | categoryChars :: _ =>
      match categoryChars with
      | [] => "withHandler"
      | c :: rest => "with" ++ ofChars (c.toUpper :: rest) ++ "Handler"

/-- `to_send_method_name(notification_type)` (`sync-manifest.py`,
lines 220-235).  Note the source uses `replace`, which removes every
occurrence of "Notification", then lowercases the first letter and
re-uppercases it inside the f-string. -/
def to_send_method_name (notificationType : String) : String :=
  let base := pyReplace notificationType "Notification" ""
  let base2 := ofChars (lowerFirst base.data)
  if base2 == "" then "send" else "send" ++ ofChars (upperFirst base2.data)

/-- `get_notification_direction(notif_type, client_notifications,
server_notifications)` (`sync-manifest.py`, lines 238-254). -/
def get_notification_direction (notifType : String)
    (clientNotifications serverNotifications : List String) : String :=
  let isClient := clientNotifications.contains notifType
  let isServer := serverNotifications.contains notifType
  if isClient && isServer then "bidirectional"
  else if isClient then "client_to_server"
  else if isServer then "server_to_client"
  else "unknown"

/-- `get_module_id_from_method(method_name)` (`sync-manifest.py`,
lines 310-326).  `split` never returns an empty list, so the
`len(parts) >= 1` branch is always taken. -/
def get_module_id_from_method (methodName : String) : String :=
  match splitOnChar '/' methodName.data with
  | [] => "unknown"
  | categoryChars :: _ =>
      let category := ofChars categoryChars
      if category == "completion" then "completions" else category

/-- `get_module_id_from_notification(notif_name)` (`sync-manifest.py`,
lines 329-351). -/
def get_module_id_from_notification (notifName : String) : String :=
  match splitOnChar '/' notifName.data with
  | _ :: categoryChars :: _ =>
      let category := ofChars categoryChars
      if category == "initialized" then "lifecycle"
      else if category == "resources" || category == "prompts" || category == "tools"
          || category == "roots" || category == "tasks" then category
      else if category == "message" then "logging"
      else if category == "elicitation" then "elicitation"
      else category
  | _ => "unknown"

/-- Spec-side record built by `load_spec_methods` for one method. -/
structure SpecMethodInfo where
  request_type : String
  direction : String
  swift_method : String
  client_handler : String
deriving DecidableEq, Repr

/-- Spec-side record built by `load_spec_notifications` for one
notification. -/
structure SpecNotifInfo where
  notification_type : String
  direction : String
  send_method : String
deriving DecidableEq, Repr

/-- The `all_request_types` dictionary of `load_spec_methods`
(`sync-manifest.py`, lines 290-295).  The Python set union
`client_requests | server_requests` iterates in an unspecified order; it is
modelled as the deduplicated concatenation, which realizes one such order. -/
def all_request_types (s : Schema) : List (String × String) :=
  ((get_requests_from_union s "ClientRequest" ++
      get_requests_from_union s "ServerRequest").dedup).foldl
    (fun acc reqType =>
      match extract_method_name s reqType with
      | some n => dictSet acc n reqType
      | none => acc) []

/-- `load_spec_methods(schema)` (`sync-manifest.py`, lines 285-307). -/
def load_spec_methods (s : Schema) : List (String × SpecMethodInfo) :=
  let clientRequests := get_requests_from_union s "ClientRequest"
  let serverRequests := get_requests_from_union s "ServerRequest"
  let art := all_request_types s
  art.map (fun p =>
    (p.1,
      { request_type := p.2,
        direction := get_method_direction p.1 clientRequests serverRequests art,
        swift_method := to_swift_method_name p.1,
        client_handler := to_client_handler_name p.1 }))

/-- `load_spec_notifications(schema)` (`sync-manifest.py`, lines 257-282).
The union of the two notification sets is again realized as a deduplicated
concatenation. -/
def load_spec_notifications (s : Schema) : List (String × SpecNotifInfo) :=
  let clientNotifications := get_requests_from_union s "ClientNotification"
  let serverNotifications := get_requests_from_union s "ServerNotification"
  ((clientNotifications ++ serverNotifications).dedup).foldl
    (fun acc notifType =>
      match extract_method_name s notifType with
      | none => acc
      | some methodName =>
          dictSet acc methodName
            { notification_type := notifType,
              direction := get_notification_direction notifType clientNotifications serverNotifications,
              send_method := to_send_method_name notifType }) []

/-! ## Manifest model (`manifest.yaml` as read by the scripts)

Entries are modelled with exactly the keys the scripts read or write.  A key
that a script reads with `.get` may be missing, hence the `Option` fields.
Keys that are indexed directly (`e["name"]`, `c["property"]`, ...) are
assumed present, since the scripts raise otherwise.  YAML distinguishes a
missing key from an explicit `null` value; the three-valued `YField` keeps
that distinction for the `swift` keys, where the scripts treat the two
differently (a missing key falls back to the spec name, an explicit null is
reported as missing). -/

inductive YField (α : Type) where
  | absent
  | nullv
  | val (a : α)
deriving DecidableEq, Repr

/-- A `verification` block: `status` and `notes`, each possibly missing. -/
structure Verification where
  status : Option String
  notes : Option String
deriving DecidableEq, Repr

/-- The `swift` key of a manifest type entry: missing, null, one name, or a
list of names. -/
inductive TypeSwift where
  | absent
  | nullv
  | str (s : String)
  | list (l : List String)
deriving DecidableEq, Repr

/-- The `file` key of a manifest type entry: missing, one path, or a list of
paths. -/
inductive TypeFile where
  | absent
  | one (s : String)
  | many (l : List String)
deriving DecidableEq, Repr

structure TypeEntry where
  swift : TypeSwift
  file : TypeFile
  spec_name : Option String
  implementation : Option String
  kind : Option String
  verification : Option Verification
deriving DecidableEq, Repr

structure HandlerReg where
  file : String
  pattern : String
deriving DecidableEq, Repr

structure MethodEntry where
  name : Option String
  swift : Option String
  client_method : Option String
  server_method : Option String
  client_handler : Option String
  handler_registration : Option HandlerReg
  implementation : Option String
  verification : Option Verification
deriving DecidableEq, Repr

structure NotifEntry where
  name : Option String
  swift : Option String
  sender : Option String
  server_send : Option String
  client_send : Option String
  implementation : Option String
  verification : Option Verification
deriving DecidableEq, Repr

/-- A manifest module entry (named `MModule` because `Module` is taken by
the mathematics library). -/
structure MModule where
  id : Option String
  category : Option String
  description : Option String
  swift_file : Option String
  implementation : Option String
  methods : List MethodEntry
  notifications : List NotifEntry
  verification : Option Verification
deriving DecidableEq, Repr

structure CaseEntry where
  spec : Option String
  swift : Option String
  name : Option String
deriving DecidableEq, Repr

structure EnumEntry where
  name : String
  swift : YField String
  file : Option String
  cases : List CaseEntry
  verification : Option Verification
deriving DecidableEq, Repr

structure ErrorCodeEntry where
  name : String
  code : Int
  category : Option String
  swift : Option String
  swift_handling : Option String
  verification : Option Verification
deriving DecidableEq, Repr

structure NestedCapEntry where
  name : Option String
  swift : Option String
deriving DecidableEq, Repr

structure CapEntry where
  property : String
  swift : YField String
  nested : List NestedCapEntry
  verification : Option Verification
deriving DecidableEq, Repr

structure DeprecatedEntry where
  name : String
  replacement : String
  notes : String
deriving DecidableEq, Repr

/-- The manifest document.  A section that is missing from the YAML behaves
exactly like an empty one in every script (each script reads sections with
`.get(..., default)` or inserts the empty default first), so sections are
plain lists. -/
structure Manifest where
  types : List (String × TypeEntry)
  modules : List MModule
  enums : List EnumEntry
  error_codes : List ErrorCodeEntry
  capabilities_client : List CapEntry
  capabilities_server : List CapEntry
  deprecated : List DeprecatedEntry
deriving DecidableEq, Repr

/-! ## Swift type discovery (`sync-manifest.py`, lines 37-130) -/

/-- The value side of the Swift type index `extract_swift_types` returns
(`{"kind": kind, "file": file}`); the index itself is an input of the
synchronizer, produced by the external AST-based extractor. -/
structure SwiftTypeInfo where
  kind : String
  file : String
deriving DecidableEq, Repr

/-- `build_spec_to_swift_mapping(swift_types)` (`sync-manifest.py`,
lines 72-106): candidate spec name to Swift name, with later Swift types
overwriting earlier bindings exactly as repeated dictionary assignment
does. -/
def build_spec_to_swift_mapping (swiftTypes : List (String × SwiftTypeInfo)) :
    List (String × String) :=
  swiftTypes.foldl (fun mapping p =>
    let swiftName := p.1
    let m1 := dictSet mapping swiftName swiftName
    let m2 :=
      if swiftName.data.contains '.' then
        dictSet m1 (pyReplace swiftName "." "") swiftName
      else m1
    let m3 :=
      if !(pyStartsWith swiftName "JSONRPC") && !(swiftName.data.contains '.') then
        dictSet m2 ("JSONRPC" ++ swiftName) swiftName
      else m2
    if pyStartsWith swiftName "MCP" && swiftName.data.length > 3 then
      dictSet m3 (ofChars (swiftName.data.drop 3)) swiftName
    else m3) []

/-- The CamelCase-splitting loop of `find_swift_type` (`sync-manifest.py`,
lines 120-128): walk `i` from `len-1` down to `1` and try
`spec_name[:i] ++ "." ++ spec_name[i:]` whenever `spec_name[i]` is upper
case. -/
def findNestedSplit (cs : List Char) (swiftTypes : List (String × SwiftTypeInfo)) :
    Nat → Option String × Option String
  | 0 => (none, none)
  | i + 1 =>
      let c := cs.getD (i + 1) ' '
      if c.isUpper then
        let nested := ofChars (cs.take (i + 1)) ++ "." ++ ofChars (cs.drop (i + 1))
        match dictGet swiftTypes nested with
        | some info => (some nested, some info.file)
        | none => findNestedSplit cs swiftTypes i
      else findNestedSplit cs swiftTypes i

/-- `find_swift_type(spec_name, spec_to_swift, swift_types)`
(`sync-manifest.py`, lines 109-130). -/
def find_swift_type (specName : String) (specToSwift : List (String × String))
    (swiftTypes : List (String × SwiftTypeInfo)) : Option String × Option String :=
  match dictGet specToSwift specName with
  | some swiftName => (some swiftName, (dictGet swiftTypes swiftName).map (fun i => i.file))
  | none => findNestedSplit specName.data swiftTypes (specName.data.length - 1)

/-! ## Manifest synchronizer (`sync-manifest.py`) -/

/-- The manifest type names known to `sync_types` (keys plus `spec_name`
overrides, `sync-manifest.py` lines 576-580); a Python set, used only
through membership. -/
def manifestTypeNames (types : List (String × TypeEntry)) : List String :=
  types.map Prod.fst ++ types.filterMap (fun p => p.2.spec_name)

/-- The manifest entry `sync_types` builds for one absent spec type
(`sync-manifest.py`, lines 584-604). -/
def newSyncType (specType : String) (specToSwift : List (String × String))
    (swiftTypes : List (String × SwiftTypeInfo)) : TypeEntry :=
  match find_swift_type specType specToSwift swiftTypes with
  | (some swiftName, swiftFile) =>
      { swift := TypeSwift.str swiftName,
        file := TypeFile.one (match swiftFile with | some f => f | none => ""),
        spec_name := none, implementation := none, kind := none,
        verification := some { status := some "pending",
                               notes := some "Auto-discovered from Swift codebase" } }
  | (none, _) =>
      { swift := TypeSwift.str ("TODO_" ++ specType),
        file := TypeFile.one "",
        spec_name := none, implementation := none, kind := none,
        verification := some { status := some "pending",
                               notes := some "No matching Swift type found" } }

/-- One iteration of the `sync_types` loop (`sync-manifest.py`,
lines 582-608); the membership test uses the name snapshot taken before the
loop. -/
def syncTypesStep (names0 : List String) (specToSwift : List (String × String))
    (swiftTypes : List (String × SwiftTypeInfo)) (dryRun : Bool)
    (acc : Manifest × Nat) (specType : String) : Manifest × Nat :=
  if names0.contains specType then acc
  else
    ((if dryRun then acc.1
      else { acc.1 with
               types := dictSet acc.1.types specType
                 (newSyncType specType specToSwift swiftTypes) }),
     acc.2 + 1)

/-- `sync_types(manifest, spec_types, swift_types, spec_to_swift, dry_run)`
(`sync-manifest.py`, lines 557-610).  Returns the updated manifest and the
change count. -/
def sync_types (m : Manifest) (specTypes : List String)
    (swiftTypes : List (String × SwiftTypeInfo)) (specToSwift : List (String × String))
    (dryRun : Bool) : Manifest × Nat :=
  let names0 := manifestTypeNames m.types
  (pySortStr specTypes).foldl (syncTypesStep names0 specToSwift swiftTypes dryRun) (m, 0)

/-- `find_method_in_manifest(manifest, method_name)` (`sync-manifest.py`,
lines 377-383), reduced to the entry (the accompanying module is unused by
the caller beyond its none-test). -/
def find_method_in_manifest (mods : List MModule) (methodName : String) :
    Option MethodEntry :=
  match mods with
  | [] => none
  | mo :: rest =>
      match mo.methods.find? (fun me => me.name == some methodName) with
      | some me => some me
      | none => find_method_in_manifest rest methodName

/-- `find_notification_in_manifest(manifest, notif_name)`
(`sync-manifest.py`, lines 465-471). -/
def find_notification_in_manifest (mods : List MModule) (notifName : String) :
    Option NotifEntry :=
  match mods with
  | [] => none
  | mo :: rest =>
      match mo.notifications.find? (fun ne => ne.name == some notifName) with
      | some ne => some ne
      | none => find_notification_in_manifest rest notifName

/-- The fresh module `find_or_create_module` builds (`sync-manifest.py`,
lines 360-369). -/
def newSyncModule (moduleId : String) : MModule :=
  { id := some moduleId,
    category := some "feature",
    description := some ("Auto-generated module for " ++ moduleId),
    swift_file := some ("Sources/MCP/TODO/" ++ pyTitle moduleId ++ ".swift"),
    implementation := none,
    methods := [], notifications := [],
    verification := some { status := some "pending", notes := some "Auto-added by sync" } }

/-- Append a method entry to the first module with the given id. -/
def appendMethodAt : List MModule → String → MethodEntry → List MModule
  | [], _, _ => []
  | mo :: rest, moduleId, me =>
      if mo.id == some moduleId then { mo with methods := mo.methods ++ [me] } :: rest
      else mo :: appendMethodAt rest moduleId me

/-- `find_or_create_module` followed by appending the new method entry to it
(`sync-manifest.py`, lines 354-374 and 419): either the first module with
the id gains the entry, or a fresh module holding it is appended. -/
def addMethodToModules (mods : List MModule) (moduleId : String) (me : MethodEntry) :
    List MModule :=
  if mods.any (fun mo => mo.id == some moduleId) then appendMethodAt mods moduleId me
  else mods ++ [{ newSyncModule moduleId with methods := [me] }]

/-- Append a notification entry to the first module with the given id. -/
def appendNotifAt : List MModule → String → NotifEntry → List MModule
  | [], _, _ => []
  | mo :: rest, moduleId, ne =>
      if mo.id == some moduleId then
        { mo with notifications := mo.notifications ++ [ne] } :: rest
      else mo :: appendNotifAt rest moduleId ne

/-- `find_or_create_module` followed by appending the new notification entry
(`sync-manifest.py`, lines 484 and 513). -/
def addNotifToModules (mods : List MModule) (moduleId : String) (ne : NotifEntry) :
    List MModule :=
  if mods.any (fun mo => mo.id == some moduleId) then appendNotifAt mods moduleId ne
  else mods ++ [{ newSyncModule moduleId with notifications := [ne] }]

/-- Replace the first method entry with the given name inside one methods
list. -/
def replaceMethodEntry : List MethodEntry → String → MethodEntry → List MethodEntry
  | [], _, _ => []
  | me :: rest, n, e2 =>
      if me.name == some n then e2 :: rest else me :: replaceMethodEntry rest n e2

/-- Replace the first method entry with the given name across the modules
(the in-place mutation of the entry `find_method_in_manifest` returned). -/
def replaceMethodInModules : List MModule → String → MethodEntry → List MModule
  | [], _, _ => []
  | mo :: rest, n, e2 =>
      if mo.methods.any (fun me => me.name == some n) then
        { mo with methods := replaceMethodEntry mo.methods n e2 } :: rest
      else mo :: replaceMethodInModules rest n e2

/-- Replace the first notification entry with the given name inside one
notifications list. -/
def replaceNotifEntry : List NotifEntry → String → NotifEntry → List NotifEntry
  | [], _, _ => []
  | ne :: rest, n, e2 =>
      if ne.name == some n then e2 :: rest else ne :: replaceNotifEntry rest n e2

/-- Replace the first notification entry with the given name across the
modules. -/
def replaceNotifInModules : List MModule → String → NotifEntry → List MModule
  | [], _, _ => []
  | mo :: rest, n, e2 =>
      if mo.notifications.any (fun ne => ne.name == some n) then
        { mo with notifications := replaceNotifEntry mo.notifications n e2 } :: rest
      else mo :: replaceNotifInModules rest n e2

/-- The new method entry of `sync_methods` (`sync-manifest.py`,
lines 398-414). -/
def newSyncMethod (methodName : String) (info : SpecMethodInfo) : MethodEntry :=
  { name := some methodName,
    swift := some (pyReplace info.request_type "Request" ""),
    client_method :=
      if info.direction == "client_to_server" || info.direction == "bidirectional" then
        some info.swift_method
      else none,
    server_method :=
      if info.direction == "server_to_client" || info.direction == "bidirectional" then
        some info.swift_method
      else none,
    client_handler :=
      if info.direction == "server_to_client" && info.client_handler != "" then
        some info.client_handler
      else none,
    handler_registration := none, implementation := none,
    verification := some { status := some "pending", notes := some "Auto-added by sync" } }

/-- The update pass on an existing method entry (`sync-manifest.py`,
lines 423-461): fill in the fields the direction requires when they are
missing, counting one change per filled field. -/
def fillMethodEntry (e : MethodEntry) (info : SpecMethodInfo) : MethodEntry × Nat :=
  if info.direction == "client_to_server" then
    if e.client_method.isNone then ({ e with client_method := some info.swift_method }, 1)
    else (e, 0)
  else if info.direction == "server_to_client" then
    let p1 : MethodEntry × Nat :=
      if e.server_method.isNone then ({ e with server_method := some info.swift_method }, 1)
      else (e, 0)
    if info.client_handler != "" && p1.1.client_handler.isNone then
      ({ p1.1 with client_handler := some info.client_handler }, p1.2 + 1)
    else p1
  else if info.direction == "bidirectional" then
    let p1 : MethodEntry × Nat :=
      if e.client_method.isNone then ({ e with client_method := some info.swift_method }, 1)
      else (e, 0)
    if p1.1.server_method.isNone then
      ({ p1.1 with server_method := some info.swift_method }, p1.2 + 1)
    else p1
  else (e, 0)

/-- One iteration of the `sync_methods` loop (`sync-manifest.py`,
lines 390-461). -/
def syncMethodsStep (dryRun : Bool) (acc : Manifest × Nat)
    (item : String × SpecMethodInfo) : Manifest × Nat :=
  match find_method_in_manifest acc.1.modules item.1 with
  | none =>
      let moduleId := get_module_id_from_method item.1
      ((if dryRun then acc.1
        else { acc.1 with
                 modules := addMethodToModules acc.1.modules moduleId
                   (newSyncMethod item.1 item.2) }),
       acc.2 + 1)
  | some e =>
      let p := fillMethodEntry e item.2
      ((if dryRun then acc.1
        else { acc.1 with modules := replaceMethodInModules acc.1.modules item.1 p.1 }),
       acc.2 + p.2)

/-- `sync_methods(manifest, spec_methods, dry_run)` (`sync-manifest.py`,
lines 386-462). -/
def sync_methods (m : Manifest) (specMethods : List (String × SpecMethodInfo))
    (dryRun : Bool) : Manifest × Nat :=
  (pySortPairs specMethods).foldl (syncMethodsStep dryRun) (m, 0)

/-- The sender derived from a direction (`sync-manifest.py`, lines 489-495
and 521-527). -/
def notifSender (direction : String) : String :=
  if direction == "client_to_server" then "client"
  else if direction == "server_to_client" then "server"
  else "both"

/-- The new notification entry of `sync_notifications` (`sync-manifest.py`,
lines 497-508). -/
def newSyncNotif (notifName : String) (info : SpecNotifInfo) : NotifEntry :=
  { name := some notifName,
    swift := some info.notification_type,
    sender := some (notifSender info.direction),
    server_send :=
      if info.direction == "server_to_client" || info.direction == "bidirectional" then
        some info.send_method
      else none,
    client_send :=
      if info.direction == "client_to_server" || info.direction == "bidirectional" then
        some "notify"
      else none,
    implementation := none,
    verification := some { status := some "pending", notes := some "Auto-added by sync" } }

/-- The update pass on an existing notification entry (`sync-manifest.py`,
lines 517-548). -/
def fillNotifEntry (e : NotifEntry) (info : SpecNotifInfo) : NotifEntry × Nat :=
  let p1 : NotifEntry × Nat :=
    if e.sender.isNone then ({ e with sender := some (notifSender info.direction) }, 1)
    else (e, 0)
  let p2 : NotifEntry × Nat :=
    if (info.direction == "server_to_client" || info.direction == "bidirectional")
        && p1.1.server_send.isNone then
      ({ p1.1 with server_send := some info.send_method }, p1.2 + 1)
    else p1
  if (info.direction == "client_to_server" || info.direction == "bidirectional")
      && p2.1.client_send.isNone then
    ({ p2.1 with client_send := some "notify" }, p2.2 + 1)
  else p2

/-- One iteration of the `sync_notifications` loop (`sync-manifest.py`,
lines 478-548). -/
def syncNotifsStep (dryRun : Bool) (acc : Manifest × Nat)
    (item : String × SpecNotifInfo) : Manifest × Nat :=
  match find_notification_in_manifest acc.1.modules item.1 with
  | none =>
      let moduleId := get_module_id_from_notification item.1
      ((if dryRun then acc.1
        else { acc.1 with
                 modules := addNotifToModules acc.1.modules moduleId
                   (newSyncNotif item.1 item.2) }),
       acc.2 + 1)
  | some e =>
      let p := fillNotifEntry e item.2
      ((if dryRun then acc.1
        else { acc.1 with modules := replaceNotifInModules acc.1.modules item.1 p.1 }),
       acc.2 + p.2)

/-- `sync_notifications(manifest, spec_notifications, dry_run)`
(`sync-manifest.py`, lines 474-550). -/
def sync_notifications (m : Manifest) (specNotifs : List (String × SpecNotifInfo))
    (dryRun : Bool) : Manifest × Nat :=
  (pySortPairs specNotifs).foldl (syncNotifsStep dryRun) (m, 0)

/-- `c.get("spec", c.get("name", ""))` for an enum case entry
(`sync-manifest.py`, line 645). -/
def caseSpecName (c : CaseEntry) : String :=
  match c.spec with
  | some s => s
  | none => match c.name with | some s => s | none => ""

/-- Find the enum entry a name maps to in the `manifest_enums` dictionary:
with duplicate names the comprehension keeps the last entry. -/
def lastEnumNamed (l : List EnumEntry) (n : String) : Option EnumEntry :=
  l.reverse.find? (fun e => e.name == n)

/-- Replace the last enum entry with the given name (the entry aliased by
the `manifest_enums` dictionary). -/
def updateLastEnum : List EnumEntry → String → EnumEntry → List EnumEntry
  | [], _, _ => []
  | e :: rest, n, e2 =>
      if rest.any (fun x => x.name == n) then e :: updateLastEnum rest n e2
      else if e.name == n then e2 :: rest
      else e :: rest

/-- One iteration of the `sync_enums` loop (`sync-manifest.py`,
lines 627-653).  The membership test uses the name snapshot taken before the
loop; the mutation reads the aliased entry's current cases. -/
def syncEnumsStep (names0 : List String) (dryRun : Bool) (acc : Manifest × Nat)
    (item : String × List String) : Manifest × Nat :=
  if names0.contains item.1 then
    match lastEnumNamed acc.1.enums item.1 with
    | none => acc
    | some e =>
        let existingSpecCases := e.cases.map caseSpecName
        let missing := item.2.filter (fun sc => !(existingSpecCases.contains sc))
        let e2 := { e with
          cases := e.cases ++ missing.map (fun sc =>
            { spec := some sc, swift := some sc, name := none }) }
        ((if dryRun then acc.1
          else { acc.1 with enums := updateLastEnum acc.1.enums item.1 e2 }),
         acc.2 + missing.length)
  else
    let newEnum : EnumEntry :=
      { name := item.1, swift := YField.val item.1, file := some "",
        cases := item.2.map (fun c => { spec := some c, swift := some c, name := none }),
        verification := some { status := some "pending", notes := some "" } }
    ((if dryRun then acc.1 else { acc.1 with enums := acc.1.enums ++ [newEnum] }),
     acc.2 + 1)

/-- `sync_enums(manifest, spec_enums, dry_run)` (`sync-manifest.py`,
lines 617-655). -/
def sync_enums (m : Manifest) (specEnums : List (String × List String))
    (dryRun : Bool) : Manifest × Nat :=
  let names0 := m.enums.map (fun e => e.name)
  (pySortPairs specEnums).foldl (syncEnumsStep names0 dryRun) (m, 0)

/-- `JSONRPC_ERROR_SWIFT_CASES` (`sync-manifest.py`, lines 663-669). -/
def JSONRPC_ERROR_SWIFT_CASES : List (String × String) :=
  [("PARSE_ERROR", "parseError"),
   ("INVALID_REQUEST", "invalidRequest"),
   ("METHOD_NOT_FOUND", "methodNotFound"),
   ("INVALID_PARAMS", "invalidParams"),
   ("INTERNAL_ERROR", "internalError")]

/-- One iteration of the `sync_error_codes` loop (`sync-manifest.py`,
lines 682-704). -/
def syncCodesStep (names0 : List String) (dryRun : Bool) (acc : Manifest × Nat)
    (item : String × Int) : Manifest × Nat :=
  if names0.contains item.1 then acc
  else
    let swiftCase := dictGet JSONRPC_ERROR_SWIFT_CASES item.1
    let newCode : ErrorCodeEntry :=
      { name := item.1, code := item.2,
        category := some (if (dictGet JSONRPC_ERROR_SWIFT_CASES item.1).isSome
                          then "jsonrpc" else "mcp"),
        swift := swiftCase,
        swift_handling :=
          if swiftCase.isSome then none else some "serverError(code:message:)",
        verification := some { status := some "pending", notes := some "" } }
    ((if dryRun then acc.1
      else { acc.1 with error_codes := acc.1.error_codes ++ [newCode] }),
     acc.2 + 1)

/-- `sync_error_codes(manifest, spec_codes, dry_run)` (`sync-manifest.py`,
lines 672-706). -/
def sync_error_codes (m : Manifest) (specCodes : List (String × Int))
    (dryRun : Bool) : Manifest × Nat :=
  let names0 := m.error_codes.map (fun c => c.name)
  (pySortPairs specCodes).foldl (syncCodesStep names0 dryRun) (m, 0)

/-- `n.get("name", n.get("swift", ""))` for a nested capability entry
(`sync-manifest.py`, line 742). -/
def nestedCapName (n : NestedCapEntry) : String :=
  match n.name with
  | some s => s
  | none => match n.swift with | some s => s | none => ""

/-- Find the capability entry a property maps to in the `existing`
dictionary (last entry on duplicate properties). -/
def lastCapNamed (l : List CapEntry) (p : String) : Option CapEntry :=
  l.reverse.find? (fun c => c.property == p)

/-- Replace the last capability entry with the given property. -/
def updateLastCap : List CapEntry → String → CapEntry → List CapEntry
  | [], _, _ => []
  | c :: rest, p, c2 =>
      if rest.any (fun x => x.property == p) then c :: updateLastCap rest p c2
      else if c.property == p then c2 :: rest
      else c :: rest

/-- One iteration of the `sync_cap_list` loop (`sync-manifest.py`,
lines 726-750). -/
def syncCapStep (props0 : List String) (dryRun : Bool) (acc : List CapEntry × Nat)
    (item : String × List String) : List CapEntry × Nat :=
  if props0.contains item.1 then
    match lastCapNamed acc.1 item.1 with
    | none => acc
    | some ce =>
        let existingNested := ce.nested.map nestedCapName
        let missing := item.2.filter (fun nn => !(existingNested.contains nn))
        let ce2 := { ce with
          nested := ce.nested ++ missing.map (fun nn =>
            { name := some nn, swift := some nn }) }
        ((if dryRun then acc.1 else updateLastCap acc.1 item.1 ce2),
         acc.2 + missing.length)
  else
    let newCap : CapEntry :=
      { property := item.1, swift := YField.val item.1,
        nested := (pySortStr item.2).map (fun nn => { name := some nn, swift := some nn }),
        verification := some { status := some "pending", notes := some "" } }
    ((if dryRun then acc.1 else acc.1 ++ [newCap]), acc.2 + 1)

/-- `sync_cap_list(cap_type, spec_caps)` (`sync-manifest.py`,
lines 721-752), acting on one capability list. -/
def sync_cap_list (capList : List CapEntry) (specCaps : List (String × List String))
    (dryRun : Bool) : List CapEntry × Nat :=
  let props0 := capList.map (fun c => c.property)
  (pySortPairs specCaps).foldl (syncCapStep props0 dryRun) (capList, 0)

/-- `sync_capabilities(manifest, client_caps, server_caps, dry_run)`
(`sync-manifest.py`, lines 713-760). -/
def sync_capabilities (m : Manifest) (clientCaps serverCaps : List (String × List String))
    (dryRun : Bool) : Manifest × Nat :=
  let pc := sync_cap_list m.capabilities_client clientCaps dryRun
  let ps := sync_cap_list m.capabilities_server serverCaps dryRun
  ({ m with capabilities_client := pc.1, capabilities_server := ps.1 }, pc.2 + ps.2)

/-- Python `description[:100]` on character lists. -/
def truncate100 (s : String) : String := ofChars (s.data.take 100)

/-- One iteration of the `sync_deprecated` loop (`sync-manifest.py`,
lines 777-788). -/
def syncDeprecatedStep (names0 : List String) (dryRun : Bool) (acc : Manifest × Nat)
    (item : String × String) : Manifest × Nat :=
  if names0.contains item.1 then acc
  else
    let newDep : DeprecatedEntry :=
      { name := item.1, replacement := "",
        notes := if item.2 == "" then "" else truncate100 item.2 }
    ((if dryRun then acc.1
      else { acc.1 with deprecated := acc.1.deprecated ++ [newDep] }),
     acc.2 + 1)

/-- `sync_deprecated(manifest, spec_deprecated, dry_run)`
(`sync-manifest.py`, lines 767-790). -/
def sync_deprecated (m : Manifest) (specDeprecated : List (String × String))
    (dryRun : Bool) : Manifest × Nat :=
  let names0 := m.deprecated.map (fun d => d.name)
  (pySortPairs specDeprecated).foldl (syncDeprecatedStep names0 dryRun) (m, 0)

/-- The spec-side inputs of one synchronizer run: the Swift type index and
the extracted schema data, exactly the values `main` computes before calling
the `sync_*` functions (`sync-manifest.py`, lines 814-828). -/
structure SyncInputs where
  swiftTypes : List (String × SwiftTypeInfo)
  specTypes : List String
  specMethods : List (String × SpecMethodInfo)
  specNotifs : List (String × SpecNotifInfo)
  specEnums : List (String × List String)
  specCodes : List (String × Int)
  clientCaps : List (String × List String)
  serverCaps : List (String × List String)
  specDeprecated : List (String × String)
deriving Repr

/-- The sync pipeline of `main` (`sync-manifest.py`, lines 843-866): the
seven categories in source order, threading the manifest, returning the
total change count. -/
def syncAll (m : Manifest) (A : SyncInputs) (dryRun : Bool) : Manifest × Nat :=
  let specToSwift := build_spec_to_swift_mapping A.swiftTypes
  let p1 := sync_types m A.specTypes A.swiftTypes specToSwift dryRun
  let p2 := sync_methods p1.1 A.specMethods dryRun
  let p3 := sync_notifications p2.1 A.specNotifs dryRun
  let p4 := sync_enums p3.1 A.specEnums dryRun
  let p5 := sync_error_codes p4.1 A.specCodes dryRun
  let p6 := sync_capabilities p5.1 A.clientCaps A.serverCaps dryRun
  let p7 := sync_deprecated p6.1 A.specDeprecated dryRun
  (p7.1, p1.2 + p2.2 + p3.2 + p4.2 + p5.2 + p6.2 + p7.2)

/-! ## Swift source text scanning (`verify-protocol-coverage.py`)

`method_exists` and the inline regex searches of the verifier operate on
in-memory file contents; they are reimplemented here character by
character.  `\w` and `\s` are taken in their ASCII reading (the scanned
Swift sources are ASCII). -/

/-- Python regex `\w` on ASCII text. -/
def isWordChar (c : Char) : Bool := c.isAlphanum || c == '_'

/-- Python regex `\s` on ASCII text. -/
def isPySpace (c : Char) : Bool :=
  c == ' ' || c == '\t' || c == '\n' || c == '\r' || c.toNat == 11 || c.toNat == 12

/-- Skip to the next newline, keeping it (`re.sub(r'//.*$', ...)` removes up
to, not including, the line end). -/
def dropToNewline : List Char → List Char
  | [] => []
  | c :: cs => if c == '\n' then c :: cs else dropToNewline cs

/-- Remove `//` line comments (fuelled scan; the fuel is the length of the
list). -/
def stripLineCommentsAux : Nat → List Char → List Char
  | 0, cs => cs
  | _ + 1, [] => []
  | fuel + 1, '/' :: '/' :: rest => stripLineCommentsAux fuel (dropToNewline rest)
  | fuel + 1, c :: cs => c :: stripLineCommentsAux fuel cs

/-- Skip past the closing `*/` of a block comment, if any. -/
def dropToBlockEnd : List Char → Option (List Char)
  | [] => none
  | '*' :: '/' :: rest => some rest
  | _ :: cs => dropToBlockEnd cs

/-- Remove `/* ... */` block comments, leftmost-shortest first, exactly like
`re.sub(r'/\*.*?\*/', '', s, flags=re.DOTALL)`; an unterminated opener is
left in place because the regex does not match it. -/
def stripBlockCommentsAux : Nat → List Char → List Char
  | 0, cs => cs
  | _ + 1, [] => []
  | fuel + 1, '/' :: '*' :: rest =>
      (match dropToBlockEnd rest with
       | some rest2 => stripBlockCommentsAux fuel rest2
       | none => '/' :: '*' :: rest)
  | fuel + 1, c :: cs => c :: stripBlockCommentsAux fuel cs

/-- Match `func\s+NAME\s*[<(]` at the head of the list. -/
def matchFuncTail (name : List Char) (cs : List Char) : Bool :=
  charsPrefix ['f', 'u', 'n', 'c'] cs &&
    (match cs.drop 4 with
     | [] => false
     | c :: rest =>
         isPySpace c &&
           (let r2 := (c :: rest).dropWhile isPySpace
            charsPrefix name r2 &&
              (match (r2.drop name.length).dropWhile isPySpace with
               | '<' :: _ => true
               | '(' :: _ => true
               | _ => false)))

/-- Match the optional access modifier group
`(?:public\s+|internal\s+|open\s+)?` followed by the func tail. -/
def matchModifierTail (name : List Char) (cs : List Char) : Bool :=
  let tryMod (w : List Char) : Bool :=
    charsPrefix w cs &&
      (match cs.drop w.length with
       | [] => false
       | c :: rest => isPySpace c && matchFuncTail name ((c :: rest).dropWhile isPySpace))
  tryMod ['p', 'u', 'b', 'l', 'i', 'c'] ||
  tryMod ['i', 'n', 't', 'e', 'r', 'n', 'a', 'l'] ||
  tryMod ['o', 'p', 'e', 'n'] ||
  matchFuncTail name cs

/-- Search every position whose preceding character is not a word character
(the `(?:^|(?<!\w))` anchor; a line start is subsumed because a newline is
not a word character). -/
def searchFuncAux (name : List Char) : Bool → List Char → Bool
  | _, [] => false
  | prevWord, c :: cs =>
      (!prevWord && matchModifierTail name (c :: cs)) ||
        searchFuncAux name (isWordChar c) cs

/-- `method_exists(method_name, content)` (`verify-protocol-coverage.py`,
lines 74-90): strip comments, then search for a non-private `func`
declaration of the name. -/
def method_exists (methodName : String) (content : String) : Bool :=
  let noLine := stripLineCommentsAux content.data.length content.data
  let noComments := stripBlockCommentsAux noLine.length noLine
  searchFuncAux methodName.data false noComments

/-- Search for `var\s+NAME\s*:` (the capability property check,
`verify-protocol-coverage.py` lines 630 and 639; the name is interpolated
unescaped, which is literal matching for identifier names). -/
def varSearchAux (name : List Char) : List Char → Bool
  | [] => false
  | c :: cs =>
      (charsPrefix ['v', 'a', 'r'] (c :: cs) &&
        (match (c :: cs).drop 3 with
         | [] => false
         | d :: rest =>
             isPySpace d &&
               (let r2 := (d :: rest).dropWhile isPySpace
                charsPrefix name r2 &&
                  (match (r2.drop name.length).dropWhile isPySpace with
                   | ':' :: _ => true
                   | _ => false)))) ||
        varSearchAux name cs

/-- The `var NAME :` property search on strings. -/
def var_decl_exists (name content : String) : Bool :=
  varSearchAux name.data content.data

/-- Maximal `\w+` run at the head of a list. -/
def takeWordRun : List Char → List Char × List Char
  | [] => ([], [])
  | c :: cs =>
      if isWordChar c then
        let p := takeWordRun cs
        (c :: p.1, p.2)
      else ([], c :: cs)

/-- Maximal `\d+` run at the head of a list. -/
def takeDigits : List Char → List Char × List Char
  | [] => ([], [])
  | c :: cs =>
      if c.isDigit then
        let p := takeDigits cs
        (c :: p.1, p.2)
      else ([], c :: cs)

/-- Decimal value of a digit run. -/
def digitsToNat (l : List Char) : Nat :=
  l.foldl (fun n c => n * 10 + (c.toNat - 48)) 0

/-- Match `\s*return\s*(-\d+)` at the head, returning the (negative) code
and the rest after the digits. -/
def matchReturnAt (cs : List Char) : Option (Int × List Char) :=
  let r1 := cs.dropWhile isPySpace
  if charsPrefix ['r', 'e', 't', 'u', 'r', 'n'] r1 then
    let r2 := (r1.drop 6).dropWhile isPySpace
    match r2 with
    | '-' :: r3 =>
        let p := takeDigits r3
        if p.1.isEmpty then none else some (-(Int.ofNat (digitsToNat p.1)), p.2)
    | _ => none
  else none

/-- The lazy `.*?:` of the error-code regex: take the earliest colon whose
tail matches `\s*return\s*(-\d+)`, backtracking past failing colons. -/
def findColonReturn : Nat → List Char → Option (Int × List Char)
  | 0, _ => none
  | _ + 1, [] => none
  | fuel + 1, c :: cs =>
      if c == ':' then
        match matchReturnAt cs with
        | some r => some r
        | none => findColonReturn fuel cs
      else findColonReturn fuel cs

/-- Match `case\s+\.(\w+).*?:\s*return\s*(-\d+)` at the head of the list. -/
def matchCaseAt (cs : List Char) : Option (String × Int × List Char) :=
  if charsPrefix ['c', 'a', 's', 'e'] cs then
    match cs.drop 4 with
    | [] => none
    | c :: rest =>
        if isPySpace c then
          match (c :: rest).dropWhile isPySpace with
          | '.' :: r3 =>
              let p := takeWordRun r3
              if p.1.isEmpty then none
              else
                match findColonReturn p.2.length p.2 with
                | some (code, after) => some (ofChars p.1, code, after)
                | none => none
          | _ => none
        else none
  else none

/-- The `finditer` scan of `check_error_codes` (`verify-protocol-coverage.py`,
lines 702-708): collect `case .name ... : return -code` bindings, later
matches overwriting earlier ones like repeated dictionary assignment. -/
def scanSwiftCodes : Nat → List Char → List (String × Int) → List (String × Int)
  | 0, _, acc => acc
  | _ + 1, [], acc => acc
  | fuel + 1, c :: cs, acc =>
      match matchCaseAt (c :: cs) with
      | some (n, code, rest) => scanSwiftCodes fuel rest (dictSet acc n code)
      | none => scanSwiftCodes fuel cs acc

/-- Extract the Swift error-code mapping from `Error.swift` content. -/
def extractSwiftErrorCodes (content : String) : List (String × Int) :=
  scanSwiftCodes content.data.length content.data []

/-! ## Reconciliation checks (`verify-protocol-coverage.py`) -/

/-- The verifier's view of the world outside the manifest: the Swift type
index (built by the external AST extractor or the regex fallback), the
contents of the fixed Swift source files, the filesystem tests, the
per-enum Swift case scan (a directory walk), and the schema data already
extracted.  These are the out-of-scope collaborators of the run; every
in-memory computation on them is modelled concretely above. -/
structure Externals where
  swiftTypes : List String
  clientContent : String
  serverContent : String
  errorContent : Option String
  enumCases : String → Option (List String)
  fileExists : String → Bool
  fileContent : String → Option String
  specTypes : List String
  specMethods : List String
  specNotifs : List String
  specEnums : List (String × List String)
  specCodes : List (String × Int)
  specClientCaps : List (String × List String)
  specServerCaps : List (String × List String)
  capSchemaExists : Bool

/-- Python `s.strip('[]"\'')` (strip leading and trailing brackets and
quotes, `verify-protocol-coverage.py` line 353). -/
def stripBracketQuote (s : String) : String :=
  let isCh (c : Char) : Bool :=
    c == '[' || c == ']' || c.toNat == 34 || c.toNat == 39
  ofChars (((s.data.dropWhile isCh).reverse.dropWhile isCh).reverse)

/-- One swift_file of a module in `validate_swift_files`
(`verify-protocol-coverage.py`, lines 202-218). -/
def validateModuleFile (E : Externals) (acc : List String × Nat) (mo : MModule) :
    List String × Nat :=
  match mo.swift_file with
  | none => acc
  | some sf =>
      if sf == "" then acc
      else if acc.1.contains sf then acc
      else
        let checked := acc.1 ++ [sf]
        if E.fileExists sf then (checked, acc.2)
        else if mo.implementation == some "todo" then (checked, acc.2)
        else (checked, acc.2 + 1)

/-- The file list of a manifest type entry (`files = type_def.get('file', [])`,
normalized to a list). -/
def typeFileList : TypeFile → List String
  | TypeFile.absent => []
  | TypeFile.one s => [s]
  | TypeFile.many l => l

/-- The file entries of one type in `validate_swift_files`
(`verify-protocol-coverage.py`, lines 221-245). -/
def validateTypeFiles (E : Externals) (isNotImpl : Bool) (acc : List String × Nat)
    (files : List String) : List String × Nat :=
  files.foldl (fun acc2 sf =>
    if sf == "" then acc2
    else if acc2.1.contains sf then acc2
    else if !(pyEndsWith sf ".swift") then acc2
    else
      let checked := acc2.1 ++ [sf]
      if E.fileExists sf then (checked, acc2.2)
      else if isNotImpl then (checked, acc2.2)
      else (checked, acc2.2 + 1)) acc

/-- `validate_swift_files()` (`verify-protocol-coverage.py`, lines 195-247):
number of missing swift files, with the `checked` set shared between the
module pass and the type pass. -/
def validate_swift_files (m : Manifest) (E : Externals) : Nat :=
  let afterModules := m.modules.foldl (validateModuleFile E) ([], 0)
  (m.types.foldl (fun acc p =>
    validateTypeFiles E (p.2.implementation == some "todo") acc
      (typeFileList p.2.file)) afterModules).2

/-- `check_spec_to_manifest(spec_types)` (`verify-protocol-coverage.py`,
lines 296-318): spec types whose name (or registered `spec_name` override)
is not in the manifest types section. -/
def check_spec_to_manifest (specTypes : List String)
    (types : List (String × TypeEntry)) : Nat :=
  let manifestTypes := types.map Prod.fst ++ types.filterMap (fun p => p.2.spec_name)
  ((pySortStr specTypes).filter (fun t => !(manifestTypes.contains t))).length

/-- The normalized Swift name list of a manifest type entry in
`check_manifest_to_swift` (`verify-protocol-coverage.py`, lines 343-349):
`swift` defaults to the type name, falsy and "null" values drop the entry,
a scalar becomes a one-element list. -/
def typeSwiftNames (typeName : String) : TypeSwift → Option (List String)
  | TypeSwift.absent => if typeName == "" || typeName == "null" then none else some [typeName]
  | TypeSwift.nullv => none
  | TypeSwift.str s => if s == "" || s == "null" then none else some [s]
  | TypeSwift.list l => if l.isEmpty then none else some l

/-- `check_manifest_to_swift()` (`verify-protocol-coverage.py`,
lines 320-370): `(missing, found, not_impl_count, builtin_count)`. -/
def check_manifest_to_swift (types : List (String × TypeEntry))
    (swiftTypes : List String) : Nat × Nat × Nat × Nat :=
  types.foldl (fun acc p =>
    let e := p.2
    if e.implementation == some "todo" then
      (acc.1, acc.2.1, acc.2.2.1 + 1, acc.2.2.2)
    else if e.kind == some "builtin" then
      (acc.1, acc.2.1, acc.2.2.1, acc.2.2.2 + 1)
    else
      match typeSwiftNames p.1 e.swift with
      | none => acc
      | some names =>
          names.foldl (fun acc2 n =>
            let cleaned := stripBracketQuote n
            if cleaned == "" then acc2
            else if swiftTypes.contains cleaned then (acc2.1, acc2.2.1 + 1, acc2.2.2)
            else (acc2.1 + 1, acc2.2)) acc) (0, 0, 0, 0)

/-- `check_methods(spec_dir)` (`verify-protocol-coverage.py`,
lines 372-418): `(method_gaps, notification_gaps)`. -/
def check_methods (specMethods specNotifs : List String) (m : Manifest) : Nat × Nat :=
  let manifestMethods := m.modules.flatMap (fun mo => mo.methods.filterMap (fun me => me.name))
  let manifestNotifs := m.modules.flatMap (fun mo => mo.notifications.filterMap (fun ne => ne.name))
  (((pySortStr specMethods).filter (fun x => !(manifestMethods.contains x))).length,
   ((pySortStr specNotifs).filter (fun x => !(manifestNotifs.contains x))).length)

/-- One method entry of `check_method_implementations`
(`verify-protocol-coverage.py`, lines 438-483); the walrus tests are Python
truthiness, so an empty string behaves like a missing key. -/
def checkMethodImpl (E : Externals) (acc : Nat × Nat) (me : MethodEntry) : Nat × Nat :=
  let acc1 :=
    match me.client_method with
    | some cm =>
        if cm == "" then acc
        else if method_exists cm E.clientContent then (acc.1, acc.2 + 1)
        else (acc.1 + 1, acc.2)
    | none => acc
  let acc2 :=
    match me.server_method with
    | some sm =>
        if sm == "" then acc1
        else if method_exists sm E.serverContent then (acc1.1, acc1.2 + 1)
        else (acc1.1 + 1, acc1.2)
    | none => acc1
  let acc3 :=
    match me.client_handler with
    | some ch =>
        if ch == "" then acc2
        else if method_exists ch E.clientContent then (acc2.1, acc2.2 + 1)
        else (acc2.1 + 1, acc2.2)
    | none => acc2
  match me.handler_registration with
  | some hr =>
      (match E.fileContent hr.file with
       | some content =>
           if strContain content hr.pattern then (acc3.1, acc3.2 + 1)
           else (acc3.1 + 1, acc3.2)
       | none => (acc3.1 + 1, acc3.2))
  | none => acc3

/-- `check_method_implementations()` (`verify-protocol-coverage.py`,
lines 420-489): `(errors, found)`. -/
def check_method_implementations (m : Manifest) (E : Externals) : Nat × Nat :=
  m.modules.foldl (fun acc mo => mo.methods.foldl (checkMethodImpl E) acc) (0, 0)

/-- One notification entry of `check_notification_implementations`
(`verify-protocol-coverage.py`, lines 839-863). -/
def checkNotifImpl (E : Externals) (acc : Nat × Nat) (ne : NotifEntry) : Nat × Nat :=
  let acc1 :=
    match ne.server_send with
    | some ss =>
        if ss == "" then acc
        else if method_exists ss E.serverContent then (acc.1, acc.2 + 1)
        else (acc.1 + 1, acc.2)
    | none => acc
  match ne.client_send with
  | some cs =>
      if cs == "" then acc1
      else if cs == "notify" then (acc1.1, acc1.2 + 1)
      else if method_exists cs E.clientContent then (acc1.1, acc1.2 + 1)
      else (acc1.1 + 1, acc1.2)
  | none => acc1

/-- `check_notification_implementations()` (`verify-protocol-coverage.py`,
lines 819-869): `(errors, found)`. -/
def check_notification_implementations (m : Manifest) (E : Externals) : Nat × Nat :=
  m.modules.foldl (fun acc mo => mo.notifications.foldl (checkNotifImpl E) acc) (0, 0)

/-- The Swift-side pass of `check_enums` for one manifest enum entry
(`verify-protocol-coverage.py`, lines 770-810); `(missing, found)` are
threaded. -/
def checkEnumSwift (E : Externals) (acc : Nat × Nat) (e : EnumEntry) : Nat × Nat :=
  let swiftName : Option String :=
    match e.swift with
    | YField.absent => some e.name
    | YField.nullv => none
    | YField.val s => some s
  match swiftName with
  | none => (acc.1 + 1, acc.2)
  | some sn =>
      if sn == "" || sn == "null" then (acc.1 + 1, acc.2)
      else
        let specValues := (dictGet E.specEnums e.name).getD []
        if specValues.isEmpty then acc
        else
          match E.enumCases sn with
          | none => (acc.1 + 1, acc.2)
          | some cases =>
              let missingCases := specValues.filter (fun v => !(cases.contains v))
              if missingCases.isEmpty then (acc.1, acc.2 + 1)
              else (acc.1 + 1, acc.2)

/-- `check_enums(spec_dir)` (`verify-protocol-coverage.py`, lines 741-817):
`(spec_manifest_gaps, spec_manifest_found, swift_found, swift_missing)`. -/
def check_enums (m : Manifest) (E : Externals) : Nat × Nat × Nat × Nat :=
  let names := m.enums.map (fun e => e.name)
  let specNames := pySortStr (E.specEnums.map Prod.fst)
  let gaps := (specNames.filter (fun n => !(names.contains n))).length
  let found := (specNames.filter (fun n => names.contains n)).length
  let sw := m.enums.foldl (checkEnumSwift E) (0, 0)
  (gaps, found, sw.2, sw.1)

/-- The Swift-side pass of `check_error_codes` for one manifest code entry
(`verify-protocol-coverage.py`, lines 710-732); `(missing, found)` are
threaded. -/
def checkCodeSwift (swiftCodes : List (String × Int)) (acc : Nat × Nat)
    (e : ErrorCodeEntry) : Nat × Nat :=
  match e.swift with
  | some sn =>
      if sn == "" then (acc.1, acc.2 + 1)
      else
        match dictGet swiftCodes sn with
        | some actual => if actual == e.code then (acc.1, acc.2 + 1) else (acc.1 + 1, acc.2)
        | none => (acc.1 + 1, acc.2)
  | none => (acc.1, acc.2 + 1)

/-- `check_error_codes(spec_dir)` (`verify-protocol-coverage.py`,
lines 663-739): `(spec_manifest_gaps, spec_manifest_found, swift_found,
swift_missing)`.  When `Error.swift` is missing the already computed
spec-manifest numbers are discarded and `(0, 0, 0, 1)` is returned, exactly
as in the source. -/
def check_error_codes (m : Manifest) (E : Externals) : Nat × Nat × Nat × Nat :=
  let names := m.error_codes.map (fun c => c.name)
  let specNames := pySortStr (E.specCodes.map Prod.fst)
  let gaps := (specNames.filter (fun n => !(names.contains n))).length
  let found := (specNames.filter (fun n => names.contains n)).length
  match E.errorContent with
  | none => (0, 0, 0, 1)
  | some content =>
      let swiftCodes := extractSwiftErrorCodes content
      let sw := m.error_codes.foldl (checkCodeSwift swiftCodes) (0, 0)
      (gaps, found, sw.2, sw.1)

/-- The verification status of a capability entry
(`cap_entry.get("verification", {}).get("status", "pending")`,
`verify-protocol-coverage.py` line 622). -/
def capStatus (e : CapEntry) : String :=
  match e.verification with
  | some v => match v.status with | some s => s | none => "pending"
  | none => "pending"

/-- The Swift-side pass of `check_capabilities` for one capability entry
(`verify-protocol-coverage.py`, lines 613-648); `(missing, found)` are
threaded. -/
def checkCapSwift (content : String) (acc : Nat × Nat) (e : CapEntry) : Nat × Nat :=
  let isNull := e.swift == YField.nullv
  let sn : String :=
    match e.swift with
    | YField.absent => e.property
    | YField.nullv => ""
    | YField.val s => s
  if capStatus e == "missing" || sn == "null" || isNull then (acc.1 + 1, acc.2)
  else if !(var_decl_exists sn content) then (acc.1 + 1, acc.2)
  else
    let nestedErrors := e.nested.filter (fun np =>
      match (match np.swift with | some s => some s | none => np.name) with
      | some nn => nn != "" && !(var_decl_exists nn content)
      | none => false)
    if nestedErrors.isEmpty then (acc.1, acc.2 + 1)
    else (acc.1 + 1, acc.2)

/-- `check_capabilities(spec_dir)` (`verify-protocol-coverage.py`,
lines 553-661): `(spec_manifest_gaps, spec_manifest_found, swift_found,
swift_missing)`; a missing schema file returns `(0, 0, 0, 1)`. -/
def check_capabilities (m : Manifest) (E : Externals) : Nat × Nat × Nat × Nat :=
  if !E.capSchemaExists then (0, 0, 0, 1)
  else
    let clientProps := m.capabilities_client.map (fun c => c.property)
    let serverProps := m.capabilities_server.map (fun c => c.property)
    let clientSpec := pySortStr (E.specClientCaps.map Prod.fst)
    let serverSpec := pySortStr (E.specServerCaps.map Prod.fst)
    let gaps := (clientSpec.filter (fun p => !(clientProps.contains p))).length +
                (serverSpec.filter (fun p => !(serverProps.contains p))).length
    let found := (clientSpec.filter (fun p => clientProps.contains p)).length +
                 (serverSpec.filter (fun p => serverProps.contains p)).length
    let swC := m.capabilities_client.foldl (checkCapSwift E.clientContent) (0, 0)
    let swS := m.capabilities_server.foldl (checkCapSwift E.serverContent) swC
    (gaps, found, swS.2, swS.1)

/-- The `VerificationResults` dataclass (`verify-protocol-coverage.py`,
lines 38-68). -/
structure VerificationResults where
  file_errors : Nat
  types_spec_manifest : Nat
  methods_spec_manifest : Nat
  notifs_spec_manifest : Nat
  caps_spec_manifest : Nat
  enums_spec_manifest : Nat
  errors_spec_manifest : Nat
  types_swift_found : Nat
  types_swift_missing : Nat
  methods_swift_found : Nat
  methods_swift_missing : Nat
  notifs_swift_found : Nat
  notifs_swift_missing : Nat
  caps_swift_found : Nat
  caps_swift_missing : Nat
  enums_swift_found : Nat
  enums_swift_missing : Nat
  errors_swift_found : Nat
  errors_swift_missing : Nat
  not_impl_count : Nat
  builtin_count : Nat
deriving DecidableEq, Repr

/-- The result assembly of `Verifier.run` (`verify-protocol-coverage.py`,
lines 968-1030). -/
def runResults (m : Manifest) (E : Externals) : VerificationResults :=
  let file_errors := validate_swift_files m E
  let types_spec := check_spec_to_manifest E.specTypes m.types
  let tms := check_manifest_to_swift m.types E.swiftTypes
  let mc := check_methods E.specMethods E.specNotifs m
  let mi := check_method_implementations m E
  let ni := check_notification_implementations m E
  let en := check_enums m E
  let ec := check_error_codes m E
  let cap := check_capabilities m E
  { file_errors := file_errors,
    types_spec_manifest := types_spec,
    methods_spec_manifest := mc.1,
    notifs_spec_manifest := mc.2,
    caps_spec_manifest := cap.1,
    enums_spec_manifest := en.1,
    errors_spec_manifest := ec.1,
    types_swift_found := tms.2.1,
    types_swift_missing := tms.1,
    methods_swift_found := mi.2,
    methods_swift_missing := mi.1,
    notifs_swift_found := ni.2,
    notifs_swift_missing := ni.1,
    caps_swift_found := cap.2.2.1,
    caps_swift_missing := cap.2.2.2,
    enums_swift_found := en.2.2.1,
    enums_swift_missing := en.2.2.2,
    errors_swift_found := ec.2.2.1,
    errors_swift_missing := ec.2.2.2,
    not_impl_count := tms.2.2.1,
    builtin_count := tms.2.2.2 }

/-- The exit value computed by `Verifier.print_summary`
(`verify-protocol-coverage.py`, lines 950-966): 0 when the total over file
errors, all six spec-to-manifest gap counts and all six manifest-to-swift
missing counts is zero, 1 otherwise. -/
def print_summary_exit (r : VerificationResults) : Nat :=
  let specManifestTotal := r.types_spec_manifest + r.methods_spec_manifest +
    r.notifs_spec_manifest + r.enums_spec_manifest + r.errors_spec_manifest +
    r.caps_spec_manifest
  let manifestSwiftTotal := r.types_swift_missing + r.methods_swift_missing +
    r.notifs_swift_missing + r.enums_swift_missing + r.errors_swift_missing +
    r.caps_swift_missing
  let total := r.file_errors + specManifestTotal + manifestSwiftTotal
  if total == 0 then 0 else 1

/-- A completed `Verifier.run` returns `print_summary(results)`, which
`main` passes to `sys.exit` (`verify-protocol-coverage.py`, lines 1030 and
1043). -/
def verifier_run (m : Manifest) (E : Externals) : Nat :=
  print_summary_exit (runResults m E)

/-- The per-category gap counts of a run (the twelve category numbers of
the summary plus the swift-file errors), used to state the reset
noninterference property. -/
def gapCounts (m : Manifest) (E : Externals) : VerificationResults :=
  runResults m E

/-! ## Reset utility (`utils/reset-verification.py`) -/

/-- `reset_block(v, location)` (`reset-verification.py`, lines 30-43):
set a non-pending status to pending and clear nonempty notes, reporting
whether anything changed. -/
def resetBlock (v : Verification) : Verification × Bool :=
  let statusChanged := v.status != some "pending"
  let notesChanged := (match v.notes with | some s => s | none => "") != ""
  ({ status := if statusChanged then some "pending" else v.status,
     notes := if notesChanged then some "" else v.notes },
   statusChanged || notesChanged)

/-- Reset an optional verification block (`if v := x.get("verification")`);
a missing block is skipped. -/
def resetOptVerification (v : Option Verification) : Option Verification × Nat :=
  match v with
  | none => (none, 0)
  | some blk =>
      let p := resetBlock blk
      (some p.1, if p.2 then 1 else 0)

/-- Reset one method entry. -/
def resetMethodEntry (me : MethodEntry) : MethodEntry × Nat :=
  let p := resetOptVerification me.verification
  ({ me with verification := p.1 }, p.2)

/-- Reset one notification entry. -/
def resetNotifEntry (ne : NotifEntry) : NotifEntry × Nat :=
  let p := resetOptVerification ne.verification
  ({ ne with verification := p.1 }, p.2)

/-- Reset one module: its own block, then its methods, then its
notifications (`reset-verification.py`, lines 46-66). -/
def resetModule (mo : MModule) : MModule × Nat :=
  let pv := resetOptVerification mo.verification
  let pms := mo.methods.map resetMethodEntry
  let pns := mo.notifications.map resetNotifEntry
  ({ mo with verification := pv.1,
             methods := pms.map Prod.fst,
             notifications := pns.map Prod.fst },
   pv.2 + (pms.map Prod.snd).sum + (pns.map Prod.snd).sum)

/-- Reset one type entry (`reset-verification.py`, lines 69-73). -/
def resetTypeEntry (te : TypeEntry) : TypeEntry × Nat :=
  let p := resetOptVerification te.verification
  ({ te with verification := p.1 }, p.2)

/-- `reset_verification(data, dry_run)` (`reset-verification.py`,
lines 26-74): walk the modules section (module blocks, methods,
notifications) and the types section; every other section is left alone.
The mutation happens in dry-run mode too (only saving is skipped), so the
flag does not appear here. -/
def reset_verification (m : Manifest) : Manifest × Nat :=
  let pmods := m.modules.map resetModule
  let ptypes := m.types.map (fun p =>
    let q := resetTypeEntry p.2
    ((p.1, q.1), q.2))
  ({ m with modules := pmods.map Prod.fst, types := ptypes.map Prod.fst },
   (pmods.map Prod.snd).sum + (ptypes.map Prod.snd).sum)

/-! ## Claim C1: exit code of the reconciliation runner -/

/-- The aggregate gap count as the specification describes it: swift-file
errors plus the Spec-to-Manifest gaps plus the Manifest-to-Implementation
missing counts over the six categories. -/
def claimAggregate (r : VerificationResults) : Nat :=
  r.file_errors +
  (r.types_spec_manifest + r.methods_spec_manifest + r.notifs_spec_manifest +
   r.enums_spec_manifest + r.errors_spec_manifest + r.caps_spec_manifest) +
  (r.types_swift_missing + r.methods_swift_missing + r.notifs_swift_missing +
   r.enums_swift_missing + r.errors_swift_missing + r.caps_swift_missing)

theorem print_summary_exit_eq (r : VerificationResults) :
    print_summary_exit r = if claimAggregate r = 0 then 0 else 1 := by
  unfold print_summary_exit claimAggregate
  by_cases h : r.file_errors +
      (r.types_spec_manifest + r.methods_spec_manifest + r.notifs_spec_manifest +
       r.enums_spec_manifest + r.errors_spec_manifest + r.caps_spec_manifest) +
      (r.types_swift_missing + r.methods_swift_missing + r.notifs_swift_missing +
       r.enums_swift_missing + r.errors_swift_missing + r.caps_swift_missing) = 0
  · rw [if_pos h]
    have hb : (r.file_errors +
        (r.types_spec_manifest + r.methods_spec_manifest + r.notifs_spec_manifest +
         r.enums_spec_manifest + r.errors_spec_manifest + r.caps_spec_manifest) +
        (r.types_swift_missing + r.methods_swift_missing + r.notifs_swift_missing +
         r.enums_swift_missing + r.errors_swift_missing + r.caps_swift_missing) == 0) = true := by
      simpa [Nat.beq_eq_true_eq] using h
    simp only [hb]
    rfl
  · rw [if_neg h]
    have hb : (r.file_errors +
        (r.types_spec_manifest + r.methods_spec_manifest + r.notifs_spec_manifest +
         r.enums_spec_manifest + r.errors_spec_manifest + r.caps_spec_manifest) +
        (r.types_swift_missing + r.methods_swift_missing + r.notifs_swift_missing +
         r.enums_swift_missing + r.errors_swift_missing + r.caps_swift_missing) == 0) = false := by
      simpa [Nat.beq_eq_true_eq] using h
    simp only [hb]
    rfl

/-- C1.  For every completed run of the reconciliation runner, the process
exit code is 0 if and only if the aggregate gap count is zero, and 1
otherwise, where the aggregate is the sum of Swift-file errors,
Spec-to-Manifest gaps, and Manifest-to-Implementation missing counts over
all six categories; any single unmatched name only contributes to this
aggregate and never aborts the run. -/
theorem C1_exit_code_iff_zero_gaps (m : Manifest) (E : Externals) :
    (verifier_run m E = 0 ↔ claimAggregate (runResults m E) = 0) ∧
    (claimAggregate (runResults m E) ≠ 0 → verifier_run m E = 1) := by
  unfold verifier_run
  rw [print_summary_exit_eq]
  constructor
  · constructor
    · intro h
      by_contra hne
      rw [if_neg hne] at h
      exact one_ne_zero h
    · intro h
      rw [if_pos h]
  · intro h
    rw [if_neg h]

/-- The empty manifest, used by several concrete instances below. -/
def emptyManifest : Manifest :=
  { types := [], modules := [], enums := [], error_codes := [],
    capabilities_client := [], capabilities_server := [], deprecated := [] }

/-- A minimal external world whose schema data lists exactly one spec type,
which the empty manifest does not document. -/
def externalsOneGap : Externals :=
  { swiftTypes := [], clientContent := "", serverContent := "",
    errorContent := some "", enumCases := fun _ => none,
    fileExists := fun _ => true, fileContent := fun _ => none,
    specTypes := ["Foo"], specMethods := [], specNotifs := [],
    specEnums := [], specCodes := [], specClientCaps := [], specServerCaps := [],
    capSchemaExists := true }

theorem C1_witness : verifier_run emptyManifest externalsOneGap = 1 :=
  (C1_exit_code_iff_zero_gaps emptyManifest externalsOneGap).2 (by decide)

/-! ## Claim C9: method-suffix filtering of type extraction -/

/-- C9.  For every input schema and every definition name ending in one of
the method suffixes Request, RequestParams, Response, Result, Notification
or NotificationParams — including the Request…Params internal parameter
variants such as ElicitRequestFormParams, which the source filters with the
separate rule `"Request" in name and name.endswith("Params")`
(`spec_extraction.py`, line 43) — type extraction never includes that name
in the returned type set. -/
theorem C9_method_suffix_never_extracted (s : Schema) (name : String)
    (h : (∃ suffix ∈ method_suffixes, pyEndsWith name suffix = true) ∨
      (strContain name "Request" = true ∧ pyEndsWith name "Params" = true)) :
    name ∉ extract_types s := by
  intro hmem
  unfold extract_types at hmem
  rcases List.mem_map.mp hmem with ⟨p, hp, hfst⟩
  rcases List.mem_filter.mp hp with ⟨_, hkeep⟩
  unfold keepSpecType at hkeep
  simp only [Bool.and_eq_true, Bool.not_eq_true'] at hkeep
  rcases h with ⟨suffix, hs, hends⟩ | ⟨hcont, hparams⟩
  · have h1 : (method_suffixes.any (fun suf => pyEndsWith p.1 suf)) = false :=
      hkeep.1.1
    have h2 : method_suffixes.any (fun suf => pyEndsWith p.1 suf) = true :=
      List.any_eq_true.mpr ⟨suffix, hs, by rw [hfst]; exact hends⟩
    rw [h1] at h2
    exact Bool.false_ne_true h2
  · have h1 : (strContain p.1 "Request" && pyEndsWith p.1 "Params") = false :=
      hkeep.1.2
    have h2 : (strContain p.1 "Request" && pyEndsWith p.1 "Params") = true := by
      rw [hfst, hcont, hparams]
      rfl
    rw [h1] at h2
    exact Bool.false_ne_true h2

/-- A three-definition schema exercising both filter rules: a literal
method suffix, a Request…Params parameter variant, and a kept public
type. -/
def schemaSuffixDemo : Schema :=
  { defs := [("PingRequest", { description := none, enumVals := none, anyOf := [],
                               properties := [] }),
             ("ElicitRequestFormParams", { description := none, enumVals := none,
                                           anyOf := [], properties := [] }),
             ("Implementation", { description := none, enumVals := none, anyOf := [],
                                  properties := [] })] }

theorem C9_witness :
    "PingRequest" ∉ extract_types schemaSuffixDemo ∧
    "ElicitRequestFormParams" ∉ extract_types schemaSuffixDemo :=
  ⟨C9_method_suffix_never_extracted schemaSuffixDemo "PingRequest"
     (Or.inl ⟨"Request", by decide, by decide⟩),
   C9_method_suffix_never_extracted schemaSuffixDemo "ElicitRequestFormParams"
     (Or.inr ⟨by decide, by decide⟩)⟩

/-! ## Claim C7: method-name derivation -/

theorem splitOnCharAux_no_sep (c : Char) :
    ∀ (ys acc : List Char), c ∉ ys → splitOnCharAux c ys acc = [acc.reverse ++ ys] := by
  intro ys
  induction ys with
  | nil => intro acc _; simp [splitOnCharAux]
  | cons y ys ih =>
      intro acc hcy
      have hy : ¬ (y == c) = true := by
        simp only [beq_iff_eq]
        intro h; exact hcy (h ▸ List.mem_cons_self y ys)
      rw [splitOnCharAux, if_neg hy]
      rw [ih (y :: acc) (fun h => hcy (List.mem_cons_of_mem y h))]
      simp

theorem splitOnCharAux_boundary (c : Char) :
    ∀ (xs ys acc : List Char), c ∉ xs → c ∉ ys →
      splitOnCharAux c (xs ++ c :: ys) acc = (acc.reverse ++ xs) :: [ys] := by
  intro xs
  induction xs with
  | nil =>
      intro ys acc _ hys
      rw [List.nil_append, splitOnCharAux, if_pos (by simp)]
      rw [splitOnCharAux_no_sep c ys [] hys]
      simp
  | cons x xs ih =>
      intro ys acc hcx hys
      have hx : ¬ (x == c) = true := by
        simp only [beq_iff_eq]
        intro h; exact hcx (h ▸ List.mem_cons_self x xs)
      rw [List.cons_append, splitOnCharAux, if_neg hx]
      rw [ih ys (x :: acc) (fun h => hcx (List.mem_cons_of_mem x h)) hys]
      simp

theorem splitOnChar_two (c : Char) (xs ys : List Char) (hxs : c ∉ xs) (hys : c ∉ ys) :
    splitOnChar c (xs ++ c :: ys) = [xs, ys] := by
  unfold splitOnChar
  rw [splitOnCharAux_boundary c xs ys [] hxs hys]
  simp

/-- C7.  Method-name derivation first consults the literal exception table
and returns its entry when the method is listed; otherwise it splits the
method into category and action, singularizes the category, and applies the
verb pattern (list, get/read/call, subscribe, unsubscribe, default); in
particular it maps "resources/list" to "listResources" and
"resources/subscribe" to "subscribeToResource". -/
theorem C7_method_name_derivation :
    (∀ m v, dictGet SWIFT_METHOD_MAPPINGS m = some v → to_swift_method_name m = v) ∧
    (∀ category action : String,
      dictGet SWIFT_METHOD_MAPPINGS (category ++ "/" ++ action) = none →
      '/' ∉ category.data → '/' ∉ action.data →
      to_swift_method_name (category ++ "/" ++ action) =
        (let singular := if pyEndsWith category "s" then pyRstripS category else category
         if action = "list" then "list" ++ pyTitle category
         else if action = "get" ∨ action = "read" ∨ action = "call" then
           action ++ pyTitle singular
         else if action = "subscribe" then "subscribeTo" ++ pyTitle singular
         else if action = "unsubscribe" then "unsubscribeFrom" ++ pyTitle singular
         else action ++ pyTitle singular)) ∧
    to_swift_method_name "resources/list" = "listResources" ∧
    to_swift_method_name "resources/subscribe" = "subscribeToResource" := by
  refine ⟨?_, ?_, by decide, by decide⟩
  · intro m v h
    unfold to_swift_method_name
    rw [h]
  · intro category action hnone hc ha
    unfold to_swift_method_name
    rw [hnone]
    have hslash : ("/" : String).data = ['/'] := by decide
    have hdata : (category ++ "/" ++ action).data = category.data ++ '/' :: action.data := by
      rw [String.data_append, String.data_append, hslash, List.append_assoc,
        List.singleton_append]
    rw [hdata, splitOnChar_two '/' category.data action.data hc ha]
    show (let cS := ofChars category.data
          let aS := ofChars action.data
          let singular := if pyEndsWith cS "s" then pyRstripS cS else cS
          if aS == "list" then "list" ++ pyTitle cS
          else if aS == "get" || aS == "read" || aS == "call" then aS ++ pyTitle singular
          else if aS == "subscribe" then "subscribeTo" ++ pyTitle singular
          else if aS == "unsubscribe" then "unsubscribeFrom" ++ pyTitle singular
          else aS ++ pyTitle singular) = _
    have hcs : ofChars category.data = category := rfl
    have has : ofChars action.data = action := rfl
    rw [hcs, has]
    simp only [beq_iff_eq, Bool.or_eq_true, decide_eq_true_eq, or_assoc]

theorem C7_witness :
    to_swift_method_name "roots/list" = "listRoots" ∧
    to_swift_method_name "prompts/get" = "getPrompt" := by
  constructor
  · exact C7_method_name_derivation.1 "roots/list" "listRoots" (by decide)
  · exact (C7_method_name_derivation.2.1 "prompts" "get" (by decide) (by decide)
      (by decide)).trans (by decide)

/-! ## Claim C8: send-name derivation -/

/-- The send-name derivation as the specification words it: strip a trailing
"Notification" suffix, leaving the rest of the name unchanged, and prefix
the remainder to "send".  The specification says to lowercase the first
letter of the remainder, yet its own example maps ProgressNotification to
sendProgress, so the camel-case reading (capitalize the letter that follows
"send") is adopted, which is the reading the code agrees with on
suffix-only names. -/
def specSendName (s : String) : String :=
  let base := if pyEndsWith s "Notification" then
    ofChars (s.data.take (s.data.length - 12)) else s
  if base.data.isEmpty then "send" else "send" ++ ofChars (upperFirst base.data)

/-- C8 counterexample.  The source removes every occurrence of
"Notification" rather than only a trailing suffix: on
"NotificationProgress" (no trailing suffix, so the specified derivation
would leave the name unchanged) the code yields "sendProgress", not
"sendNotificationProgress". -/
theorem C8_counterexample :
    to_send_method_name "NotificationProgress" ≠ specSendName "NotificationProgress" ∧
    to_send_method_name "NotificationProgress" = "sendProgress" ∧
    specSendName "NotificationProgress" = "sendNotificationProgress" := by
  refine ⟨by decide, by decide, by decide⟩

/-- C8 amended.  Send-name derivation removes every occurrence of
"Notification" from the type name (for a name where "Notification" occurs
only as a trailing suffix this equals stripping that suffix), capitalizes
the first letter of what remains, and prefixes "send" (an empty remainder
gives plain "send"); in particular it maps "ProgressNotification" to
"sendProgress". -/
theorem sendNameAux (l : List Char) :
    (if (ofChars (lowerFirst l) == "") = true then "send"
     else "send" ++ ofChars (upperFirst (ofChars (lowerFirst l)).data)) =
    (if l.isEmpty = true then "send" else "send" ++ ofChars (upperFirst l)) := by
  cases l with
  | nil => rfl
  | cons c rest =>
      have hne : (ofChars (c.toLower :: rest) == "") = false := by
        refine beq_eq_false_iff_ne.mpr ?_
        intro h
        exact absurd (congrArg String.data h) (by simp [ofChars])
      simp only [lowerFirst, hne, List.isEmpty_cons, if_false, Bool.false_eq_true]
      have hdat : (ofChars (c.toLower :: rest)).data = c.toLower :: rest := rfl
      rw [hdat]
      have hup : upperFirst (c.toLower :: rest) = upperFirst (c :: rest) := by
        have h := upperFirst_lowerFirst (c :: rest)
        simpa [lowerFirst] using h
      rw [hup]

theorem C8_send_name_removes_all_occurrences :
    (∀ s : String, to_send_method_name s =
      (let base := pyReplace s "Notification" ""
       if base.data.isEmpty then "send" else "send" ++ ofChars (upperFirst base.data))) ∧
    to_send_method_name "ProgressNotification" = "sendProgress" := by
  refine ⟨?_, by decide⟩
  intro s
  exact sendNameAux (pyReplace s "Notification" "").data

/-! ## Claim C6: direction derivation -/

theorem isSome_dictGet_dictSet {α : Type} (l : List (String × α)) (k k' : String) (v : α)
    (h : (dictGet l k').isSome) : (dictGet (dictSet l k v) k').isSome := by
  by_cases hk : (k' == k) = true
  · have : k' = k := by simpa [beq_iff_eq] using hk
    subst this
    rw [dictGet_dictSet_self]
    rfl
  · rw [dictGet_dictSet_ne l k k' v (by simpa using hk)]
    exact h

theorem mem_keys_of_isSome {α : Type} :
    ∀ (l : List (String × α)) (k : String), (dictGet l k).isSome → k ∈ l.map Prod.fst := by
  intro l
  induction l with
  | nil => intro k h; simp [dictGet] at h
  | cons p rest ih =>
      intro k h
      by_cases hp : (p.1 == k) = true
      · have : p.1 = k := by simpa [beq_iff_eq] using hp
        simp [this]
      · rw [dictGet, if_neg hp] at h
        exact List.mem_cons_of_mem _ (ih k h)

/-- One step of the `all_request_types` accumulation. -/
def artStep (s : Schema) (acc : List (String × String)) (t : String) :
    List (String × String) :=
  match extract_method_name s t with
  | some n => dictSet acc n t
  | none => acc

theorem all_request_types_eq (s : Schema) :
    all_request_types s =
      ((get_requests_from_union s "ClientRequest" ++
          get_requests_from_union s "ServerRequest").dedup).foldl (artStep s) [] := rfl

theorem artFold_maintains (s : Schema) (n : String) (l : List String)
    (acc : List (String × String)) (h : (dictGet acc n).isSome) :
    (dictGet (l.foldl (artStep s) acc) n).isSome := by
  refine foldlInvariant (artStep s) (fun a => (dictGet a n).isSome) l acc h ?_
  intro a t ha
  unfold artStep
  cases hx : extract_method_name s t with
  | none => exact ha
  | some n2 => exact isSome_dictGet_dictSet a n2 n t ha

theorem artFold_mem (s : Schema) :
    ∀ (l : List String) (acc : List (String × String)) (t n : String),
      t ∈ l → extract_method_name s t = some n →
      (dictGet (l.foldl (artStep s) acc) n).isSome := by
  intro l
  induction l with
  | nil => intro acc t n ht; simp at ht
  | cons u us ih =>
      intro acc t n ht hx
      rcases List.mem_cons.mp ht with rfl | hus
      · rw [List.foldl_cons]
        refine artFold_maintains s n us (artStep s acc t) ?_
        unfold artStep
        rw [hx, dictGet_dictSet_self]
        rfl
      · rw [List.foldl_cons]
        exact ih (artStep s acc u) t n hus hx

/-- C6 counterexample.  The source guards the direction computation with a
Python truthiness test on the looked-up request type, so the degenerate
empty type name yields "unknown" even when it is present in both union
membership lists, where the claim promises "bidirectional". -/
theorem C6_counterexample :
    ("" ∈ [("" : String)]) ∧
    dictGet [("m", "")] "m" = some "" ∧
    get_method_direction "m" [""] [""] [("m", "")] ≠ "bidirectional" ∧
    get_method_direction "m" [""] [""] [("m", "")] = "unknown" := by
  refine ⟨by decide, by decide, by decide, by decide⟩

theorem directionCases (isClient isServer : Bool) :
    (if (isClient && isServer) = true then "bidirectional"
     else if isClient = true then "client_to_server"
     else if isServer = true then "server_to_client" else "unknown") ∈
      (["client_to_server", "server_to_client", "bidirectional", "unknown"] : List String) := by
  cases isClient <;> cases isServer <;> simp

/-- C6 amended.  Direction is computed from two independent membership
tests and always lands in the four defined values; for every request type
that is not the degenerate empty string (which the code treats as a missing
lookup), presence in both unions yields bidirectional and presence in
neither yields unknown; notification direction satisfies the two-test rule
with no exception; and every definition with a method constant reaches the
output of `load_spec_methods`, whatever its direction. -/
theorem C6_direction_two_membership_tests :
    (∀ (n : String) (cR sR : List String) (art : List (String × String)),
      get_method_direction n cR sR art ∈
        ["client_to_server", "server_to_client", "bidirectional", "unknown"]) ∧
    (∀ (n t : String) (cR sR : List String) (art : List (String × String)),
      dictGet art n = some t → t ≠ "" →
      ((t ∈ cR → t ∈ sR → get_method_direction n cR sR art = "bidirectional") ∧
       (t ∉ cR → t ∉ sR → get_method_direction n cR sR art = "unknown"))) ∧
    (∀ (t : String) (cN sN : List String),
      get_notification_direction t cN sN ∈
        ["client_to_server", "server_to_client", "bidirectional", "unknown"] ∧
      (t ∈ cN → t ∈ sN → get_notification_direction t cN sN = "bidirectional") ∧
      (t ∉ cN → t ∉ sN → get_notification_direction t cN sN = "unknown")) ∧
    (∀ (s : Schema) (t n : String),
      t ∈ get_requests_from_union s "ClientRequest" ++
            get_requests_from_union s "ServerRequest" →
      extract_method_name s t = some n →
      n ∈ (load_spec_methods s).map Prod.fst) := by
  refine ⟨?_, ?_, ?_, ?_⟩
  · intro n cR sR art
    unfold get_method_direction
    cases dictGet art n with
    | none => simp
    | some t =>
        cases h0 : (t == "") with
        | true => simp only [h0, if_true]; simp
        | false =>
            simp only [h0, Bool.false_eq_true, if_false]
            exact directionCases (cR.contains t) (sR.contains t)
  · intro n t cR sR art hget hne
    unfold get_method_direction
    rw [hget]
    have h0 : (t == "") = false := by simpa using hne
    simp only [h0, Bool.false_eq_true, if_false]
    constructor
    · intro hc hs
      have h1 : cR.contains t = true := by simp [List.contains, List.elem_eq_mem, hc]
      have h2 : sR.contains t = true := by simp [List.contains, List.elem_eq_mem, hs]
      simp only [h1, h2, Bool.and_self, if_true]
    · intro hc hs
      have h1 : cR.contains t = false := by simp [List.contains, List.elem_eq_mem, hc]
      have h2 : sR.contains t = false := by simp [List.contains, List.elem_eq_mem, hs]
      simp only [h1, h2, Bool.and_self, Bool.false_eq_true, if_false]
  · intro t cN sN
    refine ⟨?_, ?_, ?_⟩
    · unfold get_notification_direction
      exact directionCases (cN.contains t) (sN.contains t)
    · intro hc hs
      unfold get_notification_direction
      have h1 : cN.contains t = true := by simp [List.contains, List.elem_eq_mem, hc]
      have h2 : sN.contains t = true := by simp [List.contains, List.elem_eq_mem, hs]
      simp only [h1, h2, Bool.and_self, if_true]
    · intro hc hs
      unfold get_notification_direction
      have h1 : cN.contains t = false := by simp [List.contains, List.elem_eq_mem, hc]
      have h2 : sN.contains t = false := by simp [List.contains, List.elem_eq_mem, hs]
      simp only [h1, h2, Bool.and_self, Bool.false_eq_true, if_false]
  · intro s t n hmem hx
    have hkeys : (load_spec_methods s).map Prod.fst =
        (all_request_types s).map Prod.fst := by
      unfold load_spec_methods
      rw [List.map_map]
      rfl
    rw [hkeys]
    apply mem_keys_of_isSome
    rw [all_request_types_eq]
    exact artFold_mem s _ [] t n (List.mem_dedup.mpr hmem) hx

/-- A tiny schema with one client request carrying a method constant. -/
def schemaOneRequest : Schema :=
  { defs :=
      [("ClientRequest",
        { description := none, enumVals := none, anyOf := [some "#/$defs/PingRequest"],
          properties := [] }),
       ("PingRequest",
        { description := none, enumVals := none, anyOf := [],
          properties := [("method", { const := some "ping", properties := [] })] })] }

theorem C6_witness :
    get_method_direction "m" ["T"] ["T"] [("m", "T")] = "bidirectional" ∧
    "ping" ∈ (load_spec_methods schemaOneRequest).map Prod.fst := by
  constructor
  · exact ((C6_direction_two_membership_tests.2.1 "m" "T" ["T"] ["T"] [("m", "T")]
      (by decide) (by decide)).1 (by decide) (by decide))
  · exact C6_direction_two_membership_tests.2.2.2 schemaOneRequest
      "PingRequest" "ping" (by decide) (by decide)

/-! ## Claim C10: the reset utility touches only verification blocks -/

theorem reset_modules_eq (m : Manifest) :
    (reset_verification m).1.modules = m.modules.map (fun mo => (resetModule mo).1) := by
  show (m.modules.map resetModule).map Prod.fst = _
  rw [List.map_map]
  rfl

theorem reset_types_eq (m : Manifest) :
    (reset_verification m).1.types =
      m.types.map (fun p => (p.1, (resetTypeEntry p.2).1)) := by
  show (m.types.map (fun p => ((p.1, (resetTypeEntry p.2).1), (resetTypeEntry p.2).2))).map Prod.fst = _
  rw [List.map_map]
  rfl

/-- C10.  The reset operation mutates only verification blocks reachable
under the modules section (module-level, method and notification entries)
and under the types section; the enums, error_codes, capabilities and
deprecated sections are left completely unchanged, and within each block it
reassigns only the status and notes keys, preserving every other key of the
containing entry. -/
theorem C10_reset_frame (m : Manifest) :
    (reset_verification m).1.enums = m.enums ∧
    (reset_verification m).1.error_codes = m.error_codes ∧
    (reset_verification m).1.capabilities_client = m.capabilities_client ∧
    (reset_verification m).1.capabilities_server = m.capabilities_server ∧
    (reset_verification m).1.deprecated = m.deprecated ∧
    (∀ i : Nat, ((reset_verification m).1.modules[i]?).map
        (fun mo => (mo.id, mo.category, mo.description, mo.swift_file, mo.implementation)) =
      (m.modules[i]?).map
        (fun mo => (mo.id, mo.category, mo.description, mo.swift_file, mo.implementation))) ∧
    (∀ i : Nat, ((reset_verification m).1.modules[i]?).map (fun mo => mo.verification) =
      (m.modules[i]?).map (fun mo => (resetOptVerification mo.verification).1)) ∧
    (∀ i j : Nat,
      (((reset_verification m).1.modules[i]?).bind (fun mo => mo.methods[j]?)).map
        (fun me => (me.name, me.swift, me.client_method, me.server_method,
                    me.client_handler, me.handler_registration, me.implementation)) =
      ((m.modules[i]?).bind (fun mo => mo.methods[j]?)).map
        (fun me => (me.name, me.swift, me.client_method, me.server_method,
                    me.client_handler, me.handler_registration, me.implementation))) ∧
    (∀ i j : Nat,
      (((reset_verification m).1.modules[i]?).bind (fun mo => mo.methods[j]?)).map
        (fun me => me.verification) =
      ((m.modules[i]?).bind (fun mo => mo.methods[j]?)).map
        (fun me => (resetOptVerification me.verification).1)) ∧
    (∀ i j : Nat,
      (((reset_verification m).1.modules[i]?).bind (fun mo => mo.notifications[j]?)).map
        (fun ne => (ne.name, ne.swift, ne.sender, ne.server_send, ne.client_send,
                    ne.implementation)) =
      ((m.modules[i]?).bind (fun mo => mo.notifications[j]?)).map
        (fun ne => (ne.name, ne.swift, ne.sender, ne.server_send, ne.client_send,
                    ne.implementation))) ∧
    (∀ i j : Nat,
      (((reset_verification m).1.modules[i]?).bind (fun mo => mo.notifications[j]?)).map
        (fun ne => ne.verification) =
      ((m.modules[i]?).bind (fun mo => mo.notifications[j]?)).map
        (fun ne => (resetOptVerification ne.verification).1)) ∧
    ((reset_verification m).1.types.map Prod.fst = m.types.map Prod.fst) ∧
    (∀ i : Nat, ((reset_verification m).1.types[i]?).map
        (fun p => (p.1, p.2.swift, p.2.file, p.2.spec_name, p.2.implementation, p.2.kind)) =
      (m.types[i]?).map
        (fun p => (p.1, p.2.swift, p.2.file, p.2.spec_name, p.2.implementation, p.2.kind))) ∧
    (∀ i : Nat, ((reset_verification m).1.types[i]?).map (fun p => p.2.verification) =
      (m.types[i]?).map (fun p => (resetOptVerification p.2.verification).1)) := by
  refine ⟨rfl, rfl, rfl, rfl, rfl, ?_, ?_, ?_, ?_, ?_, ?_, ?_, ?_, ?_⟩
  · intro i
    rw [reset_modules_eq, List.getElem?_map, Option.map_map]
    rfl
  · intro i
    rw [reset_modules_eq, List.getElem?_map, Option.map_map]
    rfl
  · intro i j
    rw [reset_modules_eq, List.getElem?_map]
    cases m.modules[i]? with
    | none => rfl
    | some mo =>
        show (((mo.methods.map resetMethodEntry).map Prod.fst)[j]?).map _ = _
        rw [List.map_map, List.getElem?_map, Option.map_map]
        rfl
  · intro i j
    rw [reset_modules_eq, List.getElem?_map]
    cases m.modules[i]? with
    | none => rfl
    | some mo =>
        show (((mo.methods.map resetMethodEntry).map Prod.fst)[j]?).map _ = _
        rw [List.map_map, List.getElem?_map, Option.map_map]
        rfl
  · intro i j
    rw [reset_modules_eq, List.getElem?_map]
    cases m.modules[i]? with
    | none => rfl
    | some mo =>
        show (((mo.notifications.map resetNotifEntry).map Prod.fst)[j]?).map _ = _
        rw [List.map_map, List.getElem?_map, Option.map_map]
        rfl
  · intro i j
    rw [reset_modules_eq, List.getElem?_map]
    cases m.modules[i]? with
    | none => rfl
    | some mo =>
        show (((mo.notifications.map resetNotifEntry).map Prod.fst)[j]?).map _ = _
        rw [List.map_map, List.getElem?_map, Option.map_map]
        rfl
  · rw [reset_types_eq, List.map_map]
    rfl
  · intro i
    rw [reset_types_eq, List.getElem?_map, Option.map_map]
    rfl
  · intro i
    rw [reset_types_eq, List.getElem?_map, Option.map_map]
    rfl

/-! ## Claim C4: auto-discovery of new manifest types -/

theorem syncTypesStep_maintains (names0 : List String)
    (specToSwift : List (String × String)) (swiftTypes : List (String × SwiftTypeInfo))
    (T : String) (acc : Manifest × Nat) (T2 : String)
    (h : dictGet acc.1.types T = some (newSyncType T specToSwift swiftTypes)) :
    dictGet (syncTypesStep names0 specToSwift swiftTypes false acc T2).1.types T =
      some (newSyncType T specToSwift swiftTypes) := by
  unfold syncTypesStep
  by_cases hc : names0.contains T2
  · rw [if_pos hc]; exact h
  · rw [if_neg hc]
    by_cases he : (T == T2) = true
    · have : T = T2 := by simpa [beq_iff_eq] using he
      subst this
      show dictGet (dictSet acc.1.types T (newSyncType T specToSwift swiftTypes)) T = _
      rw [dictGet_dictSet_self]
    · show dictGet (dictSet acc.1.types T2 (newSyncType T2 specToSwift swiftTypes)) T = _
      rw [dictGet_dictSet_ne _ _ _ _ (by simpa using he)]
      exact h

theorem syncTypesFold_mem (names0 : List String)
    (specToSwift : List (String × String)) (swiftTypes : List (String × SwiftTypeInfo))
    (T : String) (hT : names0.contains T = false) :
    ∀ (l : List String) (acc : Manifest × Nat), T ∈ l →
      dictGet (l.foldl (syncTypesStep names0 specToSwift swiftTypes false) acc).1.types T =
        some (newSyncType T specToSwift swiftTypes) := by
  intro l
  induction l with
  | nil => intro acc h; simp at h
  | cons u us ih =>
      intro acc ht
      rw [List.foldl_cons]
      rcases List.mem_cons.mp ht with rfl | hus
      · have hstep : dictGet (syncTypesStep names0 specToSwift swiftTypes false acc T).1.types T =
            some (newSyncType T specToSwift swiftTypes) := by
          unfold syncTypesStep
          have hcond : ¬ (names0.contains T = true) := by
            rw [hT]; exact Bool.false_ne_true
          rw [if_neg hcond]
          show dictGet (dictSet acc.1.types T (newSyncType T specToSwift swiftTypes)) T = _
          rw [dictGet_dictSet_self]
        refine foldlInvariant (syncTypesStep names0 specToSwift swiftTypes false)
          (fun (a : Manifest × Nat) => dictGet a.1.types T =
            some (newSyncType T specToSwift swiftTypes)) us _ hstep ?_
        intro a x ha
        exact syncTypesStep_maintains names0 specToSwift swiftTypes T a x ha
      · exact ih (syncTypesStep names0 specToSwift swiftTypes false acc u) hus

/-- C4 counterexample.  The notes written by the type synchronizer are
"Auto-discovered from Swift codebase" and "No matching Swift type found":
the former does not contain the claimed lowercase marker "auto-discovered"
and the latter neither equals nor contains the claimed "no match found". -/
theorem C4_counterexample :
    (dictGet (sync_types emptyManifest ["Bar"] [] (build_spec_to_swift_mapping []) false).1.types
        "Bar").map (fun e => e.verification) =
      some (some { status := some "pending", notes := some "No matching Swift type found" }) ∧
    ¬ strContain "No matching Swift type found" "no match found" = true ∧
    (dictGet (sync_types emptyManifest ["Foo"]
        [("Foo", { kind := "struct", file := "Sources/Foo.swift" })]
        (build_spec_to_swift_mapping [("Foo", { kind := "struct", file := "Sources/Foo.swift" })])
        false).1.types "Foo").map (fun e => (e.swift, e.verification)) =
      some (TypeSwift.str "Foo",
        some { status := some "pending", notes := some "Auto-discovered from Swift codebase" }) ∧
    ¬ strContain "Auto-discovered from Swift codebase" "auto-discovered" = true := by
  refine ⟨by decide, by decide, by decide, by decide⟩

/-- C4 amended.  For every spec type absent from the manifest: when Swift
type discovery finds a name, the type synchronizer in apply mode adds a
manifest entry mapping the spec type to that name (for a schema type Foo
with Foo in the index the entry maps Foo to Foo) with verification notes
"Auto-discovered from Swift codebase"; when discovery finds nothing it
inserts the clearly marked placeholder "TODO_" followed by the spec name
with notes "No matching Swift type found", never guessing silently. -/
theorem C4_type_sync_discovery (m : Manifest) (specTypes : List String)
    (swiftTypes : List (String × SwiftTypeInfo)) (T : String)
    (hmem : T ∈ specTypes) (habs : T ∉ manifestTypeNames m.types) :
    (∀ n f, find_swift_type T (build_spec_to_swift_mapping swiftTypes) swiftTypes = (some n, f) →
      dictGet (sync_types m specTypes swiftTypes
          (build_spec_to_swift_mapping swiftTypes) false).1.types T =
        some { swift := TypeSwift.str n,
               file := TypeFile.one (match f with | some x => x | none => ""),
               spec_name := none, implementation := none, kind := none,
               verification := some { status := some "pending",
                                      notes := some "Auto-discovered from Swift codebase" } }) ∧
    (∀ f, find_swift_type T (build_spec_to_swift_mapping swiftTypes) swiftTypes = (none, f) →
      dictGet (sync_types m specTypes swiftTypes
          (build_spec_to_swift_mapping swiftTypes) false).1.types T =
        some { swift := TypeSwift.str ("TODO_" ++ T),
               file := TypeFile.one "",
               spec_name := none, implementation := none, kind := none,
               verification := some { status := some "pending",
                                      notes := some "No matching Swift type found" } }) := by
  have hT : (manifestTypeNames m.types).contains T = false := by
    simp [List.contains, List.elem_eq_mem, habs]
  have hmain : dictGet (sync_types m specTypes swiftTypes
      (build_spec_to_swift_mapping swiftTypes) false).1.types T =
      some (newSyncType T (build_spec_to_swift_mapping swiftTypes) swiftTypes) := by
    unfold sync_types
    exact syncTypesFold_mem _ _ _ T hT (pySortStr specTypes) (m, 0)
      ((mem_pySortBy _ _ _).mpr hmem)
  constructor
  · intro n f hfind
    rw [hmain]
    unfold newSyncType
    rw [hfind]
  · intro f hfind
    rw [hmain]
    unfold newSyncType
    rw [hfind]

theorem C4_witness :
    dictGet (sync_types emptyManifest ["Foo"]
        [("Foo", { kind := "struct", file := "Sources/Foo.swift" })]
        (build_spec_to_swift_mapping [("Foo", { kind := "struct", file := "Sources/Foo.swift" })])
        false).1.types "Foo" =
      some { swift := TypeSwift.str "Foo",
             file := TypeFile.one "Sources/Foo.swift",
             spec_name := none, implementation := none, kind := none,
             verification := some { status := some "pending",
                                    notes := some "Auto-discovered from Swift codebase" } } :=
  (C4_type_sync_discovery emptyManifest ["Foo"]
      [("Foo", { kind := "struct", file := "Sources/Foo.swift" })] "Foo"
      (by decide) (by decide)).1 "Foo" (some "Sources/Foo.swift") (by decide)

/-! ## Claim C5: verification metadata and gap computation -/

/-- Set one verification block to status pending with empty notes (a block
that is absent stays absent). -/
def setVerifPending (v : Option Verification) : Option Verification :=
  v.map (fun _ => { status := some "pending", notes := some "" })

/-- The operation the claim describes: setting every verification block of
the manifest, in every section, to pending status and empty notes.  (The
repository's reset utility only walks the modules and types sections; this
definition follows the claim's words so that the two can be compared.)
Two manifests related by this map differ only in the contents of their
verification blocks. -/
def setAllVerificationPending (m : Manifest) : Manifest :=
  { types := m.types.map (fun p =>
      (p.1, { p.2 with verification := setVerifPending p.2.verification })),
    modules := m.modules.map (fun mo =>
      { mo with
          verification := setVerifPending mo.verification,
          methods := mo.methods.map (fun me =>
            { me with verification := setVerifPending me.verification }),
          notifications := mo.notifications.map (fun ne =>
            { ne with verification := setVerifPending ne.verification }) }),
    enums := m.enums.map (fun e => { e with verification := setVerifPending e.verification }),
    error_codes := m.error_codes.map (fun c =>
      { c with verification := setVerifPending c.verification }),
    capabilities_client := m.capabilities_client.map (fun c =>
      { c with verification := setVerifPending c.verification }),
    capabilities_server := m.capabilities_server.map (fun c =>
      { c with verification := setVerifPending c.verification }),
    deprecated := m.deprecated }

/-- A manifest whose single capability entry asserts, through its
verification block, that the capability is missing in Swift. -/
def capMissingManifest : Manifest :=
  { emptyManifest with
      capabilities_server :=
        [{ property := "p", swift := YField.absent, nested := [],
           verification := some { status := some "missing", notes := some "" } }] }

/-- An external world in which the server source does declare the
property. -/
def capExternals : Externals :=
  { swiftTypes := [], clientContent := "", serverContent := "var p: Bool",
    errorContent := some "", enumCases := fun _ => none,
    fileExists := fun _ => true, fileContent := fun _ => none,
    specTypes := [], specMethods := [], specNotifs := [], specEnums := [],
    specCodes := [], specClientCaps := [], specServerCaps := [],
    capSchemaExists := true }

/-- C5 counterexample.  Two manifests that differ only in the contents of
their verification blocks can produce different per-category gap counts:
`check_capabilities` consults the capability verification status, counting
an entry whose status is "missing" as missing in Swift without looking at
the source, so clearing that status changes the capability gap count. -/
theorem C5_counterexample :
    gapCounts (setAllVerificationPending capMissingManifest) capExternals ≠
      gapCounts capMissingManifest capExternals ∧
    (gapCounts capMissingManifest capExternals).caps_swift_missing = 1 ∧
    (gapCounts (setAllVerificationPending capMissingManifest) capExternals).caps_swift_missing = 0 := by
  refine ⟨by decide, by decide, by decide⟩

theorem resetModule_methods (mo : MModule) :
    (resetModule mo).1.methods = mo.methods.map (fun me => (resetMethodEntry me).1) := by
  show (mo.methods.map resetMethodEntry).map Prod.fst = _
  rw [List.map_map]
  rfl

theorem resetModule_notifications (mo : MModule) :
    (resetModule mo).1.notifications =
      mo.notifications.map (fun ne => (resetNotifEntry ne).1) := by
  show (mo.notifications.map resetNotifEntry).map Prod.fst = _
  rw [List.map_map]
  rfl

theorem reset_validate (m : Manifest) (E : Externals) :
    validate_swift_files (reset_verification m).1 E = validate_swift_files m E := by
  unfold validate_swift_files
  rw [reset_modules_eq, reset_types_eq]
  simp only [List.foldl_map]
  rfl

theorem reset_spec_to_manifest (m : Manifest) (E : Externals) :
    check_spec_to_manifest E.specTypes (reset_verification m).1.types =
      check_spec_to_manifest E.specTypes m.types := by
  unfold check_spec_to_manifest
  rw [reset_types_eq, List.map_map, List.filterMap_map]
  rfl

theorem reset_manifest_to_swift (m : Manifest) (E : Externals) :
    check_manifest_to_swift (reset_verification m).1.types E.swiftTypes =
      check_manifest_to_swift m.types E.swiftTypes := by
  unfold check_manifest_to_swift
  rw [reset_types_eq, List.foldl_map]
  rfl

theorem reset_check_methods (m : Manifest) (E : Externals) :
    check_methods E.specMethods E.specNotifs (reset_verification m).1 =
      check_methods E.specMethods E.specNotifs m := by
  unfold check_methods
  rw [reset_modules_eq]
  have h1 : (m.modules.map (fun mo => (resetModule mo).1)).flatMap
      (fun mo => mo.methods.filterMap (fun me => me.name)) =
      m.modules.flatMap (fun mo => mo.methods.filterMap (fun me => me.name)) := by
    rw [List.flatMap_map]
    apply List.flatMap_congr
    intro mo _
    rw [resetModule_methods, List.filterMap_map]
    rfl
  have h2 : (m.modules.map (fun mo => (resetModule mo).1)).flatMap
      (fun mo => mo.notifications.filterMap (fun ne => ne.name)) =
      m.modules.flatMap (fun mo => mo.notifications.filterMap (fun ne => ne.name)) := by
    rw [List.flatMap_map]
    apply List.flatMap_congr
    intro mo _
    rw [resetModule_notifications, List.filterMap_map]
    rfl
  rw [h1, h2]

theorem reset_check_method_impls (m : Manifest) (E : Externals) :
    check_method_implementations (reset_verification m).1 E =
      check_method_implementations m E := by
  unfold check_method_implementations
  rw [reset_modules_eq, List.foldl_map]
  refine List.foldl_ext _ _ _ ?_
  intro acc mo _
  rw [resetModule_methods, List.foldl_map]
  rfl

theorem reset_check_notif_impls (m : Manifest) (E : Externals) :
    check_notification_implementations (reset_verification m).1 E =
      check_notification_implementations m E := by
  unfold check_notification_implementations
  rw [reset_modules_eq, List.foldl_map]
  refine List.foldl_ext _ _ _ ?_
  intro acc mo _
  rw [resetModule_notifications, List.foldl_map]
  rfl

theorem setAll_validate (m : Manifest) (E : Externals) :
    validate_swift_files (setAllVerificationPending m) E = validate_swift_files m E := by
  unfold validate_swift_files setAllVerificationPending
  simp only [List.foldl_map]
  rfl

theorem setAll_spec_to_manifest (m : Manifest) (E : Externals) :
    check_spec_to_manifest E.specTypes (setAllVerificationPending m).types =
      check_spec_to_manifest E.specTypes m.types := by
  unfold check_spec_to_manifest setAllVerificationPending
  simp only [List.map_map, List.filterMap_map]
  rfl

theorem setAll_manifest_to_swift (m : Manifest) (E : Externals) :
    check_manifest_to_swift (setAllVerificationPending m).types E.swiftTypes =
      check_manifest_to_swift m.types E.swiftTypes := by
  unfold check_manifest_to_swift setAllVerificationPending
  simp only [List.foldl_map]

theorem setAll_check_methods (m : Manifest) (E : Externals) :
    check_methods E.specMethods E.specNotifs (setAllVerificationPending m) =
      check_methods E.specMethods E.specNotifs m := by
  unfold check_methods setAllVerificationPending
  simp only [List.flatMap_map, List.filterMap_map]
  rfl

theorem setAll_method_impls (m : Manifest) (E : Externals) :
    check_method_implementations (setAllVerificationPending m) E =
      check_method_implementations m E := by
  unfold check_method_implementations setAllVerificationPending
  simp only [List.foldl_map]
  rfl

theorem setAll_notif_impls (m : Manifest) (E : Externals) :
    check_notification_implementations (setAllVerificationPending m) E =
      check_notification_implementations m E := by
  unfold check_notification_implementations setAllVerificationPending
  simp only [List.foldl_map]
  rfl

theorem setAll_check_enums (m : Manifest) (E : Externals) :
    check_enums (setAllVerificationPending m) E = check_enums m E := by
  unfold check_enums setAllVerificationPending
  simp only [List.map_map, List.foldl_map]
  rfl

theorem setAll_check_codes (m : Manifest) (E : Externals) :
    check_error_codes (setAllVerificationPending m) E = check_error_codes m E := by
  unfold check_error_codes setAllVerificationPending
  simp only [List.map_map, List.foldl_map]
  rfl

theorem checkCapSwift_setVerif (content : String) (acc : Nat × Nat) (c : CapEntry)
    (h : capStatus c ≠ "missing") :
    checkCapSwift content acc { c with verification := setVerifPending c.verification } =
      checkCapSwift content acc c := by
  have h1 : capStatus { c with verification := setVerifPending c.verification } = "pending" := by
    unfold capStatus setVerifPending
    cases c.verification <;> rfl
  have h3 : (capStatus c == "missing") = false := beq_eq_false_iff_ne.mpr h
  unfold checkCapSwift
  rw [h1, h3]
  rfl

theorem setAll_check_caps (m : Manifest) (E : Externals)
    (hc : ∀ c ∈ m.capabilities_client, capStatus c ≠ "missing")
    (hs : ∀ c ∈ m.capabilities_server, capStatus c ≠ "missing") :
    check_capabilities (setAllVerificationPending m) E = check_capabilities m E := by
  have hfold : ∀ (content : String) (l : List CapEntry),
      (∀ c ∈ l, capStatus c ≠ "missing") → ∀ acc : Nat × Nat,
      (l.map (fun c => { c with verification := setVerifPending c.verification })).foldl
        (checkCapSwift content) acc = l.foldl (checkCapSwift content) acc := by
    intro content l hl acc
    rw [List.foldl_map]
    refine List.foldl_ext _ _ acc ?_
    intro a c hcm
    exact checkCapSwift_setVerif content a c (hl c hcm)
  unfold check_capabilities setAllVerificationPending
  cases hb : E.capSchemaExists with
  | false =>
      simp only [hb]
      rfl
  | true =>
      simp only [hb, Bool.not_true, Bool.false_eq_true, if_false, List.map_map]
      rw [hfold E.clientContent m.capabilities_client hc,
         hfold E.serverContent m.capabilities_server hs]
      rfl

/-- C5 amended.  The repository's reset operation never changes the
per-category gap counts of a reconciliation run (the verification blocks it
clears, under the modules and types sections, are read by no check); and
setting every verification block of the manifest to pending with empty
notes preserves every per-category gap count provided no capability entry
carried the verification status "missing" - the one status value that gap
computation consults. -/
theorem C5_verification_noninterference :
    (∀ (m : Manifest) (E : Externals),
      gapCounts (reset_verification m).1 E = gapCounts m E) ∧
    (∀ (m : Manifest) (E : Externals),
      (∀ c ∈ m.capabilities_client, capStatus c ≠ "missing") →
      (∀ c ∈ m.capabilities_server, capStatus c ≠ "missing") →
      gapCounts (setAllVerificationPending m) E = gapCounts m E) := by
  constructor
  · intro m E
    unfold gapCounts runResults
    rw [reset_validate, reset_spec_to_manifest, reset_manifest_to_swift,
       reset_check_methods, reset_check_method_impls, reset_check_notif_impls]
    rfl
  · intro m E hc hs
    unfold gapCounts runResults
    rw [setAll_validate, setAll_spec_to_manifest, setAll_manifest_to_swift,
       setAll_check_methods, setAll_method_impls, setAll_notif_impls,
       setAll_check_enums, setAll_check_codes, setAll_check_caps m E hc hs]

/-- A manifest whose capability verification status is an ordinary one. -/
def capFixedManifest : Manifest :=
  { emptyManifest with
      capabilities_server :=
        [{ property := "p", swift := YField.absent, nested := [],
           verification := some { status := some "fixed", notes := some "checked" } }] }

theorem C5_witness :
    gapCounts (reset_verification capMissingManifest).1 capExternals =
      gapCounts capMissingManifest capExternals ∧
    gapCounts (setAllVerificationPending capFixedManifest) capExternals =
      gapCounts capFixedManifest capExternals := by
  constructor
  · exact C5_verification_noninterference.1 capMissingManifest capExternals
  · exact C5_verification_noninterference.2 capFixedManifest capExternals
      (by decide) (by decide)

/-! ## Synchronizer infrastructure lemmas (used by the idempotence and
additive-only claims) -/

theorem dictGet_mem {α : Type} :
    ∀ (l : List (String × α)) (k : String) (v : α),
      dictGet l k = some v → (k, v) ∈ l := by
  intro l
  induction l with
  | nil => intro k v h; simp [dictGet] at h
  | cons p rest ih =>
      intro k v h
      by_cases hp : (p.1 == k) = true
      · rw [dictGet, if_pos hp] at h
        have hk : p.1 = k := by simpa [beq_iff_eq] using hp
        have : p = (k, v) := by
          cases p; cases h; cases hk; rfl
        simp [this]
      · rw [dictGet, if_neg hp] at h
        exact List.mem_cons_of_mem _ (ih k v h)

theorem mem_dictSet_of_ne {α : Type} :
    ∀ (l : List (String × α)) (k : String) (v : α) (p : String × α),
      p ∈ l → p.1 ≠ k → p ∈ dictSet l k v := by
  intro l
  induction l with
  | nil => intro k v p h; simp at h
  | cons q rest ih =>
      intro k v p hp hne
      by_cases hq : (q.1 == k) = true
      · rw [dictSet, if_pos hq]
        rcases List.mem_cons.mp hp with rfl | hrest
        · exact absurd (by simpa [beq_iff_eq] using hq) hne
        · exact List.mem_cons_of_mem _ hrest
      · rw [dictSet, if_neg hq]
        rcases List.mem_cons.mp hp with rfl | hrest
        · exact List.mem_cons_self _ _
        · exact List.mem_cons_of_mem _ (ih k v p hrest hne)

theorem find_method_name :
    ∀ (mods : List MModule) (n : String) (e : MethodEntry),
      find_method_in_manifest mods n = some e → e.name = some n := by
  intro mods
  induction mods with
  | nil => intro n e h; simp [find_method_in_manifest] at h
  | cons mo rest ih =>
      intro n e h
      rw [find_method_in_manifest] at h
      cases hf : mo.methods.find? (fun me => me.name == some n) with
      | some me =>
          rw [hf] at h
          cases h
          have := List.find?_some hf
          simpa [beq_iff_eq] using this
      | none =>
          rw [hf] at h
          exact ih n e h

theorem find_notif_name :
    ∀ (mods : List MModule) (n : String) (e : NotifEntry),
      find_notification_in_manifest mods n = some e → e.name = some n := by
  intro mods
  induction mods with
  | nil => intro n e h; simp [find_notification_in_manifest] at h
  | cons mo rest ih =>
      intro n e h
      rw [find_notification_in_manifest] at h
      cases hf : mo.notifications.find? (fun ne => ne.name == some n) with
      | some ne2 =>
          rw [hf] at h
          cases h
          have := List.find?_some hf
          simpa [beq_iff_eq] using this
      | none =>
          rw [hf] at h
          exact ih n e h

theorem replaceMethodEntry_self :
    ∀ (l : List MethodEntry) (n : String) (e : MethodEntry),
      l.find? (fun me => me.name == some n) = some e → replaceMethodEntry l n e = l := by
  intro l
  induction l with
  | nil => intro n e h; simp at h
  | cons me rest ih =>
      intro n e h
      cases hm : (me.name == some n) with
      | true =>
          simp only [List.find?, hm] at h
          cases h
          rw [replaceMethodEntry, if_pos hm]
      | false =>
          simp only [List.find?, hm] at h
          rw [replaceMethodEntry, hm]
          simp only [Bool.false_eq_true, if_false]
          rw [ih n e h]

theorem replaceMethodInModules_self :
    ∀ (mods : List MModule) (n : String) (e : MethodEntry),
      find_method_in_manifest mods n = some e → replaceMethodInModules mods n e = mods := by
  intro mods
  induction mods with
  | nil => intro n e h; simp [find_method_in_manifest] at h
  | cons mo rest ih =>
      intro n e h
      rw [find_method_in_manifest] at h
      cases hf : mo.methods.find? (fun me => me.name == some n) with
      | some me =>
          rw [hf] at h
          cases h
          have hpe := List.find?_some hf
          have hany : mo.methods.any (fun me => me.name == some n) = true :=
            List.any_eq_true.mpr ⟨e, List.mem_of_find?_eq_some hf, hpe⟩
          rw [replaceMethodInModules, if_pos hany, replaceMethodEntry_self _ _ _ hf]
      | none =>
          rw [hf] at h
          have hany : mo.methods.any (fun me => me.name == some n) = false :=
            List.any_eq_false.mpr (fun me hme => List.find?_eq_none.mp hf me hme)
          rw [replaceMethodInModules, hany]
          simp only [Bool.false_eq_true, if_false]
          rw [ih n e h]

theorem replaceNotifEntry_self :
    ∀ (l : List NotifEntry) (n : String) (e : NotifEntry),
      l.find? (fun x => x.name == some n) = some e → replaceNotifEntry l n e = l := by
  intro l
  induction l with
  | nil => intro n e h; simp at h
  | cons ne2 rest ih =>
      intro n e h
      cases hm : (ne2.name == some n) with
      | true =>
          simp only [List.find?, hm] at h
          cases h
          rw [replaceNotifEntry, if_pos hm]
      | false =>
          simp only [List.find?, hm] at h
          rw [replaceNotifEntry, hm]
          simp only [Bool.false_eq_true, if_false]
          rw [ih n e h]

theorem replaceNotifInModules_self :
    ∀ (mods : List MModule) (n : String) (e : NotifEntry),
      find_notification_in_manifest mods n = some e →
        replaceNotifInModules mods n e = mods := by
  intro mods
  induction mods with
  | nil => intro n e h; simp [find_notification_in_manifest] at h
  | cons mo rest ih =>
      intro n e h
      rw [find_notification_in_manifest] at h
      cases hf : mo.notifications.find? (fun x => x.name == some n) with
      | some ne2 =>
          rw [hf] at h
          cases h
          have hpe := List.find?_some hf
          have hany : mo.notifications.any (fun x => x.name == some n) = true :=
            List.any_eq_true.mpr ⟨e, List.mem_of_find?_eq_some hf, hpe⟩
          rw [replaceNotifInModules, if_pos hany, replaceNotifEntry_self _ _ _ hf]
      | none =>
          rw [hf] at h
          have hany : mo.notifications.any (fun x => x.name == some n) = false :=
            List.any_eq_false.mpr (fun x hx => List.find?_eq_none.mp hf x hx)
          rw [replaceNotifInModules, hany]
          simp only [Bool.false_eq_true, if_false]
          rw [ih n e h]

theorem replaceMethodEntry_find_self :
    ∀ (l : List MethodEntry) (n : String) (e e2 : MethodEntry),
      l.find? (fun me => me.name == some n) = some e → (e2.name == some n) = true →
      (replaceMethodEntry l n e2).find? (fun me => me.name == some n) = some e2 := by
  intro l
  induction l with
  | nil => intro n e e2 h _; simp at h
  | cons me rest ih =>
      intro n e e2 h he2
      cases hm : (me.name == some n) with
      | true =>
          rw [replaceMethodEntry, if_pos hm]
          simp only [List.find?, he2]
      | false =>
          simp only [List.find?, hm] at h
          rw [replaceMethodEntry, hm]
          simp only [Bool.false_eq_true, if_false, List.find?, hm]
          exact ih n e e2 h he2

theorem replaceMethodEntry_find_ne :
    ∀ (l : List MethodEntry) (n n' : String) (e2 : MethodEntry),
      n' ≠ n → (e2.name == some n') = false →
      (replaceMethodEntry l n e2).find? (fun me => me.name == some n') =
        l.find? (fun me => me.name == some n') := by
  intro l
  induction l with
  | nil => intro n n' e2 _ _; rfl
  | cons me rest ih =>
      intro n n' e2 hne he2
      cases hm : (me.name == some n) with
      | true =>
          have hmn : me.name = some n := by simpa [beq_iff_eq] using hm
          have hm' : (me.name == some n') = false := by
            rw [hmn]
            simp [hne.symm]
          rw [replaceMethodEntry, if_pos hm]
          simp only [List.find?, he2, hm']
      | false =>
          rw [replaceMethodEntry, hm]
          simp only [Bool.false_eq_true, if_false]
          cases hm' : (me.name == some n') with
          | true => simp only [List.find?, hm']
          | false =>
              simp only [List.find?, hm']
              exact ih n n' e2 hne he2

theorem replaceNotifEntry_find_self :
    ∀ (l : List NotifEntry) (n : String) (e e2 : NotifEntry),
      l.find? (fun x => x.name == some n) = some e → (e2.name == some n) = true →
      (replaceNotifEntry l n e2).find? (fun x => x.name == some n) = some e2 := by
  intro l
  induction l with
  | nil => intro n e e2 h _; simp at h
  | cons x rest ih =>
      intro n e e2 h he2
      cases hm : (x.name == some n) with
      | true =>
          rw [replaceNotifEntry, if_pos hm]
          simp only [List.find?, he2]
      | false =>
          simp only [List.find?, hm] at h
          rw [replaceNotifEntry, hm]
          simp only [Bool.false_eq_true, if_false, List.find?, hm]
          exact ih n e e2 h he2

theorem replaceNotifEntry_find_ne :
    ∀ (l : List NotifEntry) (n n' : String) (e2 : NotifEntry),
      n' ≠ n → (e2.name == some n') = false →
      (replaceNotifEntry l n e2).find? (fun x => x.name == some n') =
        l.find? (fun x => x.name == some n') := by
  intro l
  induction l with
  | nil => intro n n' e2 _ _; rfl
  | cons x rest ih =>
      intro n n' e2 hne he2
      cases hm : (x.name == some n) with
      | true =>
          have hmn : x.name = some n := by simpa [beq_iff_eq] using hm
          have hm' : (x.name == some n') = false := by
            rw [hmn]
            simp [hne.symm]
          rw [replaceNotifEntry, if_pos hm]
          simp only [List.find?, he2, hm']
      | false =>
          rw [replaceNotifEntry, hm]
          simp only [Bool.false_eq_true, if_false]
          cases hm' : (x.name == some n') with
          | true => simp only [List.find?, hm']
          | false =>
              simp only [List.find?, hm']
              exact ih n n' e2 hne he2

theorem find_method_append :
    ∀ (l1 l2 : List MModule) (n : String),
      find_method_in_manifest (l1 ++ l2) n =
        (find_method_in_manifest l1 n).or (find_method_in_manifest l2 n) := by
  intro l1
  induction l1 with
  | nil => intro l2 n; simp [find_method_in_manifest]
  | cons mo rest ih =>
      intro l2 n
      rw [List.cons_append, find_method_in_manifest, find_method_in_manifest]
      cases hf : mo.methods.find? (fun me => me.name == some n) with
      | some me => simp [Option.or]
      | none => simpa using ih l2 n

theorem find_notif_append :
    ∀ (l1 l2 : List MModule) (n : String),
      find_notification_in_manifest (l1 ++ l2) n =
        (find_notification_in_manifest l1 n).or (find_notification_in_manifest l2 n) := by
  intro l1
  induction l1 with
  | nil => intro l2 n; simp [find_notification_in_manifest]
  | cons mo rest ih =>
      intro l2 n
      rw [List.cons_append, find_notification_in_manifest, find_notification_in_manifest]
      cases hf : mo.notifications.find? (fun x => x.name == some n) with
      | some x => simp [Option.or]
      | none => simpa using ih l2 n

theorem find_method_replace_eq :
    ∀ (mods : List MModule) (n : String) (e e2 : MethodEntry),
      find_method_in_manifest mods n = some e → (e2.name == some n) = true →
      find_method_in_manifest (replaceMethodInModules mods n e2) n = some e2 := by
  intro mods
  induction mods with
  | nil => intro n e e2 h _; simp [find_method_in_manifest] at h
  | cons mo rest ih =>
      intro n e e2 h he2
      rw [find_method_in_manifest] at h
      cases hf : mo.methods.find? (fun me => me.name == some n) with
      | some me =>
          rw [hf] at h
          cases h
          have hpe := List.find?_some hf
          have hany : mo.methods.any (fun me => me.name == some n) = true :=
            List.any_eq_true.mpr ⟨e, List.mem_of_find?_eq_some hf, hpe⟩
          rw [replaceMethodInModules, if_pos hany, find_method_in_manifest]
          have hproj : ({ mo with methods := replaceMethodEntry mo.methods n e2 } :
              MModule).methods = replaceMethodEntry mo.methods n e2 := rfl
          rw [hproj, replaceMethodEntry_find_self mo.methods n e e2 hf he2]
      | none =>
          rw [hf] at h
          have hany : mo.methods.any (fun me => me.name == some n) = false :=
            List.any_eq_false.mpr (fun me hme => List.find?_eq_none.mp hf me hme)
          rw [replaceMethodInModules, hany]
          simp only [Bool.false_eq_true, if_false]
          rw [find_method_in_manifest, hf]
          exact ih n e e2 h he2

theorem find_method_replace_ne :
    ∀ (mods : List MModule) (n n' : String) (e2 : MethodEntry),
      n' ≠ n → (e2.name == some n') = false →
      find_method_in_manifest (replaceMethodInModules mods n e2) n' =
        find_method_in_manifest mods n' := by
  intro mods
  induction mods with
  | nil => intro n n' e2 _ _; rfl
  | cons mo rest ih =>
      intro n n' e2 hne he2
      cases hany : mo.methods.any (fun me => me.name == some n) with
      | true =>
          rw [replaceMethodInModules, if_pos hany, find_method_in_manifest,
            find_method_in_manifest]
          have hproj : ({ mo with methods := replaceMethodEntry mo.methods n e2 } :
              MModule).methods = replaceMethodEntry mo.methods n e2 := rfl
          rw [hproj, replaceMethodEntry_find_ne mo.methods n n' e2 hne he2]
      | false =>
          rw [replaceMethodInModules, hany]
          simp only [Bool.false_eq_true, if_false]
          rw [find_method_in_manifest, find_method_in_manifest]
          cases hf : mo.methods.find? (fun me => me.name == some n') with
          | some me => rfl
          | none => exact ih n n' e2 hne he2

theorem find_method_appendAt :
    ∀ (mods : List MModule) (mid n : String) (e : MethodEntry),
      find_method_in_manifest mods n = none → (e.name == some n) = true →
      mods.any (fun mo => mo.id == some mid) = true →
      find_method_in_manifest (appendMethodAt mods mid e) n = some e := by
  intro mods
  induction mods with
  | nil => intro mid n e _ _ hA; simp at hA
  | cons mo rest ih =>
      intro mid n e h he hA
      rw [find_method_in_manifest] at h
      cases hf : mo.methods.find? (fun me => me.name == some n) with
      | some me => rw [hf] at h; exact absurd h (by simp)
      | none =>
          rw [hf] at h
          cases hid : (mo.id == some mid) with
          | true =>
              rw [appendMethodAt, if_pos hid, find_method_in_manifest]
              have hproj : ({ mo with methods := mo.methods ++ [e] } :
                  MModule).methods = mo.methods ++ [e] := rfl
              rw [hproj, List.find?_append, hf]
              simp only [Option.none_or, List.find?, he]
          | false =>
              have hA' : rest.any (fun mo => mo.id == some mid) = true := by
                simp only [List.any_cons, hid, Bool.false_or] at hA
                exact hA
              rw [appendMethodAt, hid]
              simp only [Bool.false_eq_true, if_false]
              rw [find_method_in_manifest, hf]
              exact ih mid n e h he hA'

theorem find_method_appendAt_ne :
    ∀ (mods : List MModule) (mid n n' : String) (e : MethodEntry),
      (e.name == some n') = false →
      find_method_in_manifest (appendMethodAt mods mid e) n' =
        find_method_in_manifest mods n' := by
  intro mods
  induction mods with
  | nil => intro mid n n' e _; rfl
  | cons mo rest ih =>
      intro mid n n' e he
      cases hid : (mo.id == some mid) with
      | true =>
          rw [appendMethodAt, if_pos hid, find_method_in_manifest,
            find_method_in_manifest]
          have hproj : ({ mo with methods := mo.methods ++ [e] } :
              MModule).methods = mo.methods ++ [e] := rfl
          rw [hproj, List.find?_append]
          have h1 : [e].find? (fun me => me.name == some n') = none := by
            simp only [List.find?, he]
          rw [h1, Option.or_none]
      | false =>
          rw [appendMethodAt, hid]
          simp only [Bool.false_eq_true, if_false]
          rw [find_method_in_manifest, find_method_in_manifest]
          cases hf : mo.methods.find? (fun me => me.name == some n') with
          | some me => rfl
          | none => exact ih mid n n' e he

theorem find_method_add_eq :
    ∀ (mods : List MModule) (mid n : String) (e : MethodEntry),
      find_method_in_manifest mods n = none → (e.name == some n) = true →
      find_method_in_manifest (addMethodToModules mods mid e) n = some e := by
  intro mods mid n e h he
  rw [addMethodToModules]
  cases hA : mods.any (fun mo => mo.id == some mid) with
  | true =>
      simp only [if_true]
      exact find_method_appendAt mods mid n e h he hA
  | false =>
      simp only [Bool.false_eq_true, if_false]
      rw [find_method_append, h, Option.none_or, find_method_in_manifest]
      have hproj : ({ newSyncModule mid with methods := [e] } : MModule).methods = [e] := rfl
      rw [hproj]
      simp only [List.find?, he]

theorem find_method_add_ne :
    ∀ (mods : List MModule) (mid n n' : String) (e : MethodEntry),
      (e.name == some n') = false →
      find_method_in_manifest (addMethodToModules mods mid e) n' =
        find_method_in_manifest mods n' := by
  intro mods mid n n' e he
  rw [addMethodToModules]
  cases hA : mods.any (fun mo => mo.id == some mid) with
  | true =>
      simp only [if_true]
      exact find_method_appendAt_ne mods mid n n' e he
  | false =>
      simp only [Bool.false_eq_true, if_false]
      rw [find_method_append]
      have h1 : find_method_in_manifest [{ newSyncModule mid with methods := [e] }] n'
          = none := by
        rw [find_method_in_manifest]
        have hproj : ({ newSyncModule mid with methods := [e] } : MModule).methods
            = [e] := rfl
        rw [hproj]
        simp only [List.find?, he]
        rfl
      rw [h1, Option.or_none]

theorem find_notif_replace_eq :
    ∀ (mods : List MModule) (n : String) (e e2 : NotifEntry),
      find_notification_in_manifest mods n = some e → (e2.name == some n) = true →
      find_notification_in_manifest (replaceNotifInModules mods n e2) n = some e2 := by
  intro mods
  induction mods with
  | nil => intro n e e2 h _; simp [find_notification_in_manifest] at h
  | cons mo rest ih =>
      intro n e e2 h he2
      rw [find_notification_in_manifest] at h
      cases hf : mo.notifications.find? (fun x => x.name == some n) with
      | some x =>
          rw [hf] at h
          cases h
          have hpe := List.find?_some hf
          have hany : mo.notifications.any (fun x => x.name == some n) = true :=
            List.any_eq_true.mpr ⟨e, List.mem_of_find?_eq_some hf, hpe⟩
          rw [replaceNotifInModules, if_pos hany, find_notification_in_manifest]
          have hproj : ({ mo with notifications := replaceNotifEntry mo.notifications n e2 } :
              MModule).notifications = replaceNotifEntry mo.notifications n e2 := rfl
          rw [hproj, replaceNotifEntry_find_self mo.notifications n e e2 hf he2]
      | none =>
          rw [hf] at h
          have hany : mo.notifications.any (fun x => x.name == some n) = false :=
            List.any_eq_false.mpr (fun x hx => List.find?_eq_none.mp hf x hx)
          rw [replaceNotifInModules, hany]
          simp only [Bool.false_eq_true, if_false]
          rw [find_notification_in_manifest, hf]
          exact ih n e e2 h he2

theorem find_notif_replace_ne :
    ∀ (mods : List MModule) (n n' : String) (e2 : NotifEntry),
      n' ≠ n → (e2.name == some n') = false →
      find_notification_in_manifest (replaceNotifInModules mods n e2) n' =
        find_notification_in_manifest mods n' := by
  intro mods
  induction mods with
  | nil => intro n n' e2 _ _; rfl
  | cons mo rest ih =>
      intro n n' e2 hne he2
      cases hany : mo.notifications.any (fun x => x.name == some n) with
      | true =>
          rw [replaceNotifInModules, if_pos hany, find_notification_in_manifest,
            find_notification_in_manifest]
          have hproj : ({ mo with notifications := replaceNotifEntry mo.notifications n e2 } :
              MModule).notifications = replaceNotifEntry mo.notifications n e2 := rfl
          rw [hproj, replaceNotifEntry_find_ne mo.notifications n n' e2 hne he2]
      | false =>
          rw [replaceNotifInModules, hany]
          simp only [Bool.false_eq_true, if_false]
          rw [find_notification_in_manifest, find_notification_in_manifest]
          cases hf : mo.notifications.find? (fun x => x.name == some n') with
          | some x => rfl
          | none => exact ih n n' e2 hne he2

theorem find_notif_appendAt :
    ∀ (mods : List MModule) (mid n : String) (e : NotifEntry),
      find_notification_in_manifest mods n = none → (e.name == some n) = true →
      mods.any (fun mo => mo.id == some mid) = true →
      find_notification_in_manifest (appendNotifAt mods mid e) n = some e := by
  intro mods
  induction mods with
  | nil => intro mid n e _ _ hA; simp at hA
  | cons mo rest ih =>
      intro mid n e h he hA
      rw [find_notification_in_manifest] at h
      cases hf : mo.notifications.find? (fun x => x.name == some n) with
      | some x => rw [hf] at h; exact absurd h (by simp)
      | none =>
          rw [hf] at h
          cases hid : (mo.id == some mid) with
          | true =>
              rw [appendNotifAt, if_pos hid, find_notification_in_manifest]
              have hproj : ({ mo with notifications := mo.notifications ++ [e] } :
                  MModule).notifications = mo.notifications ++ [e] := rfl
              rw [hproj, List.find?_append, hf]
              simp only [Option.none_or, List.find?, he]
          | false =>
              have hA' : rest.any (fun mo => mo.id == some mid) = true := by
                simp only [List.any_cons, hid, Bool.false_or] at hA
                exact hA
              rw [appendNotifAt, hid]
              simp only [Bool.false_eq_true, if_false]
              rw [find_notification_in_manifest, hf]
              exact ih mid n e h he hA'

theorem find_notif_appendAt_ne :
    ∀ (mods : List MModule) (mid n' : String) (e : NotifEntry),
      (e.name == some n') = false →
      find_notification_in_manifest (appendNotifAt mods mid e) n' =
        find_notification_in_manifest mods n' := by
  intro mods
  induction mods with
  | nil => intro mid n' e _; rfl
  | cons mo rest ih =>
      intro mid n' e he
      cases hid : (mo.id == some mid) with
      | true =>
          rw [appendNotifAt, if_pos hid, find_notification_in_manifest,
            find_notification_in_manifest]
          have hproj : ({ mo with notifications := mo.notifications ++ [e] } :
              MModule).notifications = mo.notifications ++ [e] := rfl
          rw [hproj, List.find?_append]
          have h1 : [e].find? (fun x => x.name == some n') = none := by
            simp only [List.find?, he]
          rw [h1, Option.or_none]
      | false =>
          rw [appendNotifAt, hid]
          simp only [Bool.false_eq_true, if_false]
          rw [find_notification_in_manifest, find_notification_in_manifest]
          cases hf : mo.notifications.find? (fun x => x.name == some n') with
          | some x => rfl
          | none => exact ih mid n' e he

theorem find_notif_add_eq :
    ∀ (mods : List MModule) (mid n : String) (e : NotifEntry),
      find_notification_in_manifest mods n = none → (e.name == some n) = true →
      find_notification_in_manifest (addNotifToModules mods mid e) n = some e := by
  intro mods mid n e h he
  rw [addNotifToModules]
  cases hA : mods.any (fun mo => mo.id == some mid) with
  | true =>
      simp only [if_true]
      exact find_notif_appendAt mods mid n e h he hA
  | false =>
      simp only [Bool.false_eq_true, if_false]
      rw [find_notif_append, h, Option.none_or, find_notification_in_manifest]
      have hproj : ({ newSyncModule mid with notifications := [e] } :
          MModule).notifications = [e] := rfl
      rw [hproj]
      simp only [List.find?, he]

theorem find_notif_add_ne :
    ∀ (mods : List MModule) (mid n' : String) (e : NotifEntry),
      (e.name == some n') = false →
      find_notification_in_manifest (addNotifToModules mods mid e) n' =
        find_notification_in_manifest mods n' := by
  intro mods mid n' e he
  rw [addNotifToModules]
  cases hA : mods.any (fun mo => mo.id == some mid) with
  | true =>
      simp only [if_true]
      exact find_notif_appendAt_ne mods mid n' e he
  | false =>
      simp only [Bool.false_eq_true, if_false]
      rw [find_notif_append]
      have h1 : find_notification_in_manifest [{ newSyncModule mid with notifications := [e] }]
          n' = none := by
        rw [find_notification_in_manifest]
        have hproj : ({ newSyncModule mid with notifications := [e] } :
            MModule).notifications = [e] := rfl
        rw [hproj]
        simp only [List.find?, he]
        rfl
      rw [h1, Option.or_none]

theorem find_method_appendNotifAt :
    ∀ (mods : List MModule) (mid : String) (ne2 : NotifEntry) (n : String),
      find_method_in_manifest (appendNotifAt mods mid ne2) n =
        find_method_in_manifest mods n := by
  intro mods
  induction mods with
  | nil => intro mid ne2 n; rfl
  | cons mo rest ih =>
      intro mid ne2 n
      cases hid : (mo.id == some mid) with
      | true =>
          rw [appendNotifAt, if_pos hid, find_method_in_manifest, find_method_in_manifest]
      | false =>
          rw [appendNotifAt, hid]
          simp only [Bool.false_eq_true, if_false]
          rw [find_method_in_manifest, find_method_in_manifest]
          cases hf : mo.methods.find? (fun me => me.name == some n) with
          | some me => rfl
          | none => exact ih mid ne2 n

theorem find_method_addNotif :
    ∀ (mods : List MModule) (mid : String) (ne2 : NotifEntry) (n : String),
      find_method_in_manifest (addNotifToModules mods mid ne2) n =
        find_method_in_manifest mods n := by
  intro mods mid ne2 n
  rw [addNotifToModules]
  cases hA : mods.any (fun mo => mo.id == some mid) with
  | true =>
      simp only [if_true]
      exact find_method_appendNotifAt mods mid ne2 n
  | false =>
      simp only [Bool.false_eq_true, if_false]
      rw [find_method_append]
      have h1 : find_method_in_manifest [{ newSyncModule mid with notifications := [ne2] }] n
          = none := rfl
      rw [h1, Option.or_none]

theorem find_method_replaceNotif :
    ∀ (mods : List MModule) (n' : String) (ne2 : NotifEntry) (n : String),
      find_method_in_manifest (replaceNotifInModules mods n' ne2) n =
        find_method_in_manifest mods n := by
  intro mods
  induction mods with
  | nil => intro n' ne2 n; rfl
  | cons mo rest ih =>
      intro n' ne2 n
      cases hany : mo.notifications.any (fun x => x.name == some n') with
      | true =>
          rw [replaceNotifInModules, if_pos hany, find_method_in_manifest,
            find_method_in_manifest]
      | false =>
          rw [replaceNotifInModules, hany]
          simp only [Bool.false_eq_true, if_false]
          rw [find_method_in_manifest, find_method_in_manifest]
          cases hf : mo.methods.find? (fun me => me.name == some n) with
          | some me => rfl
          | none => exact ih n' ne2 n

theorem find_notif_appendMethodAt :
    ∀ (mods : List MModule) (mid : String) (me2 : MethodEntry) (n : String),
      find_notification_in_manifest (appendMethodAt mods mid me2) n =
        find_notification_in_manifest mods n := by
  intro mods
  induction mods with
  | nil => intro mid me2 n; rfl
  | cons mo rest ih =>
      intro mid me2 n
      cases hid : (mo.id == some mid) with
      | true =>
          rw [appendMethodAt, if_pos hid, find_notification_in_manifest,
            find_notification_in_manifest]
      | false =>
          rw [appendMethodAt, hid]
          simp only [Bool.false_eq_true, if_false]
          rw [find_notification_in_manifest, find_notification_in_manifest]
          cases hf : mo.notifications.find? (fun x => x.name == some n) with
          | some x => rfl
          | none => exact ih mid me2 n

theorem find_notif_addMethod :
    ∀ (mods : List MModule) (mid : String) (me2 : MethodEntry) (n : String),
      find_notification_in_manifest (addMethodToModules mods mid me2) n =
        find_notification_in_manifest mods n := by
  intro mods mid me2 n
  rw [addMethodToModules]
  cases hA : mods.any (fun mo => mo.id == some mid) with
  | true =>
      simp only [if_true]
      exact find_notif_appendMethodAt mods mid me2 n
  | false =>
      simp only [Bool.false_eq_true, if_false]
      rw [find_notif_append]
      have h1 : find_notification_in_manifest [{ newSyncModule mid with methods := [me2] }] n
          = none := rfl
      rw [h1, Option.or_none]

theorem find_notif_replaceMethod :
    ∀ (mods : List MModule) (n' : String) (me2 : MethodEntry) (n : String),
      find_notification_in_manifest (replaceMethodInModules mods n' me2) n =
        find_notification_in_manifest mods n := by
  intro mods
  induction mods with
  | nil => intro n' me2 n; rfl
  | cons mo rest ih =>
      intro n' me2 n
      cases hany : mo.methods.any (fun me => me.name == some n') with
      | true =>
          rw [replaceMethodInModules, if_pos hany, find_notification_in_manifest,
            find_notification_in_manifest]
      | false =>
          rw [replaceMethodInModules, hany]
          simp only [Bool.false_eq_true, if_false]
          rw [find_notification_in_manifest, find_notification_in_manifest]
          cases hf : mo.notifications.find? (fun x => x.name == some n) with
          | some x => rfl
          | none => exact ih n' me2 n

/-- The fields the `sync_methods` update pass requires an existing entry to
carry for a given spec direction; when they are all present the pass makes
no change (`sync-manifest.py`, lines 423-461). -/
def methodSat (e : MethodEntry) (info : SpecMethodInfo) : Bool :=
  if info.direction == "client_to_server" then e.client_method.isSome
  else if info.direction == "server_to_client" then
    e.server_method.isSome && (info.client_handler == "" || e.client_handler.isSome)
  else if info.direction == "bidirectional" then
    e.client_method.isSome && e.server_method.isSome
  else true

theorem fillMethod_name (e : MethodEntry) (i : SpecMethodInfo) :
    (fillMethodEntry e i).1.name = e.name := by
  by_cases h1 : i.direction = "client_to_server" <;>
    by_cases h2 : i.direction = "server_to_client" <;>
      by_cases h3 : i.direction = "bidirectional" <;>
        by_cases h4 : i.client_handler = "" <;>
          rcases hc : e.client_method with _ | cv <;>
            rcases hs : e.server_method with _ | sv <;>
              rcases hh : e.client_handler with _ | hv <;>
                simp_all [fillMethodEntry]

theorem fillMethod_of_sat (e : MethodEntry) (i : SpecMethodInfo)
    (h : methodSat e i = true) : fillMethodEntry e i = (e, 0) := by
  by_cases h1 : i.direction = "client_to_server" <;>
    by_cases h2 : i.direction = "server_to_client" <;>
      by_cases h3 : i.direction = "bidirectional" <;>
        by_cases h4 : i.client_handler = "" <;>
          rcases hc : e.client_method with _ | cv <;>
            rcases hs : e.server_method with _ | sv <;>
              rcases hh : e.client_handler with _ | hv <;>
                simp_all [fillMethodEntry, methodSat]

theorem fillMethod_sat (e : MethodEntry) (i : SpecMethodInfo) :
    methodSat (fillMethodEntry e i).1 i = true := by
  by_cases h1 : i.direction = "client_to_server" <;>
    by_cases h2 : i.direction = "server_to_client" <;>
      by_cases h3 : i.direction = "bidirectional" <;>
        by_cases h4 : i.client_handler = "" <;>
          rcases hc : e.client_method with _ | cv <;>
            rcases hs : e.server_method with _ | sv <;>
              rcases hh : e.client_handler with _ | hv <;>
                simp_all [fillMethodEntry, methodSat]

theorem newSyncMethod_sat (n : String) (i : SpecMethodInfo) :
    methodSat (newSyncMethod n i) i = true := by
  by_cases h1 : i.direction = "client_to_server" <;>
    by_cases h2 : i.direction = "server_to_client" <;>
      by_cases h3 : i.direction = "bidirectional" <;>
        by_cases h4 : i.client_handler = "" <;>
          simp_all [newSyncMethod, methodSat]

/-- The fields the `sync_notifications` update pass requires an existing
entry to carry for a given spec direction (`sync-manifest.py`,
lines 517-548). -/
def notifSat (e : NotifEntry) (info : SpecNotifInfo) : Bool :=
  e.sender.isSome &&
    (!(info.direction == "server_to_client" || info.direction == "bidirectional")
        || e.server_send.isSome) &&
    (!(info.direction == "client_to_server" || info.direction == "bidirectional")
        || e.client_send.isSome)

theorem fillNotif_name (e : NotifEntry) (i : SpecNotifInfo) :
    (fillNotifEntry e i).1.name = e.name := by
  by_cases h1 : i.direction = "client_to_server" <;>
    by_cases h2 : i.direction = "server_to_client" <;>
      by_cases h3 : i.direction = "bidirectional" <;>
        rcases hd : e.sender with _ | dv <;>
          rcases hs : e.server_send with _ | sv <;>
            rcases hc : e.client_send with _ | cv <;>
              simp_all [fillNotifEntry]

theorem fillNotif_of_sat (e : NotifEntry) (i : SpecNotifInfo)
    (h : notifSat e i = true) : fillNotifEntry e i = (e, 0) := by
  by_cases h1 : i.direction = "client_to_server" <;>
    by_cases h2 : i.direction = "server_to_client" <;>
      by_cases h3 : i.direction = "bidirectional" <;>
        rcases hd : e.sender with _ | dv <;>
          rcases hs : e.server_send with _ | sv <;>
            rcases hc : e.client_send with _ | cv <;>
              simp_all [fillNotifEntry, notifSat]

theorem fillNotif_sat (e : NotifEntry) (i : SpecNotifInfo) :
    notifSat (fillNotifEntry e i).1 i = true := by
  by_cases h1 : i.direction = "client_to_server" <;>
    by_cases h2 : i.direction = "server_to_client" <;>
      by_cases h3 : i.direction = "bidirectional" <;>
        rcases hd : e.sender with _ | dv <;>
          rcases hs : e.server_send with _ | sv <;>
            rcases hc : e.client_send with _ | cv <;>
              simp_all [fillNotifEntry, notifSat]

theorem newSyncNotif_sat (n : String) (i : SpecNotifInfo) :
    notifSat (newSyncNotif n i) i = true := by
  by_cases h1 : i.direction = "client_to_server" <;>
    by_cases h2 : i.direction = "server_to_client" <;>
      by_cases h3 : i.direction = "bidirectional" <;>
        simp_all [newSyncNotif, notifSat]

/-- An entry for the method name exists somewhere in the modules and already
carries every field its spec direction requires. -/
def methodOK (mods : List MModule) (x : String × SpecMethodInfo) : Prop :=
  ∃ e, find_method_in_manifest mods x.1 = some e ∧ methodSat e x.2 = true

/-- An entry for the notification name exists somewhere in the modules and
already carries every field its spec direction requires. -/
def notifOK (mods : List MModule) (x : String × SpecNotifInfo) : Prop :=
  ∃ e, find_notification_in_manifest mods x.1 = some e ∧ notifSat e x.2 = true

theorem syncMethodsStep_est (acc : Manifest × Nat) (x : String × SpecMethodInfo) :
    methodOK (syncMethodsStep false acc x).1.modules x := by
  unfold syncMethodsStep
  cases hf : find_method_in_manifest acc.1.modules x.1 with
  | none =>
      refine ⟨newSyncMethod x.1 x.2, ?_, newSyncMethod_sat x.1 x.2⟩
      show find_method_in_manifest
        (addMethodToModules acc.1.modules (get_module_id_from_method x.1)
          (newSyncMethod x.1 x.2)) x.1 = some (newSyncMethod x.1 x.2)
      exact find_method_add_eq _ _ _ _ hf (by simp [newSyncMethod])
  | some e =>
      refine ⟨(fillMethodEntry e x.2).1, ?_, fillMethod_sat e x.2⟩
      show find_method_in_manifest
        (replaceMethodInModules acc.1.modules x.1 (fillMethodEntry e x.2).1) x.1 =
          some (fillMethodEntry e x.2).1
      refine find_method_replace_eq _ _ e _ hf ?_
      rw [fillMethod_name, find_method_name _ _ _ hf]
      exact beq_self_eq_true _

theorem syncMethodsStep_mono (acc : Manifest × Nat) (x y : String × SpecMethodInfo)
    (hne : x.1 ≠ y.1) (h : methodOK acc.1.modules x) :
    methodOK (syncMethodsStep false acc y).1.modules x := by
  obtain ⟨e, hfind, hsat⟩ := h
  unfold syncMethodsStep
  cases hf : find_method_in_manifest acc.1.modules y.1 with
  | none =>
      refine ⟨e, ?_, hsat⟩
      show find_method_in_manifest
        (addMethodToModules acc.1.modules (get_module_id_from_method y.1)
          (newSyncMethod y.1 y.2)) x.1 = some e
      have hcond : ((newSyncMethod y.1 y.2).name == some x.1) = false := by
        show ((some y.1 : Option String) == some x.1) = false
        rw [beq_eq_false_iff_ne]
        exact fun hc => hne (Option.some.inj hc).symm
      rw [find_method_add_ne acc.1.modules (get_module_id_from_method y.1) y.1 x.1
        (newSyncMethod y.1 y.2) hcond]
      exact hfind
  | some e' =>
      refine ⟨e, ?_, hsat⟩
      show find_method_in_manifest
        (replaceMethodInModules acc.1.modules y.1 (fillMethodEntry e' y.2).1) x.1 = some e
      have hcond : ((fillMethodEntry e' y.2).1.name == some x.1) = false := by
        rw [fillMethod_name, find_method_name _ _ _ hf, beq_eq_false_iff_ne]
        exact fun hc => hne (Option.some.inj hc).symm
      rw [find_method_replace_ne _ _ _ _ hne hcond]
      exact hfind

theorem syncMethodsStep_zero (m : Manifest) (c : Nat) (x : String × SpecMethodInfo)
    (h : methodOK m.modules x) : syncMethodsStep false (m, c) x = (m, c) := by
  obtain ⟨e, hfind, hsat⟩ := h
  unfold syncMethodsStep
  have h1 : find_method_in_manifest (m, c).1.modules x.1 = some e := hfind
  rw [h1]
  simp only [fillMethod_of_sat e x.2 hsat]
  rw [replaceMethodInModules_self _ _ _ hfind]
  rfl

theorem syncNotifsStep_est (acc : Manifest × Nat) (x : String × SpecNotifInfo) :
    notifOK (syncNotifsStep false acc x).1.modules x := by
  unfold syncNotifsStep
  cases hf : find_notification_in_manifest acc.1.modules x.1 with
  | none =>
      refine ⟨newSyncNotif x.1 x.2, ?_, newSyncNotif_sat x.1 x.2⟩
      show find_notification_in_manifest
        (addNotifToModules acc.1.modules (get_module_id_from_notification x.1)
          (newSyncNotif x.1 x.2)) x.1 = some (newSyncNotif x.1 x.2)
      exact find_notif_add_eq _ _ _ _ hf (by simp [newSyncNotif])
  | some e =>
      refine ⟨(fillNotifEntry e x.2).1, ?_, fillNotif_sat e x.2⟩
      show find_notification_in_manifest
        (replaceNotifInModules acc.1.modules x.1 (fillNotifEntry e x.2).1) x.1 =
          some (fillNotifEntry e x.2).1
      refine find_notif_replace_eq _ _ e _ hf ?_
      rw [fillNotif_name, find_notif_name _ _ _ hf]
      exact beq_self_eq_true _

theorem syncNotifsStep_mono (acc : Manifest × Nat) (x y : String × SpecNotifInfo)
    (hne : x.1 ≠ y.1) (h : notifOK acc.1.modules x) :
    notifOK (syncNotifsStep false acc y).1.modules x := by
  obtain ⟨e, hfind, hsat⟩ := h
  unfold syncNotifsStep
  cases hf : find_notification_in_manifest acc.1.modules y.1 with
  | none =>
      refine ⟨e, ?_, hsat⟩
      show find_notification_in_manifest
        (addNotifToModules acc.1.modules (get_module_id_from_notification y.1)
          (newSyncNotif y.1 y.2)) x.1 = some e
      have hcond : ((newSyncNotif y.1 y.2).name == some x.1) = false := by
        show ((some y.1 : Option String) == some x.1) = false
        rw [beq_eq_false_iff_ne]
        exact fun hc => hne (Option.some.inj hc).symm
      rw [find_notif_add_ne _ _ _ _ hcond]
      exact hfind
  | some e' =>
      refine ⟨e, ?_, hsat⟩
      show find_notification_in_manifest
        (replaceNotifInModules acc.1.modules y.1 (fillNotifEntry e' y.2).1) x.1 = some e
      have hcond : ((fillNotifEntry e' y.2).1.name == some x.1) = false := by
        rw [fillNotif_name, find_notif_name _ _ _ hf, beq_eq_false_iff_ne]
        exact fun hc => hne (Option.some.inj hc).symm
      rw [find_notif_replace_ne _ _ _ _ hne hcond]
      exact hfind

theorem syncNotifsStep_zero (m : Manifest) (c : Nat) (x : String × SpecNotifInfo)
    (h : notifOK m.modules x) : syncNotifsStep false (m, c) x = (m, c) := by
  obtain ⟨e, hfind, hsat⟩ := h
  unfold syncNotifsStep
  have h1 : find_notification_in_manifest (m, c).1.modules x.1 = some e := hfind
  rw [h1]
  simp only [fillNotif_of_sat e x.2 hsat]
  rw [replaceNotifInModules_self _ _ _ hfind]
  rfl

theorem syncNotifsStep_keeps_methodOK (acc : Manifest × Nat) (y : String × SpecNotifInfo)
    (x : String × SpecMethodInfo) (h : methodOK acc.1.modules x) :
    methodOK (syncNotifsStep false acc y).1.modules x := by
  obtain ⟨e, hfind, hsat⟩ := h
  unfold syncNotifsStep
  cases hf : find_notification_in_manifest acc.1.modules y.1 with
  | none =>
      refine ⟨e, ?_, hsat⟩
      show find_method_in_manifest
        (addNotifToModules acc.1.modules (get_module_id_from_notification y.1)
          (newSyncNotif y.1 y.2)) x.1 = some e
      rw [find_method_addNotif]
      exact hfind
  | some e' =>
      refine ⟨e, ?_, hsat⟩
      show find_method_in_manifest
        (replaceNotifInModules acc.1.modules y.1 (fillNotifEntry e' y.2).1) x.1 = some e
      rw [find_method_replaceNotif]
      exact hfind

theorem syncMethodsStep_keeps_notifOK (acc : Manifest × Nat) (y : String × SpecMethodInfo)
    (x : String × SpecNotifInfo) (h : notifOK acc.1.modules x) :
    notifOK (syncMethodsStep false acc y).1.modules x := by
  obtain ⟨e, hfind, hsat⟩ := h
  unfold syncMethodsStep
  cases hf : find_method_in_manifest acc.1.modules y.1 with
  | none =>
      refine ⟨e, ?_, hsat⟩
      show find_notification_in_manifest
        (addMethodToModules acc.1.modules (get_module_id_from_method y.1)
          (newSyncMethod y.1 y.2)) x.1 = some e
      rw [find_notif_addMethod]
      exact hfind
  | some e' =>
      refine ⟨e, ?_, hsat⟩
      show find_notification_in_manifest
        (replaceMethodInModules acc.1.modules y.1 (fillMethodEntry e' y.2).1) x.1 = some e
      rw [find_notif_replaceMethod]
      exact hfind

theorem sync_types_frames (m : Manifest) (sT : List String)
    (swT : List (String × SwiftTypeInfo)) (s2s : List (String × String)) (d : Bool) :
    (sync_types m sT swT s2s d).1.modules = m.modules ∧
    (sync_types m sT swT s2s d).1.enums = m.enums ∧
    (sync_types m sT swT s2s d).1.error_codes = m.error_codes ∧
    (sync_types m sT swT s2s d).1.capabilities_client = m.capabilities_client ∧
    (sync_types m sT swT s2s d).1.capabilities_server = m.capabilities_server ∧
    (sync_types m sT swT s2s d).1.deprecated = m.deprecated := by
  unfold sync_types
  refine foldlInvariant _
    (fun (a : Manifest × Nat) => a.1.modules = m.modules ∧ a.1.enums = m.enums ∧
      a.1.error_codes = m.error_codes ∧ a.1.capabilities_client = m.capabilities_client ∧
      a.1.capabilities_server = m.capabilities_server ∧ a.1.deprecated = m.deprecated)
    _ _ ⟨rfl, rfl, rfl, rfl, rfl, rfl⟩ ?_
  intro a x hP
  obtain ⟨h1, h2, h3, h4, h5, h6⟩ := hP
  unfold syncTypesStep
  split
  · exact ⟨h1, h2, h3, h4, h5, h6⟩
  · split
    · exact ⟨h1, h2, h3, h4, h5, h6⟩
    · exact ⟨h1, h2, h3, h4, h5, h6⟩

theorem sync_methods_frames (m : Manifest) (l : List (String × SpecMethodInfo)) (d : Bool) :
    (sync_methods m l d).1.types = m.types ∧
    (sync_methods m l d).1.enums = m.enums ∧
    (sync_methods m l d).1.error_codes = m.error_codes ∧
    (sync_methods m l d).1.capabilities_client = m.capabilities_client ∧
    (sync_methods m l d).1.capabilities_server = m.capabilities_server ∧
    (sync_methods m l d).1.deprecated = m.deprecated := by
  unfold sync_methods
  refine foldlInvariant _
    (fun (a : Manifest × Nat) => a.1.types = m.types ∧ a.1.enums = m.enums ∧
      a.1.error_codes = m.error_codes ∧ a.1.capabilities_client = m.capabilities_client ∧
      a.1.capabilities_server = m.capabilities_server ∧ a.1.deprecated = m.deprecated)
    _ _ ⟨rfl, rfl, rfl, rfl, rfl, rfl⟩ ?_
  intro a x hP
  obtain ⟨h1, h2, h3, h4, h5, h6⟩ := hP
  unfold syncMethodsStep
  split
  · split
    · exact ⟨h1, h2, h3, h4, h5, h6⟩
    · exact ⟨h1, h2, h3, h4, h5, h6⟩
  · split
    · exact ⟨h1, h2, h3, h4, h5, h6⟩
    · exact ⟨h1, h2, h3, h4, h5, h6⟩

theorem sync_notifications_frames (m : Manifest) (l : List (String × SpecNotifInfo))
    (d : Bool) :
    (sync_notifications m l d).1.types = m.types ∧
    (sync_notifications m l d).1.enums = m.enums ∧
    (sync_notifications m l d).1.error_codes = m.error_codes ∧
    (sync_notifications m l d).1.capabilities_client = m.capabilities_client ∧
    (sync_notifications m l d).1.capabilities_server = m.capabilities_server ∧
    (sync_notifications m l d).1.deprecated = m.deprecated := by
  unfold sync_notifications
  refine foldlInvariant _
    (fun (a : Manifest × Nat) => a.1.types = m.types ∧ a.1.enums = m.enums ∧
      a.1.error_codes = m.error_codes ∧ a.1.capabilities_client = m.capabilities_client ∧
      a.1.capabilities_server = m.capabilities_server ∧ a.1.deprecated = m.deprecated)
    _ _ ⟨rfl, rfl, rfl, rfl, rfl, rfl⟩ ?_
  intro a x hP
  obtain ⟨h1, h2, h3, h4, h5, h6⟩ := hP
  unfold syncNotifsStep
  split
  · split
    · exact ⟨h1, h2, h3, h4, h5, h6⟩
    · exact ⟨h1, h2, h3, h4, h5, h6⟩
  · split
    · exact ⟨h1, h2, h3, h4, h5, h6⟩
    · exact ⟨h1, h2, h3, h4, h5, h6⟩

theorem sync_enums_frames (m : Manifest) (l : List (String × List String)) (d : Bool) :
    (sync_enums m l d).1.types = m.types ∧
    (sync_enums m l d).1.modules = m.modules ∧
    (sync_enums m l d).1.error_codes = m.error_codes ∧
    (sync_enums m l d).1.capabilities_client = m.capabilities_client ∧
    (sync_enums m l d).1.capabilities_server = m.capabilities_server ∧
    (sync_enums m l d).1.deprecated = m.deprecated := by
  unfold sync_enums
  refine foldlInvariant _
    (fun (a : Manifest × Nat) => a.1.types = m.types ∧ a.1.modules = m.modules ∧
      a.1.error_codes = m.error_codes ∧ a.1.capabilities_client = m.capabilities_client ∧
      a.1.capabilities_server = m.capabilities_server ∧ a.1.deprecated = m.deprecated)
    _ _ ⟨rfl, rfl, rfl, rfl, rfl, rfl⟩ ?_
  intro a x hP
  obtain ⟨h1, h2, h3, h4, h5, h6⟩ := hP
  unfold syncEnumsStep
  split
  · split
    · exact ⟨h1, h2, h3, h4, h5, h6⟩
    · split
      · exact ⟨h1, h2, h3, h4, h5, h6⟩
      · exact ⟨h1, h2, h3, h4, h5, h6⟩
  · split
    · exact ⟨h1, h2, h3, h4, h5, h6⟩
    · exact ⟨h1, h2, h3, h4, h5, h6⟩

theorem sync_error_codes_frames (m : Manifest) (l : List (String × Int)) (d : Bool) :
    (sync_error_codes m l d).1.types = m.types ∧
    (sync_error_codes m l d).1.modules = m.modules ∧
    (sync_error_codes m l d).1.enums = m.enums ∧
    (sync_error_codes m l d).1.capabilities_client = m.capabilities_client ∧
    (sync_error_codes m l d).1.capabilities_server = m.capabilities_server ∧
    (sync_error_codes m l d).1.deprecated = m.deprecated := by
  unfold sync_error_codes
  refine foldlInvariant _
    (fun (a : Manifest × Nat) => a.1.types = m.types ∧ a.1.modules = m.modules ∧
      a.1.enums = m.enums ∧ a.1.capabilities_client = m.capabilities_client ∧
      a.1.capabilities_server = m.capabilities_server ∧ a.1.deprecated = m.deprecated)
    _ _ ⟨rfl, rfl, rfl, rfl, rfl, rfl⟩ ?_
  intro a x hP
  obtain ⟨h1, h2, h3, h4, h5, h6⟩ := hP
  unfold syncCodesStep
  repeat' split
  all_goals exact ⟨h1, h2, h3, h4, h5, h6⟩

theorem sync_capabilities_frames (m : Manifest) (cc sc : List (String × List String))
    (d : Bool) :
    (sync_capabilities m cc sc d).1.types = m.types ∧
    (sync_capabilities m cc sc d).1.modules = m.modules ∧
    (sync_capabilities m cc sc d).1.enums = m.enums ∧
    (sync_capabilities m cc sc d).1.error_codes = m.error_codes ∧
    (sync_capabilities m cc sc d).1.deprecated = m.deprecated :=
  ⟨rfl, rfl, rfl, rfl, rfl⟩

theorem sync_deprecated_frames (m : Manifest) (l : List (String × String)) (d : Bool) :
    (sync_deprecated m l d).1.types = m.types ∧
    (sync_deprecated m l d).1.modules = m.modules ∧
    (sync_deprecated m l d).1.enums = m.enums ∧
    (sync_deprecated m l d).1.error_codes = m.error_codes ∧
    (sync_deprecated m l d).1.capabilities_client = m.capabilities_client ∧
    (sync_deprecated m l d).1.capabilities_server = m.capabilities_server := by
  unfold sync_deprecated
  refine foldlInvariant _
    (fun (a : Manifest × Nat) => a.1.types = m.types ∧ a.1.modules = m.modules ∧
      a.1.enums = m.enums ∧ a.1.error_codes = m.error_codes ∧
      a.1.capabilities_client = m.capabilities_client ∧
      a.1.capabilities_server = m.capabilities_server)
    _ _ ⟨rfl, rfl, rfl, rfl, rfl, rfl⟩ ?_
  intro a x hP
  obtain ⟨h1, h2, h3, h4, h5, h6⟩ := hP
  unfold syncDeprecatedStep
  repeat' split
  all_goals exact ⟨h1, h2, h3, h4, h5, h6⟩

/-- Every spec case of the enum is already present among the entry's
case spec-names, so the `sync_enums` update pass adds nothing. -/
def enumSat (e : EnumEntry) (cs : List String) : Bool :=
  cs.all (fun sc => (e.cases.map caseSpecName).contains sc)

/-- A manifest enum entry for the name exists (the one the dictionary
comprehension aliases) and already lists every spec case. -/
def enumOK (l : List EnumEntry) (x : String × List String) : Prop :=
  ∃ e, lastEnumNamed l x.1 = some e ∧ enumSat e x.2 = true

theorem lastEnumNamed_mem (l : List EnumEntry) (n : String) (e : EnumEntry)
    (h : lastEnumNamed l n = some e) : e ∈ l ∧ e.name = n := by
  unfold lastEnumNamed at h
  refine ⟨List.mem_reverse.mp (List.mem_of_find?_eq_some h), ?_⟩
  have := List.find?_some h
  simpa [beq_iff_eq] using this

theorem lastEnumNamed_isSome_of_mem (l : List EnumEntry) (n : String)
    (h : n ∈ l.map (fun e => e.name)) : (lastEnumNamed l n).isSome := by
  obtain ⟨e, he, hname⟩ := List.mem_map.mp h
  cases hf : l.reverse.find? (fun x => x.name == n) with
  | some e2 => simp [lastEnumNamed, hf]
  | none =>
      exfalso
      have := List.find?_eq_none.mp hf e (List.mem_reverse.mpr he)
      rw [hname] at this
      exact this (beq_self_eq_true n)

theorem lastEnumNamed_append_match (l : List EnumEntry) (n : String) (e : EnumEntry)
    (h : (e.name == n) = true) : lastEnumNamed (l ++ [e]) n = some e := by
  unfold lastEnumNamed
  rw [List.reverse_append, List.reverse_singleton, List.singleton_append]
  simp only [List.find?, h]

theorem lastEnumNamed_append_miss (l : List EnumEntry) (n : String) (e : EnumEntry)
    (h : (e.name == n) = false) : lastEnumNamed (l ++ [e]) n = lastEnumNamed l n := by
  unfold lastEnumNamed
  rw [List.reverse_append, List.reverse_singleton, List.singleton_append]
  simp only [List.find?, h]

theorem updateLastEnum_self :
    ∀ (l : List EnumEntry) (n : String) (e : EnumEntry),
      lastEnumNamed l n = some e → updateLastEnum l n e = l := by
  intro l
  induction l with
  | nil => intro n e h; simp [lastEnumNamed] at h
  | cons c rest ih =>
      intro n e h
      unfold lastEnumNamed at h
      rw [List.reverse_cons, List.find?_append] at h
      rw [updateLastEnum]
      cases hany : rest.any (fun x => x.name == n) with
      | true =>
          rw [if_pos rfl]
          have hrevany : rest.reverse.any (fun x => x.name == n) = true := by
            simpa using hany
          have hsome : (rest.reverse.find? (fun x => x.name == n)).isSome := by
            obtain ⟨e', he', hp⟩ := List.any_eq_true.mp hrevany
            cases hf : rest.reverse.find? (fun x => x.name == n) with
            | some e2 => rfl
            | none => exact absurd hp (List.find?_eq_none.mp hf e' he')
          obtain ⟨e', hfe⟩ := Option.isSome_iff_exists.mp hsome
          rw [hfe] at h
          have h' : e' = e := Option.some.inj h
          subst h'
          rw [ih n e' (by unfold lastEnumNamed; exact hfe)]
      | false =>
          simp only [Bool.false_eq_true, if_false]
          have hnone : rest.reverse.find? (fun x => x.name == n) = none := by
            rw [List.find?_eq_none]
            intro x hx hp
            exact (List.any_eq_false.mp hany x (List.mem_reverse.mp hx)) hp
          rw [hnone, Option.none_or] at h
          cases hc : (c.name == n) with
          | true =>
              simp only [List.find?, hc] at h
              cases h
              rw [if_pos rfl]
          | false =>
              simp only [List.find?, hc] at h
              exact Option.noConfusion h

theorem updateLastEnum_match :
    ∀ (l : List EnumEntry) (n : String) (e e2 : EnumEntry),
      lastEnumNamed l n = some e → (e2.name == n) = true →
      lastEnumNamed (updateLastEnum l n e2) n = some e2 := by
  intro l
  induction l with
  | nil => intro n e e2 h _; simp [lastEnumNamed] at h
  | cons c rest ih =>
      intro n e e2 h he2
      unfold lastEnumNamed at h
      rw [List.reverse_cons, List.find?_append] at h
      rw [updateLastEnum]
      cases hany : rest.any (fun x => x.name == n) with
      | true =>
          rw [if_pos rfl]
          have hrevany : rest.reverse.any (fun x => x.name == n) = true := by
            simpa using hany
          have hsome : (rest.reverse.find? (fun x => x.name == n)).isSome := by
            obtain ⟨e', he', hp⟩ := List.any_eq_true.mp hrevany
            cases hf : rest.reverse.find? (fun x => x.name == n) with
            | some e3 => rfl
            | none => exact absurd hp (List.find?_eq_none.mp hf e' he')
          obtain ⟨e', hfe⟩ := Option.isSome_iff_exists.mp hsome
          have hrest : lastEnumNamed (updateLastEnum rest n e2) n = some e2 :=
            ih n e' e2 (by unfold lastEnumNamed; exact hfe) he2
          unfold lastEnumNamed at hrest
          unfold lastEnumNamed
          rw [List.reverse_cons, List.find?_append, hrest]
          rfl
      | false =>
          simp only [Bool.false_eq_true, if_false]
          have hnone : rest.reverse.find? (fun x => x.name == n) = none := by
            rw [List.find?_eq_none]
            intro x hx hp
            exact (List.any_eq_false.mp hany x (List.mem_reverse.mp hx)) hp
          rw [hnone, Option.none_or] at h
          cases hc : (c.name == n) with
          | true =>
              rw [if_pos rfl]
              unfold lastEnumNamed
              rw [List.reverse_cons, List.find?_append, hnone, Option.none_or]
              simp only [List.find?, he2]
          | false =>
              simp only [List.find?, hc] at h
              exact Option.noConfusion h

theorem updateLastEnum_ne :
    ∀ (l : List EnumEntry) (n n' : String) (e2 : EnumEntry),
      n' ≠ n → (e2.name == n') = false →
      lastEnumNamed (updateLastEnum l n e2) n' = lastEnumNamed l n' := by
  intro l
  induction l with
  | nil => intro n n' e2 _ _; rfl
  | cons c rest ih =>
      intro n n' e2 hne he2
      rw [updateLastEnum]
      cases hany : rest.any (fun x => x.name == n) with
      | true =>
          rw [if_pos rfl]
          unfold lastEnumNamed
          rw [List.reverse_cons, List.find?_append, List.reverse_cons, List.find?_append]
          have := ih n n' e2 hne he2
          unfold lastEnumNamed at this
          rw [this]
      | false =>
          simp only [Bool.false_eq_true, if_false]
          cases hc : (c.name == n) with
          | true =>
              rw [if_pos rfl]
              unfold lastEnumNamed
              rw [List.reverse_cons, List.find?_append, List.reverse_cons, List.find?_append]
              have hcn : c.name = n := by simpa [beq_iff_eq] using hc
              have hcn' : (c.name == n') = false := by
                rw [hcn, beq_eq_false_iff_ne]
                exact fun hcon => hne hcon.symm
              simp only [List.find?, hcn', he2]
          | false =>
              simp only [Bool.false_eq_true, if_false]

theorem updateLastEnum_names :
    ∀ (l : List EnumEntry) (n : String) (e2 : EnumEntry),
      (e2.name == n) = true →
      (updateLastEnum l n e2).map (fun e => e.name) = l.map (fun e => e.name) := by
  intro l
  induction l with
  | nil => intro n e2 _; rfl
  | cons c rest ih =>
      intro n e2 he2
      rw [updateLastEnum]
      cases hany : rest.any (fun x => x.name == n) with
      | true =>
          rw [if_pos rfl, List.map_cons, List.map_cons, ih n e2 he2]
      | false =>
          simp only [Bool.false_eq_true, if_false]
          cases hc : (c.name == n) with
          | true =>
              rw [if_pos rfl, List.map_cons, List.map_cons]
              have : e2.name = c.name := by
                have h1 : e2.name = n := by simpa [beq_iff_eq] using he2
                have h2 : c.name = n := by simpa [beq_iff_eq] using hc
                rw [h1, h2]
              rw [this]
          | false =>
              simp only [Bool.false_eq_true, if_false]

/-- The updated entry the `sync_enums` loop writes back for an existing
enum: the old cases plus one new case per missing spec case. -/
def enumUpdated (e : EnumEntry) (cs : List String) : EnumEntry :=
  { e with
    cases := e.cases ++
      (cs.filter (fun sc => !((e.cases.map caseSpecName).contains sc))).map
        (fun sc => { spec := some sc, swift := some sc, name := none }) }

/-- The fresh entry the `sync_enums` loop appends for an unknown enum. -/
def enumNew (n : String) (cs : List String) : EnumEntry :=
  { name := n, swift := YField.val n, file := some "",
    cases := cs.map (fun c => { spec := some c, swift := some c, name := none }),
    verification := some { status := some "pending", notes := some "" } }

theorem enumNew_cases_names (n : String) (cs : List String) :
    (enumNew n cs).cases.map caseSpecName = cs := by
  unfold enumNew
  show (cs.map _).map caseSpecName = cs
  rw [List.map_map]
  have hfun : (caseSpecName ∘ fun c =>
      ({ spec := some c, swift := some c, name := none } : CaseEntry)) = fun c => c := rfl
  rw [hfun, List.map_id']

theorem enumNew_sat (n : String) (cs : List String) :
    enumSat (enumNew n cs) cs = true := by
  unfold enumSat
  rw [List.all_eq_true]
  intro sc hsc
  show ((enumNew n cs).cases.map caseSpecName).contains sc = true
  rw [enumNew_cases_names]
  simpa [List.contains, List.elem_eq_mem] using hsc

theorem enumUpdated_sat (e : EnumEntry) (cs : List String) :
    enumSat (enumUpdated e cs) cs = true := by
  unfold enumSat
  rw [List.all_eq_true]
  intro sc hsc
  show ((enumUpdated e cs).cases.map caseSpecName).contains sc = true
  have hcases : (enumUpdated e cs).cases.map caseSpecName
      = e.cases.map caseSpecName ++
        (cs.filter (fun s => !((e.cases.map caseSpecName).contains s))).map
          (fun s => s) := by
    unfold enumUpdated
    show (e.cases ++ _).map caseSpecName = _
    rw [List.map_append, List.map_map]
    rfl
  rw [hcases, List.map_id']
  by_cases hin : sc ∈ e.cases.map caseSpecName
  · have h2 : sc ∈ e.cases.map caseSpecName ++
        cs.filter (fun s => !((e.cases.map caseSpecName).contains s)) :=
      List.mem_append.mpr (Or.inl hin)
    simpa [List.contains, List.elem_eq_mem] using h2
  · have hmem : sc ∈ cs.filter (fun s => !((e.cases.map caseSpecName).contains s)) := by
      rw [List.mem_filter]
      refine ⟨hsc, ?_⟩
      simp [List.contains, List.elem_eq_mem, hin]
    have h2 : sc ∈ e.cases.map caseSpecName ++
        cs.filter (fun s => !((e.cases.map caseSpecName).contains s)) :=
      List.mem_append.mpr (Or.inr hmem)
    simpa [List.contains, List.elem_eq_mem] using h2

theorem enumUpdated_of_sat (e : EnumEntry) (cs : List String)
    (h : enumSat e cs = true) : enumUpdated e cs = e := by
  have hf : cs.filter (fun sc => !((e.cases.map caseSpecName).contains sc)) = [] := by
    rw [List.filter_eq_nil_iff]
    intro sc hsc
    have hcont := List.all_eq_true.mp h sc hsc
    simp only at hcont
    intro hbad
    rw [hcont] at hbad
    exact absurd hbad (by decide)
  unfold enumUpdated
  rw [hf]
  cases e
  simp

theorem syncEnumsStep_est (names0 : List String) (acc : Manifest × Nat)
    (x : String × List String)
    (hinv : ∀ nm, names0.contains nm = true → nm ∈ acc.1.enums.map (fun e => e.name)) :
    enumOK (syncEnumsStep names0 false acc x).1.enums x := by
  unfold syncEnumsStep
  cases hc : names0.contains x.1 with
  | true =>
      rw [if_pos rfl]
      have hmem := hinv x.1 hc
      have hsome := lastEnumNamed_isSome_of_mem acc.1.enums x.1 hmem
      obtain ⟨e, he⟩ := Option.isSome_iff_exists.mp hsome
      rw [he]
      have hname : e.name = x.1 := (lastEnumNamed_mem _ _ _ he).2
      have hres : enumOK (updateLastEnum acc.1.enums x.1 (enumUpdated e x.2)) x := by
        refine ⟨enumUpdated e x.2, ?_, enumUpdated_sat e x.2⟩
        refine updateLastEnum_match _ _ _ _ he ?_
        show (e.name == x.1) = true
        rw [hname]
        exact beq_self_eq_true _
      exact hres
  | false =>
      simp only [Bool.false_eq_true, if_false]
      have hres : enumOK (acc.1.enums ++ [enumNew x.1 x.2]) x := by
        refine ⟨enumNew x.1 x.2, lastEnumNamed_append_match _ _ _ ?_, enumNew_sat x.1 x.2⟩
        show (x.1 == x.1) = true
        exact beq_self_eq_true _
      exact hres

theorem syncEnumsStep_mono (names0 : List String) (acc : Manifest × Nat)
    (x y : String × List String) (hne : x.1 ≠ y.1) (h : enumOK acc.1.enums x) :
    enumOK (syncEnumsStep names0 false acc y).1.enums x := by
  obtain ⟨e, he, hsat⟩ := h
  unfold syncEnumsStep
  cases hc : names0.contains y.1 with
  | true =>
      rw [if_pos rfl]
      cases hl : lastEnumNamed acc.1.enums y.1 with
      | none => exact ⟨e, he, hsat⟩
      | some e' =>
          have hname' : e'.name = y.1 := (lastEnumNamed_mem _ _ _ hl).2
          have hbeq : ((enumUpdated e' y.2).name == x.1) = false := by
            show (e'.name == x.1) = false
            rw [hname', beq_eq_false_iff_ne]
            exact fun hcon => hne hcon.symm
          have hres : enumOK (updateLastEnum acc.1.enums y.1 (enumUpdated e' y.2)) x := by
            refine ⟨e, ?_, hsat⟩
            rw [updateLastEnum_ne _ _ _ _ hne hbeq]
            exact he
          exact hres
  | false =>
      simp only [Bool.false_eq_true, if_false]
      have hres : enumOK (acc.1.enums ++ [enumNew y.1 y.2]) x := by
        refine ⟨e, ?_, hsat⟩
        have hbeq : ((enumNew y.1 y.2).name == x.1) = false := by
          show (y.1 == x.1) = false
          rw [beq_eq_false_iff_ne]
          exact fun hcon => hne hcon.symm
        rw [lastEnumNamed_append_miss _ _ _ hbeq]
        exact he
      exact hres

theorem syncEnumsStep_names (names0 : List String) (acc : Manifest × Nat)
    (y : String × List String) (nm : String)
    (h : nm ∈ acc.1.enums.map (fun e => e.name)) :
    nm ∈ (syncEnumsStep names0 false acc y).1.enums.map (fun e => e.name) := by
  unfold syncEnumsStep
  cases hc : names0.contains y.1 with
  | true =>
      rw [if_pos rfl]
      cases hl : lastEnumNamed acc.1.enums y.1 with
      | none => exact h
      | some e' =>
          have hname' : e'.name = y.1 := (lastEnumNamed_mem _ _ _ hl).2
          have hres : nm ∈ (updateLastEnum acc.1.enums y.1
              (enumUpdated e' y.2)).map (fun e => e.name) := by
            have hbeq : ((enumUpdated e' y.2).name == y.1) = true := by
              show (e'.name == y.1) = true
              rw [hname']
              exact beq_self_eq_true _
            rw [updateLastEnum_names _ _ _ hbeq]
            exact h
          exact hres
  | false =>
      simp only [Bool.false_eq_true, if_false]
      have hres : nm ∈ (acc.1.enums ++ [enumNew y.1 y.2]).map (fun e => e.name) := by
        rw [List.map_append]
        exact List.mem_append.mpr (Or.inl h)
      exact hres

theorem syncEnumsStep_zero (names0 : List String) (m : Manifest) (c : Nat)
    (x : String × List String)
    (hnames : names0 = m.enums.map (fun e => e.name))
    (h : enumOK m.enums x) :
    syncEnumsStep names0 false (m, c) x = (m, c) := by
  obtain ⟨e, he, hsat⟩ := h
  obtain ⟨hmem, hname⟩ := lastEnumNamed_mem _ _ _ he
  have hcont : names0.contains x.1 = true := by
    subst hnames
    have hx : x.1 ∈ m.enums.map (fun e => e.name) := List.mem_map.mpr ⟨e, hmem, hname⟩
    simpa [List.contains, List.elem_eq_mem] using hx
  unfold syncEnumsStep
  rw [if_pos hcont]
  have h1 : lastEnumNamed (m, c).1.enums x.1 = some e := he
  rw [h1]
  have hupd : updateLastEnum m.enums x.1 (enumUpdated e x.2) = m.enums := by
    rw [enumUpdated_of_sat e x.2 hsat]
    exact updateLastEnum_self _ _ _ he
  have hmiss : x.2.filter (fun sc => !((e.cases.map caseSpecName).contains sc)) = [] := by
    rw [List.filter_eq_nil_iff]
    intro sc hsc
    have hcont2 := List.all_eq_true.mp hsat sc hsc
    simp only at hcont2
    intro hbad
    rw [hcont2] at hbad
    exact absurd hbad (by decide)
  show ({ m with enums := updateLastEnum m.enums x.1 (enumUpdated e x.2) },
    c + (x.2.filter (fun sc => !((e.cases.map caseSpecName).contains sc))).length) = (m, c)
  rw [hmiss, hupd]
  rfl

theorem enumsFold_ok (names0 : List String) :
    ∀ (l : List (String × List String)) (acc : Manifest × Nat),
      (l.map Prod.fst).Nodup →
      (∀ nm, names0.contains nm = true → nm ∈ acc.1.enums.map (fun e => e.name)) →
      ∀ x ∈ l, enumOK ((l.foldl (syncEnumsStep names0 false) acc)).1.enums x := by
  intro l
  induction l with
  | nil => intro acc _ _ x hx; simp at hx
  | cons y ys ih =>
      intro acc hnd hinv x hx
      rw [List.foldl_cons]
      rcases List.mem_cons.mp hx with rfl | hys
      · refine foldlMonoKeys (syncEnumsStep names0 false)
          (fun acc z => enumOK acc.1.enums z)
          (fun s a b hab hs => syncEnumsStep_mono names0 s a b hab hs) ys _ x ?_
          (syncEnumsStep_est names0 acc x hinv)
        intro z hz hzx
        rw [List.map_cons] at hnd
        have hzmem : z.1 ∈ ys.map Prod.fst := List.mem_map.mpr ⟨z, hz, rfl⟩
        exact (List.nodup_cons.mp hnd).1 (hzx ▸ hzmem)
      · refine ih (syncEnumsStep names0 false acc y) ?_ ?_ x hys
        · rw [List.map_cons] at hnd
          exact (List.nodup_cons.mp hnd).2
        · intro nm hnm
          exact syncEnumsStep_names names0 acc y nm (hinv nm hnm)

/-- Every spec nested capability is already present among the entry's nested
names, so the `sync_cap_list` update pass adds nothing. -/
def capSat (ce : CapEntry) (ns : List String) : Bool :=
  ns.all (fun nn => (ce.nested.map nestedCapName).contains nn)

/-- A capability entry for the property exists (the one the dictionary
comprehension aliases) and already lists every spec nested capability. -/
def capOK (l : List CapEntry) (x : String × List String) : Prop :=
  ∃ ce, lastCapNamed l x.1 = some ce ∧ capSat ce x.2 = true

/-- The updated entry the `sync_cap_list` loop writes back for an existing
capability. -/
def capUpdated (ce : CapEntry) (ns : List String) : CapEntry :=
  { ce with
    nested := ce.nested ++
      (ns.filter (fun nn => !((ce.nested.map nestedCapName).contains nn))).map
        (fun nn => { name := some nn, swift := some nn }) }

/-- The fresh entry the `sync_cap_list` loop appends for an unknown
capability property. -/
def capNew (p : String) (ns : List String) : CapEntry :=
  { property := p, swift := YField.val p,
    nested := (pySortStr ns).map (fun nn => { name := some nn, swift := some nn }),
    verification := some { status := some "pending", notes := some "" } }

theorem lastCapNamed_mem (l : List CapEntry) (p : String) (ce : CapEntry)
    (h : lastCapNamed l p = some ce) : ce ∈ l ∧ ce.property = p := by
  unfold lastCapNamed at h
  refine ⟨List.mem_reverse.mp (List.mem_of_find?_eq_some h), ?_⟩
  have := List.find?_some h
  simpa [beq_iff_eq] using this

theorem lastCapNamed_isSome_of_mem (l : List CapEntry) (p : String)
    (h : p ∈ l.map (fun c => c.property)) : (lastCapNamed l p).isSome := by
  obtain ⟨ce, he, hname⟩ := List.mem_map.mp h
  cases hf : l.reverse.find? (fun c => c.property == p) with
  | some c2 => simp [lastCapNamed, hf]
  | none =>
      exfalso
      have := List.find?_eq_none.mp hf ce (List.mem_reverse.mpr he)
      rw [hname] at this
      exact this (beq_self_eq_true p)

theorem lastCapNamed_append_match (l : List CapEntry) (p : String) (ce : CapEntry)
    (h : (ce.property == p) = true) : lastCapNamed (l ++ [ce]) p = some ce := by
  unfold lastCapNamed
  rw [List.reverse_append, List.reverse_singleton, List.singleton_append]
  simp only [List.find?, h]

theorem lastCapNamed_append_miss (l : List CapEntry) (p : String) (ce : CapEntry)
    (h : (ce.property == p) = false) : lastCapNamed (l ++ [ce]) p = lastCapNamed l p := by
  unfold lastCapNamed
  rw [List.reverse_append, List.reverse_singleton, List.singleton_append]
  simp only [List.find?, h]

theorem updateLastCap_self :
    ∀ (l : List CapEntry) (p : String) (ce : CapEntry),
      lastCapNamed l p = some ce → updateLastCap l p ce = l := by
  intro l
  induction l with
  | nil => intro p ce h; simp [lastCapNamed] at h
  | cons c rest ih =>
      intro p ce h
      unfold lastCapNamed at h
      rw [List.reverse_cons, List.find?_append] at h
      rw [updateLastCap]
      cases hany : rest.any (fun x => x.property == p) with
      | true =>
          rw [if_pos rfl]
          have hrevany : rest.reverse.any (fun x => x.property == p) = true := by
            simpa using hany
          have hsome : (rest.reverse.find? (fun x => x.property == p)).isSome := by
            obtain ⟨e', he', hp⟩ := List.any_eq_true.mp hrevany
            cases hf : rest.reverse.find? (fun x => x.property == p) with
            | some e2 => rfl
            | none => exact absurd hp (List.find?_eq_none.mp hf e' he')
          obtain ⟨e', hfe⟩ := Option.isSome_iff_exists.mp hsome
          rw [hfe] at h
          have h' : e' = ce := Option.some.inj h
          subst h'
          rw [ih p e' (by unfold lastCapNamed; exact hfe)]
      | false =>
          simp only [Bool.false_eq_true, if_false]
          have hnone : rest.reverse.find? (fun x => x.property == p) = none := by
            rw [List.find?_eq_none]
            intro x hx hp
            exact (List.any_eq_false.mp hany x (List.mem_reverse.mp hx)) hp
          rw [hnone, Option.none_or] at h
          cases hc : (c.property == p) with
          | true =>
              simp only [List.find?, hc] at h
              cases h
              rw [if_pos rfl]
          | false =>
              simp only [List.find?, hc] at h
              exact Option.noConfusion h

theorem updateLastCap_match :
    ∀ (l : List CapEntry) (p : String) (ce ce2 : CapEntry),
      lastCapNamed l p = some ce → (ce2.property == p) = true →
      lastCapNamed (updateLastCap l p ce2) p = some ce2 := by
  intro l
  induction l with
  | nil => intro p ce ce2 h _; simp [lastCapNamed] at h
  | cons c rest ih =>
      intro p ce ce2 h he2
      unfold lastCapNamed at h
      rw [List.reverse_cons, List.find?_append] at h
      rw [updateLastCap]
      cases hany : rest.any (fun x => x.property == p) with
      | true =>
          rw [if_pos rfl]
          have hrevany : rest.reverse.any (fun x => x.property == p) = true := by
            simpa using hany
          have hsome : (rest.reverse.find? (fun x => x.property == p)).isSome := by
            obtain ⟨e', he', hp⟩ := List.any_eq_true.mp hrevany
            cases hf : rest.reverse.find? (fun x => x.property == p) with
            | some e3 => rfl
            | none => exact absurd hp (List.find?_eq_none.mp hf e' he')
          obtain ⟨e', hfe⟩ := Option.isSome_iff_exists.mp hsome
          have hrest : lastCapNamed (updateLastCap rest p ce2) p = some ce2 :=
            ih p e' ce2 (by unfold lastCapNamed; exact hfe) he2
          unfold lastCapNamed at hrest
          unfold lastCapNamed
          rw [List.reverse_cons, List.find?_append, hrest]
          rfl
      | false =>
          simp only [Bool.false_eq_true, if_false]
          have hnone : rest.reverse.find? (fun x => x.property == p) = none := by
            rw [List.find?_eq_none]
            intro x hx hp
            exact (List.any_eq_false.mp hany x (List.mem_reverse.mp hx)) hp
          rw [hnone, Option.none_or] at h
          cases hc : (c.property == p) with
          | true =>
              rw [if_pos rfl]
              unfold lastCapNamed
              rw [List.reverse_cons, List.find?_append, hnone, Option.none_or]
              simp only [List.find?, he2]
          | false =>
              simp only [List.find?, hc] at h
              exact Option.noConfusion h

theorem updateLastCap_ne :
    ∀ (l : List CapEntry) (p p' : String) (ce2 : CapEntry),
      p' ≠ p → (ce2.property == p') = false →
      lastCapNamed (updateLastCap l p ce2) p' = lastCapNamed l p' := by
  intro l
  induction l with
  | nil => intro p p' ce2 _ _; rfl
  | cons c rest ih =>
      intro p p' ce2 hne he2
      rw [updateLastCap]
      cases hany : rest.any (fun x => x.property == p) with
      | true =>
          rw [if_pos rfl]
          unfold lastCapNamed
          rw [List.reverse_cons, List.find?_append, List.reverse_cons, List.find?_append]
          have := ih p p' ce2 hne he2
          unfold lastCapNamed at this
          rw [this]
      | false =>
          simp only [Bool.false_eq_true, if_false]
          cases hc : (c.property == p) with
          | true =>
              rw [if_pos rfl]
              unfold lastCapNamed
              rw [List.reverse_cons, List.find?_append, List.reverse_cons, List.find?_append]
              have hcn : c.property = p := by simpa [beq_iff_eq] using hc
              have hcn' : (c.property == p') = false := by
                rw [hcn, beq_eq_false_iff_ne]
                exact fun hcon => hne hcon.symm
              simp only [List.find?, hcn', he2]
          | false =>
              simp only [Bool.false_eq_true, if_false]

theorem updateLastCap_names :
    ∀ (l : List CapEntry) (p : String) (ce2 : CapEntry),
      (ce2.property == p) = true →
      (updateLastCap l p ce2).map (fun c => c.property) = l.map (fun c => c.property) := by
  intro l
  induction l with
  | nil => intro p ce2 _; rfl
  | cons c rest ih =>
      intro p ce2 he2
      rw [updateLastCap]
      cases hany : rest.any (fun x => x.property == p) with
      | true =>
          rw [if_pos rfl, List.map_cons, List.map_cons, ih p ce2 he2]
      | false =>
          simp only [Bool.false_eq_true, if_false]
          cases hc : (c.property == p) with
          | true =>
              rw [if_pos rfl, List.map_cons, List.map_cons]
              have : ce2.property = c.property := by
                have h1 : ce2.property = p := by simpa [beq_iff_eq] using he2
                have h2 : c.property = p := by simpa [beq_iff_eq] using hc
                rw [h1, h2]
              rw [this]
          | false =>
              simp only [Bool.false_eq_true, if_false]

theorem capNew_nested_names (p : String) (ns : List String) :
    (capNew p ns).nested.map nestedCapName = pySortStr ns := by
  unfold capNew
  show ((pySortStr ns).map _).map nestedCapName = pySortStr ns
  rw [List.map_map]
  have hfun : (nestedCapName ∘ fun nn =>
      ({ name := some nn, swift := some nn } : NestedCapEntry)) = fun nn => nn := rfl
  rw [hfun, List.map_id']

theorem capNew_sat (p : String) (ns : List String) :
    capSat (capNew p ns) ns = true := by
  unfold capSat
  rw [List.all_eq_true]
  intro nn hnn
  show ((capNew p ns).nested.map nestedCapName).contains nn = true
  rw [capNew_nested_names]
  have : nn ∈ pySortStr ns := (mem_pySortBy pyStrLe ns nn).mpr hnn
  simpa [List.contains, List.elem_eq_mem] using this

theorem capUpdated_sat (ce : CapEntry) (ns : List String) :
    capSat (capUpdated ce ns) ns = true := by
  unfold capSat
  rw [List.all_eq_true]
  intro nn hnn
  show ((capUpdated ce ns).nested.map nestedCapName).contains nn = true
  have hcases : (capUpdated ce ns).nested.map nestedCapName
      = ce.nested.map nestedCapName ++
        (ns.filter (fun s => !((ce.nested.map nestedCapName).contains s))).map
          (fun s => s) := by
    unfold capUpdated
    show (ce.nested ++ _).map nestedCapName = _
    rw [List.map_append, List.map_map]
    rfl
  rw [hcases, List.map_id']
  by_cases hin : nn ∈ ce.nested.map nestedCapName
  · have h2 : nn ∈ ce.nested.map nestedCapName ++
        ns.filter (fun s => !((ce.nested.map nestedCapName).contains s)) :=
      List.mem_append.mpr (Or.inl hin)
    simpa [List.contains, List.elem_eq_mem] using h2
  · have hmem : nn ∈ ns.filter (fun s => !((ce.nested.map nestedCapName).contains s)) := by
      rw [List.mem_filter]
      refine ⟨hnn, ?_⟩
      simp [List.contains, List.elem_eq_mem, hin]
    have h2 : nn ∈ ce.nested.map nestedCapName ++
        ns.filter (fun s => !((ce.nested.map nestedCapName).contains s)) :=
      List.mem_append.mpr (Or.inr hmem)
    simpa [List.contains, List.elem_eq_mem] using h2

theorem capUpdated_of_sat (ce : CapEntry) (ns : List String)
    (h : capSat ce ns = true) : capUpdated ce ns = ce := by
  have hf : ns.filter (fun nn => !((ce.nested.map nestedCapName).contains nn)) = [] := by
    rw [List.filter_eq_nil_iff]
    intro nn hnn
    have hcont := List.all_eq_true.mp h nn hnn
    simp only at hcont
    intro hbad
    rw [hcont] at hbad
    exact absurd hbad (by decide)
  unfold capUpdated
  rw [hf]
  cases ce
  simp

theorem syncCapStep_est (props0 : List String) (acc : List CapEntry × Nat)
    (x : String × List String)
    (hinv : ∀ nm, props0.contains nm = true → nm ∈ acc.1.map (fun c => c.property)) :
    capOK (syncCapStep props0 false acc x).1 x := by
  unfold syncCapStep
  cases hc : props0.contains x.1 with
  | true =>
      rw [if_pos rfl]
      have hmem := hinv x.1 hc
      have hsome := lastCapNamed_isSome_of_mem acc.1 x.1 hmem
      obtain ⟨ce, he⟩ := Option.isSome_iff_exists.mp hsome
      rw [he]
      have hname : ce.property = x.1 := (lastCapNamed_mem _ _ _ he).2
      have hres : capOK (updateLastCap acc.1 x.1 (capUpdated ce x.2)) x := by
        refine ⟨capUpdated ce x.2, ?_, capUpdated_sat ce x.2⟩
        refine updateLastCap_match _ _ _ _ he ?_
        show (ce.property == x.1) = true
        rw [hname]
        exact beq_self_eq_true _
      exact hres
  | false =>
      simp only [Bool.false_eq_true, if_false]
      have hres : capOK (acc.1 ++ [capNew x.1 x.2]) x := by
        refine ⟨capNew x.1 x.2, lastCapNamed_append_match _ _ _ ?_, capNew_sat x.1 x.2⟩
        show (x.1 == x.1) = true
        exact beq_self_eq_true _
      exact hres

theorem syncCapStep_mono (props0 : List String) (acc : List CapEntry × Nat)
    (x y : String × List String) (hne : x.1 ≠ y.1) (h : capOK acc.1 x) :
    capOK (syncCapStep props0 false acc y).1 x := by
  obtain ⟨ce, he, hsat⟩ := h
  unfold syncCapStep
  cases hc : props0.contains y.1 with
  | true =>
      rw [if_pos rfl]
      cases hl : lastCapNamed acc.1 y.1 with
      | none => exact ⟨ce, he, hsat⟩
      | some ce' =>
          have hname' : ce'.property = y.1 := (lastCapNamed_mem _ _ _ hl).2
          have hbeq : ((capUpdated ce' y.2).property == x.1) = false := by
            show (ce'.property == x.1) = false
            rw [hname', beq_eq_false_iff_ne]
            exact fun hcon => hne hcon.symm
          have hres : capOK (updateLastCap acc.1 y.1 (capUpdated ce' y.2)) x := by
            refine ⟨ce, ?_, hsat⟩
            rw [updateLastCap_ne _ _ _ _ hne hbeq]
            exact he
          exact hres
  | false =>
      simp only [Bool.false_eq_true, if_false]
      have hres : capOK (acc.1 ++ [capNew y.1 y.2]) x := by
        refine ⟨ce, ?_, hsat⟩
        have hbeq : ((capNew y.1 y.2).property == x.1) = false := by
          show (y.1 == x.1) = false
          rw [beq_eq_false_iff_ne]
          exact fun hcon => hne hcon.symm
        rw [lastCapNamed_append_miss _ _ _ hbeq]
        exact he
      exact hres

theorem syncCapStep_names (props0 : List String) (acc : List CapEntry × Nat)
    (y : String × List String) (nm : String)
    (h : nm ∈ acc.1.map (fun c => c.property)) :
    nm ∈ (syncCapStep props0 false acc y).1.map (fun c => c.property) := by
  unfold syncCapStep
  cases hc : props0.contains y.1 with
  | true =>
      rw [if_pos rfl]
      cases hl : lastCapNamed acc.1 y.1 with
      | none => exact h
      | some ce' =>
          have hname' : ce'.property = y.1 := (lastCapNamed_mem _ _ _ hl).2
          have hres : nm ∈ (updateLastCap acc.1 y.1
              (capUpdated ce' y.2)).map (fun c => c.property) := by
            have hbeq : ((capUpdated ce' y.2).property == y.1) = true := by
              show (ce'.property == y.1) = true
              rw [hname']
              exact beq_self_eq_true _
            rw [updateLastCap_names _ _ _ hbeq]
            exact h
          exact hres
  | false =>
      simp only [Bool.false_eq_true, if_false]
      have hres : nm ∈ (acc.1 ++ [capNew y.1 y.2]).map (fun c => c.property) := by
        rw [List.map_append]
        exact List.mem_append.mpr (Or.inl h)
      exact hres

theorem syncCapStep_zero (props0 : List String) (capList : List CapEntry) (c : Nat)
    (x : String × List String)
    (hnames : props0 = capList.map (fun ce => ce.property))
    (h : capOK capList x) :
    syncCapStep props0 false (capList, c) x = (capList, c) := by
  obtain ⟨ce, he, hsat⟩ := h
  obtain ⟨hmem, hname⟩ := lastCapNamed_mem _ _ _ he
  have hcont : props0.contains x.1 = true := by
    subst hnames
    have hx : x.1 ∈ capList.map (fun ce => ce.property) := List.mem_map.mpr ⟨ce, hmem, hname⟩
    simpa [List.contains, List.elem_eq_mem] using hx
  unfold syncCapStep
  rw [if_pos hcont]
  have h1 : lastCapNamed (capList, c).1 x.1 = some ce := he
  rw [h1]
  have hupd : updateLastCap capList x.1 (capUpdated ce x.2) = capList := by
    rw [capUpdated_of_sat ce x.2 hsat]
    exact updateLastCap_self _ _ _ he
  have hmiss : x.2.filter (fun nn => !((ce.nested.map nestedCapName).contains nn)) = [] := by
    rw [List.filter_eq_nil_iff]
    intro nn hnn
    have hcont2 := List.all_eq_true.mp hsat nn hnn
    simp only at hcont2
    intro hbad
    rw [hcont2] at hbad
    exact absurd hbad (by decide)
  show (updateLastCap capList x.1 (capUpdated ce x.2),
    c + (x.2.filter (fun nn => !((ce.nested.map nestedCapName).contains nn))).length) =
      (capList, c)
  rw [hmiss, hupd]
  rfl

theorem capsFold_ok (props0 : List String) :
    ∀ (l : List (String × List String)) (acc : List CapEntry × Nat),
      (l.map Prod.fst).Nodup →
      (∀ nm, props0.contains nm = true → nm ∈ acc.1.map (fun c => c.property)) →
      ∀ x ∈ l, capOK ((l.foldl (syncCapStep props0 false) acc)).1 x := by
  intro l
  induction l with
  | nil => intro acc _ _ x hx; simp at hx
  | cons y ys ih =>
      intro acc hnd hinv x hx
      rw [List.foldl_cons]
      rcases List.mem_cons.mp hx with rfl | hys
      · refine foldlMonoKeys (syncCapStep props0 false)
          (fun acc z => capOK acc.1 z)
          (fun s a b hab hs => syncCapStep_mono props0 s a b hab hs) ys _ x ?_
          (syncCapStep_est props0 acc x hinv)
        intro z hz hzx
        rw [List.map_cons] at hnd
        have hzmem : z.1 ∈ ys.map Prod.fst := List.mem_map.mpr ⟨z, hz, rfl⟩
        exact (List.nodup_cons.mp hnd).1 (hzx ▸ hzmem)
      · refine ih (syncCapStep props0 false acc y) ?_ ?_ x hys
        · rw [List.map_cons] at hnd
          exact (List.nodup_cons.mp hnd).2
        · intro nm hnm
          exact syncCapStep_names props0 acc y nm (hinv nm hnm)

theorem memMapAppendLeft {α β : Type} (f : α → β) (l l2 : List α) (nm : β)
    (h : nm ∈ l.map f) : nm ∈ (l ++ l2).map f := by
  rw [List.map_append]
  exact List.mem_append.mpr (Or.inl h)

theorem memMapAppendSingleton {α β : Type} (f : α → β) (l : List α) (a : α) (nm : β)
    (h : f a = nm) : nm ∈ (l ++ [a]).map f := by
  rw [List.map_append]
  refine List.mem_append.mpr (Or.inr ?_)
  simp [h]

theorem dictSet_not_mem {α : Type} :
    ∀ (l : List (String × α)) (k : String) (v : α),
      k ∉ l.map Prod.fst → dictSet l k v = l ++ [(k, v)] := by
  intro l
  induction l with
  | nil => intro k v _; rfl
  | cons p rest ih =>
      intro k v hk
      rw [List.map_cons] at hk
      have hne : (p.1 == k) = false := by
        rw [beq_eq_false_iff_ne]
        intro hc
        apply hk
        rw [← hc]
        exact List.mem_cons_self _ _
      rw [dictSet, hne]
      simp only [Bool.false_eq_true, if_false, List.cons_append]
      rw [ih k v (fun hmem => hk (List.mem_cons_of_mem _ hmem))]

theorem manifestTypeNames_mono (l l2 : List (String × TypeEntry)) (n : String)
    (h : n ∈ manifestTypeNames l) : n ∈ manifestTypeNames (l ++ l2) := by
  unfold manifestTypeNames at h ⊢
  rw [List.map_append, List.filterMap_append]
  rcases List.mem_append.mp h with h1 | h2
  · exact List.mem_append.mpr (Or.inl (List.mem_append.mpr (Or.inl h1)))
  · exact List.mem_append.mpr (Or.inr (List.mem_append.mpr (Or.inl h2)))

theorem manifestTypeNames_key (l : List (String × TypeEntry)) (k : String) (v : TypeEntry) :
    k ∈ manifestTypeNames (l ++ [(k, v)]) := by
  unfold manifestTypeNames
  refine List.mem_append.mpr (Or.inl ?_)
  rw [List.map_append]
  exact List.mem_append.mpr (Or.inr (by simp))

theorem syncTypesStep_zero_mem (names0 : List String) (s2s : List (String × String))
    (swT : List (String × SwiftTypeInfo)) (m : Manifest) (c : Nat) (t : String)
    (h : names0.contains t = true) :
    syncTypesStep names0 s2s swT false (m, c) t = (m, c) := by
  unfold syncTypesStep
  rw [if_pos h]

theorem typesFoldAux (names0 : List String) (s2s : List (String × String))
    (swT : List (String × SwiftTypeInfo)) :
    ∀ (l : List String) (acc : Manifest × Nat),
      l.Nodup →
      (∀ t ∈ l, names0.contains t = true ∨ t ∉ acc.1.types.map Prod.fst) →
      (∀ n, names0.contains n = true → n ∈ manifestTypeNames acc.1.types) →
      (∀ n, n ∈ manifestTypeNames acc.1.types →
        n ∈ manifestTypeNames ((l.foldl (syncTypesStep names0 s2s swT false) acc)).1.types)
      ∧ (∀ t ∈ l,
        t ∈ manifestTypeNames ((l.foldl (syncTypesStep names0 s2s swT false) acc)).1.types) := by
  intro l
  induction l with
  | nil =>
      intro acc _ _ _
      exact ⟨fun n h => h, fun t ht => absurd ht (List.not_mem_nil t)⟩
  | cons y ys ih =>
      intro acc hnd hfresh hsub
      rw [List.foldl_cons]
      cases hy : names0.contains y with
      | true =>
          have hstep : syncTypesStep names0 s2s swT false acc y = acc := by
            unfold syncTypesStep
            rw [if_pos hy]
          rw [hstep]
          obtain ⟨hmono, hmem⟩ := ih acc (List.nodup_cons.mp hnd).2
            (fun t ht => hfresh t (List.mem_cons_of_mem y ht)) hsub
          refine ⟨hmono, ?_⟩
          intro t ht
          rcases List.mem_cons.mp ht with rfl | hts
          · exact hmono t (hsub t hy)
          · exact hmem t hts
      | false =>
          have hkeys : y ∉ acc.1.types.map Prod.fst := by
            rcases hfresh y (List.mem_cons_self y ys) with hc | hk
            · rw [hy] at hc
              exact absurd hc Bool.false_ne_true
            · exact hk
          have hcond : ¬ (names0.contains y = true) := by
            rw [hy]
            exact Bool.false_ne_true
          have hstep : syncTypesStep names0 s2s swT false acc y =
              ({ acc.1 with
                  types := acc.1.types ++ [(y, newSyncType y s2s swT)] }, acc.2 + 1) := by
            unfold syncTypesStep
            rw [if_neg hcond, dictSet_not_mem _ _ _ hkeys]
            rfl
          rw [hstep]
          have hnd' := (List.nodup_cons.mp hnd).2
          have hyny := (List.nodup_cons.mp hnd).1
          obtain ⟨hmono, hmem⟩ := ih ({ acc.1 with
              types := acc.1.types ++ [(y, newSyncType y s2s swT)] }, acc.2 + 1) hnd'
            (by
              intro t ht
              rcases hfresh t (List.mem_cons_of_mem y ht) with hc | hk
              · exact Or.inl hc
              · refine Or.inr ?_
                show t ∉ (acc.1.types ++ [(y, newSyncType y s2s swT)]).map Prod.fst
                rw [List.map_append]
                intro hmemt
                rcases List.mem_append.mp hmemt with h1 | h2
                · exact hk h1
                · have : t = y := by simpa using h2
                  exact hyny (this ▸ ht))
            (by
              intro n hn
              show n ∈ manifestTypeNames (acc.1.types ++ [(y, newSyncType y s2s swT)])
              exact manifestTypeNames_mono _ _ n (hsub n hn))
          refine ⟨?_, ?_⟩
          · intro n hn
            refine hmono n ?_
            show n ∈ manifestTypeNames (acc.1.types ++ [(y, newSyncType y s2s swT)])
            exact manifestTypeNames_mono _ _ n hn
          · intro t ht
            rcases List.mem_cons.mp ht with rfl | hts
            · refine hmono t ?_
              show t ∈ manifestTypeNames (acc.1.types ++ [(t, newSyncType t s2s swT)])
              exact manifestTypeNames_key _ _ _
            · exact hmem t hts

theorem syncCodesStep_names (names0 : List String) (acc : Manifest × Nat)
    (y : String × Int) (nm : String)
    (h : nm ∈ acc.1.error_codes.map (fun e => e.name)) :
    nm ∈ (syncCodesStep names0 false acc y).1.error_codes.map (fun e => e.name) := by
  unfold syncCodesStep
  cases hc : names0.contains y.1 with
  | true =>
      rw [if_pos rfl]
      exact h
  | false =>
      simp only [Bool.false_eq_true, if_false]
      exact memMapAppendLeft _ _ _ nm h

theorem syncCodesStep_key (names0 : List String) (acc : Manifest × Nat) (y : String × Int)
    (hinv : names0.contains y.1 = true → y.1 ∈ acc.1.error_codes.map (fun e => e.name)) :
    y.1 ∈ (syncCodesStep names0 false acc y).1.error_codes.map (fun e => e.name) := by
  unfold syncCodesStep
  cases hc : names0.contains y.1 with
  | true =>
      rw [if_pos rfl]
      exact hinv hc
  | false =>
      simp only [Bool.false_eq_true, if_false]
      exact memMapAppendSingleton _ _ _ _ rfl

theorem codesFold_mem (names0 : List String) :
    ∀ (l : List (String × Int)) (acc : Manifest × Nat),
      (∀ nm, names0.contains nm = true → nm ∈ acc.1.error_codes.map (fun e => e.name)) →
      ∀ x ∈ l,
        x.1 ∈ ((l.foldl (syncCodesStep names0 false) acc)).1.error_codes.map
          (fun e => e.name) := by
  intro l
  induction l with
  | nil => intro acc _ x hx; simp at hx
  | cons y ys ih =>
      intro acc hinv x hx
      rw [List.foldl_cons]
      have hinv' : ∀ nm, names0.contains nm = true →
          nm ∈ (syncCodesStep names0 false acc y).1.error_codes.map (fun e => e.name) :=
        fun nm hnm => syncCodesStep_names names0 acc y nm (hinv nm hnm)
      rcases List.mem_cons.mp hx with rfl | hys
      · have hbase : x.1 ∈ (syncCodesStep names0 false acc x).1.error_codes.map
            (fun e => e.name) := syncCodesStep_key names0 acc x (hinv x.1)
        refine foldlInvariant (syncCodesStep names0 false)
          (fun (a : Manifest × Nat) => x.1 ∈ a.1.error_codes.map (fun e => e.name))
          ys _ hbase ?_
        intro a z ha
        exact syncCodesStep_names names0 a z x.1 ha
      · exact ih (syncCodesStep names0 false acc y) hinv' x hys

theorem syncCodesStep_zero (names0 : List String) (m : Manifest) (c : Nat)
    (x : String × Int) (h : names0.contains x.1 = true) :
    syncCodesStep names0 false (m, c) x = (m, c) := by
  unfold syncCodesStep
  rw [if_pos h]

theorem syncDeprecatedStep_names (names0 : List String) (acc : Manifest × Nat)
    (y : String × String) (nm : String)
    (h : nm ∈ acc.1.deprecated.map (fun d => d.name)) :
    nm ∈ (syncDeprecatedStep names0 false acc y).1.deprecated.map (fun d => d.name) := by
  unfold syncDeprecatedStep
  cases hc : names0.contains y.1 with
  | true =>
      rw [if_pos rfl]
      exact h
  | false =>
      simp only [Bool.false_eq_true, if_false]
      exact memMapAppendLeft _ _ _ nm h

theorem syncDeprecatedStep_key (names0 : List String) (acc : Manifest × Nat)
    (y : String × String)
    (hinv : names0.contains y.1 = true → y.1 ∈ acc.1.deprecated.map (fun d => d.name)) :
    y.1 ∈ (syncDeprecatedStep names0 false acc y).1.deprecated.map (fun d => d.name) := by
  unfold syncDeprecatedStep
  cases hc : names0.contains y.1 with
  | true =>
      rw [if_pos rfl]
      exact hinv hc
  | false =>
      simp only [Bool.false_eq_true, if_false]
      exact memMapAppendSingleton _ _ _ _ rfl

theorem deprecatedFold_mem (names0 : List String) :
    ∀ (l : List (String × String)) (acc : Manifest × Nat),
      (∀ nm, names0.contains nm = true → nm ∈ acc.1.deprecated.map (fun d => d.name)) →
      ∀ x ∈ l,
        x.1 ∈ ((l.foldl (syncDeprecatedStep names0 false) acc)).1.deprecated.map
          (fun d => d.name) := by
  intro l
  induction l with
  | nil => intro acc _ x hx; simp at hx
  | cons y ys ih =>
      intro acc hinv x hx
      rw [List.foldl_cons]
      have hinv' : ∀ nm, names0.contains nm = true →
          nm ∈ (syncDeprecatedStep names0 false acc y).1.deprecated.map (fun d => d.name) :=
        fun nm hnm => syncDeprecatedStep_names names0 acc y nm (hinv nm hnm)
      rcases List.mem_cons.mp hx with rfl | hys
      · have hbase : x.1 ∈ (syncDeprecatedStep names0 false acc x).1.deprecated.map
            (fun d => d.name) := syncDeprecatedStep_key names0 acc x (hinv x.1)
        refine foldlInvariant (syncDeprecatedStep names0 false)
          (fun (a : Manifest × Nat) => x.1 ∈ a.1.deprecated.map (fun d => d.name))
          ys _ hbase ?_
        intro a z ha
        exact syncDeprecatedStep_names names0 a z x.1 ha
      · exact ih (syncDeprecatedStep names0 false acc y) hinv' x hys

theorem syncDeprecatedStep_zero (names0 : List String) (m : Manifest) (c : Nat)
    (x : String × String) (h : names0.contains x.1 = true) :
    syncDeprecatedStep names0 false (m, c) x = (m, c) := by
  unfold syncDeprecatedStep
  rw [if_pos h]

theorem pySortPairs_keys_nodup {β : Type} (l : List (String × β))
    (h : (l.map Prod.fst).Nodup) : ((pySortPairs l).map Prod.fst).Nodup := by
  unfold pySortPairs
  exact ((pySortBy_perm (fun p q => pyStrLe p.1 q.1) l).map Prod.fst).nodup_iff.mpr h

theorem pySortStr_nodup (l : List String) (h : l.Nodup) : (pySortStr l).Nodup := by
  unfold pySortStr
  exact (pySortBy_perm pyStrLe l).nodup_iff.mpr h

theorem methodsFold_ok (l : List (String × SpecMethodInfo))
    (hnd : (l.map Prod.fst).Nodup) (acc : Manifest × Nat)
    (x : String × SpecMethodInfo) (hx : x ∈ l) :
    methodOK ((l.foldl (syncMethodsStep false) acc)).1.modules x :=
  foldlAllKeys (syncMethodsStep false) (fun a z => methodOK a.1.modules z)
    (fun s z => syncMethodsStep_est s z)
    (fun s a b hab hs => syncMethodsStep_mono s a b hab hs) l hnd acc x hx

theorem notifsFold_ok (l : List (String × SpecNotifInfo))
    (hnd : (l.map Prod.fst).Nodup) (acc : Manifest × Nat)
    (x : String × SpecNotifInfo) (hx : x ∈ l) :
    notifOK ((l.foldl (syncNotifsStep false) acc)).1.modules x :=
  foldlAllKeys (syncNotifsStep false) (fun a z => notifOK a.1.modules z)
    (fun s z => syncNotifsStep_est s z)
    (fun s a b hab hs => syncNotifsStep_mono s a b hab hs) l hnd acc x hx

theorem sync_notifications_keeps_methodOK (m : Manifest)
    (l2 : List (String × SpecNotifInfo)) (x : String × SpecMethodInfo)
    (h : methodOK m.modules x) :
    methodOK (sync_notifications m l2 false).1.modules x := by
  unfold sync_notifications
  exact foldlInvariant (syncNotifsStep false) (fun a => methodOK a.1.modules x) _ _ h
    (fun a z ha => syncNotifsStep_keeps_methodOK a z x ha)

theorem sync_methods_keeps_notifOK (m : Manifest)
    (l2 : List (String × SpecMethodInfo)) (x : String × SpecNotifInfo)
    (h : notifOK m.modules x) :
    notifOK (sync_methods m l2 false).1.modules x := by
  unfold sync_methods
  exact foldlInvariant (syncMethodsStep false) (fun a => notifOK a.1.modules x) _ _ h
    (fun a z ha => syncMethodsStep_keeps_notifOK a z x ha)

/-- Stage 1 of the `main` sync pipeline (`sync-manifest.py`, line 845). -/
def syncPipe1 (m : Manifest) (A : SyncInputs) : Manifest × Nat :=
  sync_types m A.specTypes A.swiftTypes (build_spec_to_swift_mapping A.swiftTypes) false

/-- Stages 1-2 of the sync pipeline. -/
def syncPipe2 (m : Manifest) (A : SyncInputs) : Manifest × Nat :=
  sync_methods (syncPipe1 m A).1 A.specMethods false

/-- Stages 1-3 of the sync pipeline. -/
def syncPipe3 (m : Manifest) (A : SyncInputs) : Manifest × Nat :=
  sync_notifications (syncPipe2 m A).1 A.specNotifs false

/-- Stages 1-4 of the sync pipeline. -/
def syncPipe4 (m : Manifest) (A : SyncInputs) : Manifest × Nat :=
  sync_enums (syncPipe3 m A).1 A.specEnums false

/-- Stages 1-5 of the sync pipeline. -/
def syncPipe5 (m : Manifest) (A : SyncInputs) : Manifest × Nat :=
  sync_error_codes (syncPipe4 m A).1 A.specCodes false

/-- Stages 1-6 of the sync pipeline. -/
def syncPipe6 (m : Manifest) (A : SyncInputs) : Manifest × Nat :=
  sync_capabilities (syncPipe5 m A).1 A.clientCaps A.serverCaps false

/-- Stages 1-7 of the sync pipeline. -/
def syncPipe7 (m : Manifest) (A : SyncInputs) : Manifest × Nat :=
  sync_deprecated (syncPipe6 m A).1 A.specDeprecated false

theorem syncAll_fst_eq (m : Manifest) (A : SyncInputs) :
    (syncAll m A false).1 = (syncPipe7 m A).1 := rfl

theorem syncAll_types_ok (m : Manifest) (A : SyncInputs) (hT : A.specTypes.Nodup) :
    ∀ t ∈ A.specTypes, t ∈ manifestTypeNames (syncAll m A false).1.types := by
  intro t ht
  have h1 : t ∈ manifestTypeNames (syncPipe1 m A).1.types := by
    refine (typesFoldAux (manifestTypeNames m.types)
      (build_spec_to_swift_mapping A.swiftTypes) A.swiftTypes
      (pySortStr A.specTypes) (m, 0) (pySortStr_nodup _ hT) ?_ ?_).2 t
      ((mem_pySortBy _ _ _).mpr ht)
    · intro t2 _
      by_cases hc : (manifestTypeNames m.types).contains t2 = true
      · exact Or.inl hc
      · refine Or.inr ?_
        intro hk
        apply hc
        have : t2 ∈ manifestTypeNames m.types := by
          unfold manifestTypeNames
          exact List.mem_append.mpr (Or.inl hk)
        simpa [List.contains, List.elem_eq_mem] using this
    · intro n hn
      simpa [List.contains, List.elem_eq_mem] using hn
  have h2 : (syncPipe2 m A).1.types = (syncPipe1 m A).1.types :=
    (sync_methods_frames _ _ _).1
  have h3 : (syncPipe3 m A).1.types = (syncPipe2 m A).1.types :=
    (sync_notifications_frames _ _ _).1
  have h4 : (syncPipe4 m A).1.types = (syncPipe3 m A).1.types :=
    (sync_enums_frames _ _ _).1
  have h5 : (syncPipe5 m A).1.types = (syncPipe4 m A).1.types :=
    (sync_error_codes_frames _ _ _).1
  have h6 : (syncPipe6 m A).1.types = (syncPipe5 m A).1.types :=
    (sync_capabilities_frames _ _ _ _).1
  have h7 : (syncPipe7 m A).1.types = (syncPipe6 m A).1.types :=
    (sync_deprecated_frames _ _ _).1
  show t ∈ manifestTypeNames (syncPipe7 m A).1.types
  rw [h7, h6, h5, h4, h3, h2]
  exact h1

theorem syncAll_methods_ok (m : Manifest) (A : SyncInputs)
    (hM : (A.specMethods.map Prod.fst).Nodup) :
    ∀ x ∈ A.specMethods, methodOK (syncAll m A false).1.modules x := by
  intro x hx
  have h2 : methodOK (syncPipe2 m A).1.modules x :=
    methodsFold_ok (pySortPairs A.specMethods) (pySortPairs_keys_nodup _ hM)
      ((syncPipe1 m A).1, 0) x
      ((mem_pySortBy _ _ _).mpr hx)
  have h3 : methodOK (syncPipe3 m A).1.modules x :=
    sync_notifications_keeps_methodOK _ _ x h2
  have h4 : (syncPipe4 m A).1.modules = (syncPipe3 m A).1.modules :=
    (sync_enums_frames _ _ _).2.1
  have h5 : (syncPipe5 m A).1.modules = (syncPipe4 m A).1.modules :=
    (sync_error_codes_frames _ _ _).2.1
  have h6 : (syncPipe6 m A).1.modules = (syncPipe5 m A).1.modules :=
    (sync_capabilities_frames _ _ _ _).2.1
  have h7 : (syncPipe7 m A).1.modules = (syncPipe6 m A).1.modules :=
    (sync_deprecated_frames _ _ _).2.1
  show methodOK (syncPipe7 m A).1.modules x
  rw [h7, h6, h5, h4]
  exact h3

theorem syncAll_notifs_ok (m : Manifest) (A : SyncInputs)
    (hN : (A.specNotifs.map Prod.fst).Nodup) :
    ∀ x ∈ A.specNotifs, notifOK (syncAll m A false).1.modules x := by
  intro x hx
  have h3 : notifOK (syncPipe3 m A).1.modules x :=
    notifsFold_ok (pySortPairs A.specNotifs) (pySortPairs_keys_nodup _ hN)
      ((syncPipe2 m A).1, 0) x
      ((mem_pySortBy _ _ _).mpr hx)
  have h4 : (syncPipe4 m A).1.modules = (syncPipe3 m A).1.modules :=
    (sync_enums_frames _ _ _).2.1
  have h5 : (syncPipe5 m A).1.modules = (syncPipe4 m A).1.modules :=
    (sync_error_codes_frames _ _ _).2.1
  have h6 : (syncPipe6 m A).1.modules = (syncPipe5 m A).1.modules :=
    (sync_capabilities_frames _ _ _ _).2.1
  have h7 : (syncPipe7 m A).1.modules = (syncPipe6 m A).1.modules :=
    (sync_deprecated_frames _ _ _).2.1
  show notifOK (syncPipe7 m A).1.modules x
  rw [h7, h6, h5, h4]
  exact h3

theorem syncAll_enums_ok (m : Manifest) (A : SyncInputs)
    (hE : (A.specEnums.map Prod.fst).Nodup) :
    ∀ x ∈ A.specEnums, enumOK (syncAll m A false).1.enums x := by
  intro x hx
  have h4 : enumOK (syncPipe4 m A).1.enums x := by
    refine enumsFold_ok ((syncPipe3 m A).1.enums.map (fun e => e.name))
      (pySortPairs A.specEnums) ((syncPipe3 m A).1, 0)
      (pySortPairs_keys_nodup _ hE) ?_ x ((mem_pySortBy _ _ _).mpr hx)
    intro nm hnm
    simpa [List.contains, List.elem_eq_mem] using hnm
  have h5 : (syncPipe5 m A).1.enums = (syncPipe4 m A).1.enums :=
    (sync_error_codes_frames _ _ _).2.2.1
  have h6 : (syncPipe6 m A).1.enums = (syncPipe5 m A).1.enums :=
    (sync_capabilities_frames _ _ _ _).2.2.1
  have h7 : (syncPipe7 m A).1.enums = (syncPipe6 m A).1.enums :=
    (sync_deprecated_frames _ _ _).2.2.1
  show enumOK (syncPipe7 m A).1.enums x
  rw [h7, h6, h5]
  exact h4

theorem syncAll_codes_ok (m : Manifest) (A : SyncInputs) :
    ∀ x ∈ A.specCodes, x.1 ∈ (syncAll m A false).1.error_codes.map (fun e => e.name) := by
  intro x hx
  have h5 : x.1 ∈ (syncPipe5 m A).1.error_codes.map (fun e => e.name) := by
    refine codesFold_mem ((syncPipe4 m A).1.error_codes.map (fun e => e.name))
      (pySortPairs A.specCodes) ((syncPipe4 m A).1, 0) ?_ x
      ((mem_pySortBy _ _ _).mpr hx)
    intro nm hnm
    simpa [List.contains, List.elem_eq_mem] using hnm
  have h6 : (syncPipe6 m A).1.error_codes = (syncPipe5 m A).1.error_codes :=
    (sync_capabilities_frames _ _ _ _).2.2.2.1
  have h7 : (syncPipe7 m A).1.error_codes = (syncPipe6 m A).1.error_codes :=
    (sync_deprecated_frames _ _ _).2.2.2.1
  show x.1 ∈ (syncPipe7 m A).1.error_codes.map (fun e => e.name)
  rw [h7, h6]
  exact h5

theorem syncAll_clientCaps_ok (m : Manifest) (A : SyncInputs)
    (hCc : (A.clientCaps.map Prod.fst).Nodup) :
    ∀ x ∈ A.clientCaps, capOK (syncAll m A false).1.capabilities_client x := by
  intro x hx
  have h6 : capOK (syncPipe6 m A).1.capabilities_client x := by
    show capOK (sync_cap_list (syncPipe5 m A).1.capabilities_client A.clientCaps false).1 x
    refine capsFold_ok ((syncPipe5 m A).1.capabilities_client.map (fun c => c.property))
      (pySortPairs A.clientCaps) ((syncPipe5 m A).1.capabilities_client, 0)
      (pySortPairs_keys_nodup _ hCc) ?_ x ((mem_pySortBy _ _ _).mpr hx)
    intro nm hnm
    simpa [List.contains, List.elem_eq_mem] using hnm
  have h7 : (syncPipe7 m A).1.capabilities_client = (syncPipe6 m A).1.capabilities_client :=
    (sync_deprecated_frames _ _ _).2.2.2.2.1
  show capOK (syncPipe7 m A).1.capabilities_client x
  rw [h7]
  exact h6

theorem syncAll_serverCaps_ok (m : Manifest) (A : SyncInputs)
    (hCs : (A.serverCaps.map Prod.fst).Nodup) :
    ∀ x ∈ A.serverCaps, capOK (syncAll m A false).1.capabilities_server x := by
  intro x hx
  have h6 : capOK (syncPipe6 m A).1.capabilities_server x := by
    show capOK (sync_cap_list (syncPipe5 m A).1.capabilities_server A.serverCaps false).1 x
    refine capsFold_ok ((syncPipe5 m A).1.capabilities_server.map (fun c => c.property))
      (pySortPairs A.serverCaps) ((syncPipe5 m A).1.capabilities_server, 0)
      (pySortPairs_keys_nodup _ hCs) ?_ x ((mem_pySortBy _ _ _).mpr hx)
    intro nm hnm
    simpa [List.contains, List.elem_eq_mem] using hnm
  have h7 : (syncPipe7 m A).1.capabilities_server = (syncPipe6 m A).1.capabilities_server :=
    (sync_deprecated_frames _ _ _).2.2.2.2.2
  show capOK (syncPipe7 m A).1.capabilities_server x
  rw [h7]
  exact h6

theorem syncAll_deprecated_ok (m : Manifest) (A : SyncInputs) :
    ∀ x ∈ A.specDeprecated, x.1 ∈ (syncAll m A false).1.deprecated.map (fun d => d.name) := by
  intro x hx
  show x.1 ∈ (syncPipe7 m A).1.deprecated.map (fun d => d.name)
  refine deprecatedFold_mem ((syncPipe6 m A).1.deprecated.map (fun d => d.name))
    (pySortPairs A.specDeprecated) ((syncPipe6 m A).1, 0) ?_ x
    ((mem_pySortBy _ _ _).mpr hx)
  intro nm hnm
  simpa [List.contains, List.elem_eq_mem] using hnm

theorem sync_types_zero (M : Manifest) (sT : List String)
    (swT : List (String × SwiftTypeInfo)) (s2s : List (String × String))
    (h : ∀ t ∈ sT, (manifestTypeNames M.types).contains t = true) :
    sync_types M sT swT s2s false = (M, 0) := by
  show (pySortStr sT).foldl
    (syncTypesStep (manifestTypeNames M.types) s2s swT false) (M, 0) = (M, 0)
  refine foldlZeroOf _ (fun _ t => (manifestTypeNames M.types).contains t = true)
    (fun m c t ht => syncTypesStep_zero_mem _ _ _ m c t ht) _ M 0 ?_
  intro t ht
  exact h t ((mem_pySortBy _ _ _).mp ht)

theorem sync_methods_zero (M : Manifest) (l : List (String × SpecMethodInfo))
    (h : ∀ x ∈ l, methodOK M.modules x) :
    sync_methods M l false = (M, 0) := by
  show (pySortPairs l).foldl (syncMethodsStep false) (M, 0) = (M, 0)
  refine foldlZeroOf _ (fun m x => methodOK m.modules x)
    (fun m c x hx => syncMethodsStep_zero m c x hx) _ M 0 ?_
  intro x hx
  exact h x ((mem_pySortBy _ _ _).mp hx)

theorem sync_notifications_zero (M : Manifest) (l : List (String × SpecNotifInfo))
    (h : ∀ x ∈ l, notifOK M.modules x) :
    sync_notifications M l false = (M, 0) := by
  show (pySortPairs l).foldl (syncNotifsStep false) (M, 0) = (M, 0)
  refine foldlZeroOf _ (fun m x => notifOK m.modules x)
    (fun m c x hx => syncNotifsStep_zero m c x hx) _ M 0 ?_
  intro x hx
  exact h x ((mem_pySortBy _ _ _).mp hx)

theorem sync_enums_zero (M : Manifest) (l : List (String × List String))
    (h : ∀ x ∈ l, enumOK M.enums x) :
    sync_enums M l false = (M, 0) := by
  show (pySortPairs l).foldl
    (syncEnumsStep (M.enums.map (fun e => e.name)) false) (M, 0) = (M, 0)
  refine foldlZeroOf _
    (fun mm x => enumOK mm.enums x ∧
      M.enums.map (fun e => e.name) = mm.enums.map (fun e => e.name)) ?_ _ M 0 ?_
  · intro mm c x hx
    exact syncEnumsStep_zero _ mm c x hx.2 hx.1
  · intro x hx
    exact ⟨h x ((mem_pySortBy _ _ _).mp hx), rfl⟩

theorem sync_error_codes_zero (M : Manifest) (l : List (String × Int))
    (h : ∀ x ∈ l, x.1 ∈ M.error_codes.map (fun c => c.name)) :
    sync_error_codes M l false = (M, 0) := by
  show (pySortPairs l).foldl
    (syncCodesStep (M.error_codes.map (fun c => c.name)) false) (M, 0) = (M, 0)
  refine foldlZeroOf _
    (fun _ x => (M.error_codes.map (fun c => c.name)).contains x.1 = true)
    (fun m c x hx => syncCodesStep_zero _ m c x hx) _ M 0 ?_
  intro x hx
  simpa [List.contains, List.elem_eq_mem] using h x ((mem_pySortBy _ _ _).mp hx)

theorem sync_cap_list_zero (capList : List CapEntry) (caps : List (String × List String))
    (h : ∀ x ∈ caps, capOK capList x) :
    sync_cap_list capList caps false = (capList, 0) := by
  show (pySortPairs caps).foldl
    (syncCapStep (capList.map (fun c => c.property)) false) (capList, 0) = (capList, 0)
  refine foldlZeroOf _
    (fun ll x => capOK ll x ∧
      capList.map (fun c => c.property) = ll.map (fun c => c.property)) ?_ _ capList 0 ?_
  · intro ll c x hx
    exact syncCapStep_zero _ ll c x hx.2 hx.1
  · intro x hx
    exact ⟨h x ((mem_pySortBy _ _ _).mp hx), rfl⟩

theorem sync_capabilities_zero (M : Manifest) (cc sc : List (String × List String))
    (hc : ∀ x ∈ cc, capOK M.capabilities_client x)
    (hs : ∀ x ∈ sc, capOK M.capabilities_server x) :
    sync_capabilities M cc sc false = (M, 0) := by
  have h1 := sync_cap_list_zero M.capabilities_client cc hc
  have h2 := sync_cap_list_zero M.capabilities_server sc hs
  unfold sync_capabilities
  simp only [h1, h2]

theorem sync_deprecated_zero (M : Manifest) (l : List (String × String))
    (h : ∀ x ∈ l, x.1 ∈ M.deprecated.map (fun d => d.name)) :
    sync_deprecated M l false = (M, 0) := by
  show (pySortPairs l).foldl
    (syncDeprecatedStep (M.deprecated.map (fun d => d.name)) false) (M, 0) = (M, 0)
  refine foldlZeroOf _
    (fun _ x => (M.deprecated.map (fun d => d.name)).contains x.1 = true)
    (fun m c x hx => syncDeprecatedStep_zero _ m c x hx) _ M 0 ?_
  intro x hx
  simpa [List.contains, List.elem_eq_mem] using h x ((mem_pySortBy _ _ _).mp hx)

/-- C2.  Synchronizer idempotence: for inputs extracted from the schema and
implementation index (whose keyed collections are Python dictionaries and
sets, hence have pairwise-distinct keys, stated as the `Nodup` hypotheses),
running the sync pipeline in apply mode and then running it again on the
resulting manifest with the same inputs yields a second-run total change
count of exactly 0 across all seven categories. -/
theorem C2_sync_idempotent (m : Manifest) (A : SyncInputs)
    (hT : A.specTypes.Nodup) (hM : (A.specMethods.map Prod.fst).Nodup)
    (hN : (A.specNotifs.map Prod.fst).Nodup) (hE : (A.specEnums.map Prod.fst).Nodup)
    (hCc : (A.clientCaps.map Prod.fst).Nodup) (hCs : (A.serverCaps.map Prod.fst).Nodup) :
    (syncAll (syncAll m A false).1 A false).2 = 0 := by
  have hq1 : sync_types (syncAll m A false).1 A.specTypes A.swiftTypes
      (build_spec_to_swift_mapping A.swiftTypes) false = ((syncAll m A false).1, 0) :=
    sync_types_zero _ _ _ _ (fun t ht => by
      simpa [List.contains, List.elem_eq_mem] using syncAll_types_ok m A hT t ht)
  have hq2 : sync_methods (syncAll m A false).1 A.specMethods false =
      ((syncAll m A false).1, 0) :=
    sync_methods_zero _ _ (syncAll_methods_ok m A hM)
  have hq3 : sync_notifications (syncAll m A false).1 A.specNotifs false =
      ((syncAll m A false).1, 0) :=
    sync_notifications_zero _ _ (syncAll_notifs_ok m A hN)
  have hq4 : sync_enums (syncAll m A false).1 A.specEnums false =
      ((syncAll m A false).1, 0) :=
    sync_enums_zero _ _ (syncAll_enums_ok m A hE)
  have hq5 : sync_error_codes (syncAll m A false).1 A.specCodes false =
      ((syncAll m A false).1, 0) :=
    sync_error_codes_zero _ _ (syncAll_codes_ok m A)
  have hq6 : sync_capabilities (syncAll m A false).1 A.clientCaps A.serverCaps false =
      ((syncAll m A false).1, 0) :=
    sync_capabilities_zero _ _ _ (syncAll_clientCaps_ok m A hCc)
      (syncAll_serverCaps_ok m A hCs)
  have hq7 : sync_deprecated (syncAll m A false).1 A.specDeprecated false =
      ((syncAll m A false).1, 0) :=
    sync_deprecated_zero _ _ (syncAll_deprecated_ok m A)
  generalize hM1 : (syncAll m A false).1 = M1 at hq1 hq2 hq3 hq4 hq5 hq6 hq7 ⊢
  have hrun : syncAll M1 A false = (M1, 0) := by
    unfold syncAll
    simp only [hq1, hq2, hq3, hq4, hq5, hq6, hq7]
  rw [hrun]

/-- A small but representative synchronizer input covering all seven
categories. -/
def syncInputsDemo : SyncInputs :=
  { swiftTypes := [("Foo", { kind := "struct", file := "Sources/MCP/Foo.swift" })],
    specTypes := ["Foo", "Bar"],
    specMethods := [("ping",
      { request_type := "PingRequest", direction := "client_to_server",
        swift_method := "ping", client_handler := "" })],
    specNotifs := [("notifications/progress",
      { notification_type := "ProgressNotification", direction := "bidirectional",
        send_method := "sendProgress" })],
    specEnums := [("LoggingLevel", ["debug", "error"])],
    specCodes := [("PARSE_ERROR", (-32700 : Int))],
    clientCaps := [("roots", ["listChanged"])],
    serverCaps := [("prompts", ["listChanged"])],
    specDeprecated := [("SamplingMessage", "Use CreateMessage instead")] }

theorem C2_witness :
    syncInputsDemo.specTypes.Nodup ∧
    (syncAll (syncAll emptyManifest syncInputsDemo false).1 syncInputsDemo false).2 = 0 :=
  ⟨by decide,
   C2_sync_idempotent emptyManifest syncInputsDemo (by decide) (by decide) (by decide)
     (by decide) (by decide) (by decide)⟩

/-- An optional field is only ever filled in, never overwritten: either it
was absent before, or it is unchanged. -/
def optExtB {α : Type} [DecidableEq α] (a b : Option α) : Bool :=
  a.isNone || decide (b = a)

/-- Element-wise extension: the old list is a pointwise `r`-prefix of the
new one; entries may only be appended after it. -/
def listExtB {α : Type} (r : α → α → Bool) : List α → List α → Bool
  | [], _ => true
  | _ :: _, [] => false
  | a :: l, b :: l2 => r a b && listExtB r l l2

/-- Plain prefix: existing entries are kept verbatim, new ones appended. -/
def isPrefixB {α : Type} [DecidableEq α] (l l2 : List α) : Bool :=
  listExtB (fun a b => decide (a = b)) l l2

theorem optExtB_refl {α : Type} [DecidableEq α] (a : Option α) : optExtB a a = true := by
  cases a <;> simp [optExtB]

theorem optExtB_trans {α : Type} [DecidableEq α] (a b c : Option α)
    (h1 : optExtB a b = true) (h2 : optExtB b c = true) : optExtB a c = true := by
  cases a with
  | none => simp [optExtB]
  | some x =>
      simp only [optExtB, Option.isNone_some, Bool.false_or, decide_eq_true_eq] at h1 ⊢
      subst h1
      simpa [optExtB] using h2

theorem listExtB_refl {α : Type} (r : α → α → Bool) (hr : ∀ a, r a a = true) :
    ∀ l : List α, listExtB r l l = true := by
  intro l
  induction l with
  | nil => rfl
  | cons a l ih => simp [listExtB, hr a, ih]

theorem listExtB_trans {α : Type} (r : α → α → Bool)
    (ht : ∀ a b c, r a b = true → r b c = true → r a c = true) :
    ∀ (l1 l2 l3 : List α), listExtB r l1 l2 = true → listExtB r l2 l3 = true →
      listExtB r l1 l3 = true := by
  intro l1
  induction l1 with
  | nil => intro l2 l3 _ _; rfl
  | cons a l ih =>
      intro l2 l3 h1 h2
      cases l2 with
      | nil => simp [listExtB] at h1
      | cons b l2' =>
          cases l3 with
          | nil => simp [listExtB] at h2
          | cons c l3' =>
              simp only [listExtB, Bool.and_eq_true] at h1 h2 ⊢
              exact ⟨ht a b c h1.1 h2.1, ih l2' l3' h1.2 h2.2⟩

theorem listExtB_append {α : Type} (r : α → α → Bool) (hr : ∀ a, r a a = true) :
    ∀ (l tl : List α), listExtB r l (l ++ tl) = true := by
  intro l tl
  induction l with
  | nil => rfl
  | cons a l ih => simp [listExtB, hr a, ih]

theorem isPrefixB_refl {α : Type} [DecidableEq α] (l : List α) : isPrefixB l l = true :=
  listExtB_refl _ (fun a => by simp) l

theorem isPrefixB_trans {α : Type} [DecidableEq α] (l1 l2 l3 : List α)
    (h1 : isPrefixB l1 l2 = true) (h2 : isPrefixB l2 l3 = true) : isPrefixB l1 l3 = true :=
  listExtB_trans _ (fun a b c hab hbc => by
    simp only [decide_eq_true_eq] at hab hbc ⊢
    exact hab.trans hbc) l1 l2 l3 h1 h2

theorem isPrefixB_append {α : Type} [DecidableEq α] (l tl : List α) :
    isPrefixB l (l ++ tl) = true :=
  listExtB_append _ (fun a => by simp) l tl

/-- The method-entry fields `sync_methods` may fill are only ever filled
when absent; every other field is kept verbatim. -/
def methodEntryExtB (e e2 : MethodEntry) : Bool :=
  decide (e2.name = e.name) && decide (e2.swift = e.swift) &&
  optExtB e.client_method e2.client_method &&
  optExtB e.server_method e2.server_method &&
  optExtB e.client_handler e2.client_handler &&
  decide (e2.handler_registration = e.handler_registration) &&
  decide (e2.implementation = e.implementation) &&
  decide (e2.verification = e.verification)

/-- The notification-entry fields `sync_notifications` may fill are only
ever filled when absent; every other field is kept verbatim. -/
def notifEntryExtB (e e2 : NotifEntry) : Bool :=
  decide (e2.name = e.name) && decide (e2.swift = e.swift) &&
  optExtB e.sender e2.sender &&
  optExtB e.server_send e2.server_send &&
  optExtB e.client_send e2.client_send &&
  decide (e2.implementation = e.implementation) &&
  decide (e2.verification = e.verification)

/-- A module keeps all of its own fields; its method and notification lists
are only element-wise extended or appended to. -/
def moduleExtB (mo mo2 : MModule) : Bool :=
  decide (mo2.id = mo.id) && decide (mo2.category = mo.category) &&
  decide (mo2.description = mo.description) && decide (mo2.swift_file = mo.swift_file) &&
  decide (mo2.implementation = mo.implementation) &&
  listExtB methodEntryExtB mo.methods mo2.methods &&
  listExtB notifEntryExtB mo.notifications mo2.notifications &&
  decide (mo2.verification = mo.verification)

/-- An enum entry keeps name, swift, file and verification; its case list is
only appended to. -/
def enumEntryExtB (e e2 : EnumEntry) : Bool :=
  decide (e2.name = e.name) && decide (e2.swift = e.swift) &&
  decide (e2.file = e.file) && isPrefixB e.cases e2.cases &&
  decide (e2.verification = e.verification)

/-- A capability entry keeps property, swift and verification; its nested
list is only appended to. -/
def capEntryExtB (c c2 : CapEntry) : Bool :=
  decide (c2.property = c.property) && decide (c2.swift = c.swift) &&
  isPrefixB c.nested c2.nested && decide (c2.verification = c.verification)

/-- Additive-only extension of one manifest by another: every section keeps
its existing entries in place (types, error codes and deprecated entries
verbatim; modules, enums and capabilities with their list-valued fields
only appended to and their absent optional fields possibly filled), with
new entries only appended. -/
def manifestExtB (m m2 : Manifest) : Bool :=
  isPrefixB m.types m2.types &&
  listExtB moduleExtB m.modules m2.modules &&
  listExtB enumEntryExtB m.enums m2.enums &&
  isPrefixB m.error_codes m2.error_codes &&
  listExtB capEntryExtB m.capabilities_client m2.capabilities_client &&
  listExtB capEntryExtB m.capabilities_server m2.capabilities_server &&
  isPrefixB m.deprecated m2.deprecated

theorem methodEntryExtB_refl (e : MethodEntry) : methodEntryExtB e e = true := by
  simp [methodEntryExtB, optExtB_refl]

theorem notifEntryExtB_refl (e : NotifEntry) : notifEntryExtB e e = true := by
  simp [notifEntryExtB, optExtB_refl]

theorem moduleExtB_refl (mo : MModule) : moduleExtB mo mo = true := by
  simp [moduleExtB, listExtB_refl methodEntryExtB methodEntryExtB_refl,
    listExtB_refl notifEntryExtB notifEntryExtB_refl]

theorem enumEntryExtB_refl (e : EnumEntry) : enumEntryExtB e e = true := by
  simp [enumEntryExtB, isPrefixB_refl]

theorem capEntryExtB_refl (c : CapEntry) : capEntryExtB c c = true := by
  simp [capEntryExtB, isPrefixB_refl]

theorem manifestExtB_refl (m : Manifest) : manifestExtB m m = true := by
  simp [manifestExtB, isPrefixB_refl,
    listExtB_refl moduleExtB moduleExtB_refl,
    listExtB_refl enumEntryExtB enumEntryExtB_refl,
    listExtB_refl capEntryExtB capEntryExtB_refl]

theorem methodEntryExtB_trans (a b c : MethodEntry)
    (h1 : methodEntryExtB a b = true) (h2 : methodEntryExtB b c = true) :
    methodEntryExtB a c = true := by
  simp only [methodEntryExtB, Bool.and_eq_true, decide_eq_true_eq] at h1 h2 ⊢
  obtain ⟨⟨⟨⟨⟨⟨⟨n1, s1⟩, c1⟩, v1⟩, ch1⟩, hr1⟩, i1⟩, ve1⟩ := h1
  obtain ⟨⟨⟨⟨⟨⟨⟨n2, s2⟩, c2⟩, v2⟩, ch2⟩, hr2⟩, i2⟩, ve2⟩ := h2
  exact ⟨⟨⟨⟨⟨⟨⟨n2.trans n1, s2.trans s1⟩, optExtB_trans _ _ _ c1 c2⟩,
    optExtB_trans _ _ _ v1 v2⟩, optExtB_trans _ _ _ ch1 ch2⟩, hr2.trans hr1⟩,
    i2.trans i1⟩, ve2.trans ve1⟩

theorem notifEntryExtB_trans (a b c : NotifEntry)
    (h1 : notifEntryExtB a b = true) (h2 : notifEntryExtB b c = true) :
    notifEntryExtB a c = true := by
  simp only [notifEntryExtB, Bool.and_eq_true, decide_eq_true_eq] at h1 h2 ⊢
  obtain ⟨⟨⟨⟨⟨⟨n1, s1⟩, d1⟩, v1⟩, ch1⟩, i1⟩, ve1⟩ := h1
  obtain ⟨⟨⟨⟨⟨⟨n2, s2⟩, d2⟩, v2⟩, ch2⟩, i2⟩, ve2⟩ := h2
  exact ⟨⟨⟨⟨⟨⟨n2.trans n1, s2.trans s1⟩, optExtB_trans _ _ _ d1 d2⟩,
    optExtB_trans _ _ _ v1 v2⟩, optExtB_trans _ _ _ ch1 ch2⟩, i2.trans i1⟩, ve2.trans ve1⟩

theorem moduleExtB_trans (a b c : MModule)
    (h1 : moduleExtB a b = true) (h2 : moduleExtB b c = true) :
    moduleExtB a c = true := by
  simp only [moduleExtB, Bool.and_eq_true, decide_eq_true_eq] at h1 h2 ⊢
  obtain ⟨⟨⟨⟨⟨⟨⟨i1, c1⟩, d1⟩, s1⟩, im1⟩, me1⟩, no1⟩, v1⟩ := h1
  obtain ⟨⟨⟨⟨⟨⟨⟨i2, c2⟩, d2⟩, s2⟩, im2⟩, me2⟩, no2⟩, v2⟩ := h2
  exact ⟨⟨⟨⟨⟨⟨⟨i2.trans i1, c2.trans c1⟩, d2.trans d1⟩, s2.trans s1⟩, im2.trans im1⟩,
    listExtB_trans _ methodEntryExtB_trans _ _ _ me1 me2⟩,
    listExtB_trans _ notifEntryExtB_trans _ _ _ no1 no2⟩, v2.trans v1⟩

theorem enumEntryExtB_trans (a b c : EnumEntry)
    (h1 : enumEntryExtB a b = true) (h2 : enumEntryExtB b c = true) :
    enumEntryExtB a c = true := by
  simp only [enumEntryExtB, Bool.and_eq_true, decide_eq_true_eq] at h1 h2 ⊢
  obtain ⟨⟨⟨⟨n1, s1⟩, f1⟩, p1⟩, v1⟩ := h1
  obtain ⟨⟨⟨⟨n2, s2⟩, f2⟩, p2⟩, v2⟩ := h2
  exact ⟨⟨⟨⟨n2.trans n1, s2.trans s1⟩, f2.trans f1⟩, isPrefixB_trans _ _ _ p1 p2⟩,
    v2.trans v1⟩

theorem capEntryExtB_trans (a b c : CapEntry)
    (h1 : capEntryExtB a b = true) (h2 : capEntryExtB b c = true) :
    capEntryExtB a c = true := by
  simp only [capEntryExtB, Bool.and_eq_true, decide_eq_true_eq] at h1 h2 ⊢
  obtain ⟨⟨⟨p1, s1⟩, n1⟩, v1⟩ := h1
  obtain ⟨⟨⟨p2, s2⟩, n2⟩, v2⟩ := h2
  exact ⟨⟨⟨p2.trans p1, s2.trans s1⟩, isPrefixB_trans _ _ _ n1 n2⟩, v2.trans v1⟩

theorem manifestExtB_trans (a b c : Manifest)
    (h1 : manifestExtB a b = true) (h2 : manifestExtB b c = true) :
    manifestExtB a c = true := by
  simp only [manifestExtB, Bool.and_eq_true] at h1 h2 ⊢
  obtain ⟨⟨⟨⟨⟨⟨t1, m1⟩, e1⟩, c1⟩, cc1⟩, cs1⟩, d1⟩ := h1
  obtain ⟨⟨⟨⟨⟨⟨t2, m2⟩, e2⟩, c2⟩, cc2⟩, cs2⟩, d2⟩ := h2
  exact ⟨⟨⟨⟨⟨⟨isPrefixB_trans _ _ _ t1 t2,
    listExtB_trans _ moduleExtB_trans _ _ _ m1 m2⟩,
    listExtB_trans _ enumEntryExtB_trans _ _ _ e1 e2⟩,
    isPrefixB_trans _ _ _ c1 c2⟩,
    listExtB_trans _ capEntryExtB_trans _ _ _ cc1 cc2⟩,
    listExtB_trans _ capEntryExtB_trans _ _ _ cs1 cs2⟩,
    isPrefixB_trans _ _ _ d1 d2⟩

theorem fillMethod_extB (e : MethodEntry) (i : SpecMethodInfo) :
    methodEntryExtB e (fillMethodEntry e i).1 = true := by
  by_cases h1 : i.direction = "client_to_server" <;>
    by_cases h2 : i.direction = "server_to_client" <;>
      by_cases h3 : i.direction = "bidirectional" <;>
        by_cases h4 : i.client_handler = "" <;>
          rcases hc : e.client_method with _ | cv <;>
            rcases hs : e.server_method with _ | sv <;>
              rcases hh : e.client_handler with _ | hv <;>
                simp_all [fillMethodEntry, methodEntryExtB, optExtB]

theorem fillNotif_extB (e : NotifEntry) (i : SpecNotifInfo) :
    notifEntryExtB e (fillNotifEntry e i).1 = true := by
  by_cases h1 : i.direction = "client_to_server" <;>
    by_cases h2 : i.direction = "server_to_client" <;>
      by_cases h3 : i.direction = "bidirectional" <;>
        rcases hd : e.sender with _ | dv <;>
          rcases hs : e.server_send with _ | sv <;>
            rcases hc : e.client_send with _ | cv <;>
              simp_all [fillNotifEntry, notifEntryExtB, optExtB]

theorem enumUpdated_extB (e : EnumEntry) (cs : List String) :
    enumEntryExtB e (enumUpdated e cs) = true := by
  unfold enumUpdated enumEntryExtB
  simp [isPrefixB_append]

theorem capUpdated_extB (ce : CapEntry) (ns : List String) :
    capEntryExtB ce (capUpdated ce ns) = true := by
  unfold capUpdated capEntryExtB
  simp [isPrefixB_append]

theorem replaceMethodEntry_listExtB :
    ∀ (l : List MethodEntry) (n : String) (e e2 : MethodEntry),
      l.find? (fun me => me.name == some n) = some e → methodEntryExtB e e2 = true →
      listExtB methodEntryExtB l (replaceMethodEntry l n e2) = true := by
  intro l
  induction l with
  | nil => intro n e e2 h _; simp at h
  | cons me rest ih =>
      intro n e e2 h hext
      cases hm : (me.name == some n) with
      | true =>
          simp only [List.find?, hm] at h
          cases h
          rw [replaceMethodEntry, if_pos hm]
          simp only [listExtB, Bool.and_eq_true]
          exact ⟨hext, listExtB_refl _ methodEntryExtB_refl rest⟩
      | false =>
          simp only [List.find?, hm] at h
          rw [replaceMethodEntry, hm]
          simp only [Bool.false_eq_true, if_false, listExtB, Bool.and_eq_true]
          exact ⟨methodEntryExtB_refl me, ih n e e2 h hext⟩

theorem replaceNotifEntry_listExtB :
    ∀ (l : List NotifEntry) (n : String) (e e2 : NotifEntry),
      l.find? (fun x => x.name == some n) = some e → notifEntryExtB e e2 = true →
      listExtB notifEntryExtB l (replaceNotifEntry l n e2) = true := by
  intro l
  induction l with
  | nil => intro n e e2 h _; simp at h
  | cons x rest ih =>
      intro n e e2 h hext
      cases hm : (x.name == some n) with
      | true =>
          simp only [List.find?, hm] at h
          cases h
          rw [replaceNotifEntry, if_pos hm]
          simp only [listExtB, Bool.and_eq_true]
          exact ⟨hext, listExtB_refl _ notifEntryExtB_refl rest⟩
      | false =>
          simp only [List.find?, hm] at h
          rw [replaceNotifEntry, hm]
          simp only [Bool.false_eq_true, if_false, listExtB, Bool.and_eq_true]
          exact ⟨notifEntryExtB_refl x, ih n e e2 h hext⟩

theorem moduleExtB_methods (mo : MModule) (ms2 : List MethodEntry)
    (h : listExtB methodEntryExtB mo.methods ms2 = true) :
    moduleExtB mo { mo with methods := ms2 } = true := by
  unfold moduleExtB
  simp [h, listExtB_refl _ notifEntryExtB_refl]

theorem moduleExtB_notifications (mo : MModule) (ns2 : List NotifEntry)
    (h : listExtB notifEntryExtB mo.notifications ns2 = true) :
    moduleExtB mo { mo with notifications := ns2 } = true := by
  unfold moduleExtB
  simp [h, listExtB_refl _ methodEntryExtB_refl]

theorem replaceMethodInModules_listExtB :
    ∀ (mods : List MModule) (n : String) (e e2 : MethodEntry),
      find_method_in_manifest mods n = some e → methodEntryExtB e e2 = true →
      listExtB moduleExtB mods (replaceMethodInModules mods n e2) = true := by
  intro mods
  induction mods with
  | nil => intro n e e2 h _; simp [find_method_in_manifest] at h
  | cons mo rest ih =>
      intro n e e2 h hext
      rw [find_method_in_manifest] at h
      cases hf : mo.methods.find? (fun me => me.name == some n) with
      | some me =>
          rw [hf] at h
          cases h
          have hpe := List.find?_some hf
          have hany : mo.methods.any (fun me => me.name == some n) = true :=
            List.any_eq_true.mpr ⟨e, List.mem_of_find?_eq_some hf, hpe⟩
          rw [replaceMethodInModules, if_pos hany]
          simp only [listExtB, Bool.and_eq_true]
          refine ⟨?_, listExtB_refl _ moduleExtB_refl rest⟩
          exact moduleExtB_methods mo _
            (replaceMethodEntry_listExtB mo.methods n e e2 hf hext)
      | none =>
          rw [hf] at h
          have hany : mo.methods.any (fun me => me.name == some n) = false :=
            List.any_eq_false.mpr (fun me hme => List.find?_eq_none.mp hf me hme)
          rw [replaceMethodInModules, hany]
          simp only [Bool.false_eq_true, if_false, listExtB, Bool.and_eq_true]
          exact ⟨moduleExtB_refl mo, ih n e e2 h hext⟩

theorem replaceNotifInModules_listExtB :
    ∀ (mods : List MModule) (n : String) (e e2 : NotifEntry),
      find_notification_in_manifest mods n = some e → notifEntryExtB e e2 = true →
      listExtB moduleExtB mods (replaceNotifInModules mods n e2) = true := by
  intro mods
  induction mods with
  | nil => intro n e e2 h _; simp [find_notification_in_manifest] at h
  | cons mo rest ih =>
      intro n e e2 h hext
      rw [find_notification_in_manifest] at h
      cases hf : mo.notifications.find? (fun x => x.name == some n) with
      | some x =>
          rw [hf] at h
          cases h
          have hpe := List.find?_some hf
          have hany : mo.notifications.any (fun x => x.name == some n) = true :=
            List.any_eq_true.mpr ⟨e, List.mem_of_find?_eq_some hf, hpe⟩
          rw [replaceNotifInModules, if_pos hany]
          simp only [listExtB, Bool.and_eq_true]
          refine ⟨?_, listExtB_refl _ moduleExtB_refl rest⟩
          exact moduleExtB_notifications mo _
            (replaceNotifEntry_listExtB mo.notifications n e e2 hf hext)
      | none =>
          rw [hf] at h
          have hany : mo.notifications.any (fun x => x.name == some n) = false :=
            List.any_eq_false.mpr (fun x hx => List.find?_eq_none.mp hf x hx)
          rw [replaceNotifInModules, hany]
          simp only [Bool.false_eq_true, if_false, listExtB, Bool.and_eq_true]
          exact ⟨moduleExtB_refl mo, ih n e e2 h hext⟩

theorem appendMethodAt_listExtB :
    ∀ (mods : List MModule) (mid : String) (e : MethodEntry),
      listExtB moduleExtB mods (appendMethodAt mods mid e) = true := by
  intro mods
  induction mods with
  | nil => intro mid e; rfl
  | cons mo rest ih =>
      intro mid e
      cases hid : (mo.id == some mid) with
      | true =>
          rw [appendMethodAt, if_pos hid]
          simp only [listExtB, Bool.and_eq_true]
          refine ⟨?_, listExtB_refl _ moduleExtB_refl rest⟩
          exact moduleExtB_methods mo _
            (listExtB_append _ methodEntryExtB_refl mo.methods [e])
      | false =>
          rw [appendMethodAt, hid]
          simp only [Bool.false_eq_true, if_false, listExtB, Bool.and_eq_true]
          exact ⟨moduleExtB_refl mo, ih mid e⟩

theorem appendNotifAt_listExtB :
    ∀ (mods : List MModule) (mid : String) (e : NotifEntry),
      listExtB moduleExtB mods (appendNotifAt mods mid e) = true := by
  intro mods
  induction mods with
  | nil => intro mid e; rfl
  | cons mo rest ih =>
      intro mid e
      cases hid : (mo.id == some mid) with
      | true =>
          rw [appendNotifAt, if_pos hid]
          simp only [listExtB, Bool.and_eq_true]
          refine ⟨?_, listExtB_refl _ moduleExtB_refl rest⟩
          exact moduleExtB_notifications mo _
            (listExtB_append _ notifEntryExtB_refl mo.notifications [e])
      | false =>
          rw [appendNotifAt, hid]
          simp only [Bool.false_eq_true, if_false, listExtB, Bool.and_eq_true]
          exact ⟨moduleExtB_refl mo, ih mid e⟩

theorem addMethodToModules_listExtB (mods : List MModule) (mid : String) (e : MethodEntry) :
    listExtB moduleExtB mods (addMethodToModules mods mid e) = true := by
  unfold addMethodToModules
  cases hA : mods.any (fun mo => mo.id == some mid) with
  | true =>
      simp only [if_true]
      exact appendMethodAt_listExtB mods mid e
  | false =>
      simp only [Bool.false_eq_true, if_false]
      exact listExtB_append _ moduleExtB_refl mods _

theorem addNotifToModules_listExtB (mods : List MModule) (mid : String) (e : NotifEntry) :
    listExtB moduleExtB mods (addNotifToModules mods mid e) = true := by
  unfold addNotifToModules
  cases hA : mods.any (fun mo => mo.id == some mid) with
  | true =>
      simp only [if_true]
      exact appendNotifAt_listExtB mods mid e
  | false =>
      simp only [Bool.false_eq_true, if_false]
      exact listExtB_append _ moduleExtB_refl mods _

theorem updateLastEnum_listExtB :
    ∀ (l : List EnumEntry) (n : String) (e e2 : EnumEntry),
      lastEnumNamed l n = some e → enumEntryExtB e e2 = true →
      listExtB enumEntryExtB l (updateLastEnum l n e2) = true := by
  intro l
  induction l with
  | nil => intro n e e2 h _; simp [lastEnumNamed] at h
  | cons c rest ih =>
      intro n e e2 h hext
      unfold lastEnumNamed at h
      rw [List.reverse_cons, List.find?_append] at h
      rw [updateLastEnum]
      cases hany : rest.any (fun x => x.name == n) with
      | true =>
          rw [if_pos rfl]
          have hrevany : rest.reverse.any (fun x => x.name == n) = true := by
            simpa using hany
          have hsome : (rest.reverse.find? (fun x => x.name == n)).isSome := by
            obtain ⟨e', he', hp⟩ := List.any_eq_true.mp hrevany
            cases hf : rest.reverse.find? (fun x => x.name == n) with
            | some e3 => rfl
            | none => exact absurd hp (List.find?_eq_none.mp hf e' he')
          obtain ⟨e', hfe⟩ := Option.isSome_iff_exists.mp hsome
          rw [hfe] at h
          have h' : e' = e := Option.some.inj h
          subst h'
          simp only [listExtB, Bool.and_eq_true]
          exact ⟨enumEntryExtB_refl c,
            ih n e' e2 (by unfold lastEnumNamed; exact hfe) hext⟩
      | false =>
          simp only [Bool.false_eq_true, if_false]
          have hnone : rest.reverse.find? (fun x => x.name == n) = none := by
            rw [List.find?_eq_none]
            intro x hx hp
            exact (List.any_eq_false.mp hany x (List.mem_reverse.mp hx)) hp
          rw [hnone, Option.none_or] at h
          cases hc : (c.name == n) with
          | true =>
              simp only [List.find?, hc] at h
              cases h
              rw [if_pos rfl]
              simp only [listExtB, Bool.and_eq_true]
              exact ⟨hext, listExtB_refl _ enumEntryExtB_refl rest⟩
          | false =>
              simp only [List.find?, hc] at h
              exact Option.noConfusion h

theorem updateLastCap_listExtB :
    ∀ (l : List CapEntry) (p : String) (ce ce2 : CapEntry),
      lastCapNamed l p = some ce → capEntryExtB ce ce2 = true →
      listExtB capEntryExtB l (updateLastCap l p ce2) = true := by
  intro l
  induction l with
  | nil => intro p ce ce2 h _; simp [lastCapNamed] at h
  | cons c rest ih =>
      intro p ce ce2 h hext
      unfold lastCapNamed at h
      rw [List.reverse_cons, List.find?_append] at h
      rw [updateLastCap]
      cases hany : rest.any (fun x => x.property == p) with
      | true =>
          rw [if_pos rfl]
          have hrevany : rest.reverse.any (fun x => x.property == p) = true := by
            simpa using hany
          have hsome : (rest.reverse.find? (fun x => x.property == p)).isSome := by
            obtain ⟨e', he', hp⟩ := List.any_eq_true.mp hrevany
            cases hf : rest.reverse.find? (fun x => x.property == p) with
            | some e3 => rfl
            | none => exact absurd hp (List.find?_eq_none.mp hf e' he')
          obtain ⟨e', hfe⟩ := Option.isSome_iff_exists.mp hsome
          rw [hfe] at h
          have h' : e' = ce := Option.some.inj h
          subst h'
          simp only [listExtB, Bool.and_eq_true]
          exact ⟨capEntryExtB_refl c,
            ih p e' ce2 (by unfold lastCapNamed; exact hfe) hext⟩
      | false =>
          simp only [Bool.false_eq_true, if_false]
          have hnone : rest.reverse.find? (fun x => x.property == p) = none := by
            rw [List.find?_eq_none]
            intro x hx hp
            exact (List.any_eq_false.mp hany x (List.mem_reverse.mp hx)) hp
          rw [hnone, Option.none_or] at h
          cases hc : (c.property == p) with
          | true =>
              simp only [List.find?, hc] at h
              cases h
              rw [if_pos rfl]
              simp only [listExtB, Bool.and_eq_true]
              exact ⟨hext, listExtB_refl _ capEntryExtB_refl rest⟩
          | false =>
              simp only [List.find?, hc] at h
              exact Option.noConfusion h

theorem manifestExtB_set_types (m : Manifest) (t2 : List (String × TypeEntry))
    (h : isPrefixB m.types t2 = true) :
    manifestExtB m { m with types := t2 } = true := by
  unfold manifestExtB
  simp [h, isPrefixB_refl, listExtB_refl _ moduleExtB_refl,
    listExtB_refl _ enumEntryExtB_refl, listExtB_refl _ capEntryExtB_refl]

theorem manifestExtB_set_modules (m : Manifest) (m2 : List MModule)
    (h : listExtB moduleExtB m.modules m2 = true) :
    manifestExtB m { m with modules := m2 } = true := by
  unfold manifestExtB
  simp [h, isPrefixB_refl, listExtB_refl _ enumEntryExtB_refl,
    listExtB_refl _ capEntryExtB_refl]

theorem manifestExtB_set_enums (m : Manifest) (e2 : List EnumEntry)
    (h : listExtB enumEntryExtB m.enums e2 = true) :
    manifestExtB m { m with enums := e2 } = true := by
  unfold manifestExtB
  simp [h, isPrefixB_refl, listExtB_refl _ moduleExtB_refl,
    listExtB_refl _ capEntryExtB_refl]

theorem manifestExtB_set_codes (m : Manifest) (c2 : List ErrorCodeEntry)
    (h : isPrefixB m.error_codes c2 = true) :
    manifestExtB m { m with error_codes := c2 } = true := by
  unfold manifestExtB
  simp [h, isPrefixB_refl, listExtB_refl _ moduleExtB_refl,
    listExtB_refl _ enumEntryExtB_refl, listExtB_refl _ capEntryExtB_refl]

theorem manifestExtB_set_caps (m : Manifest) (cc2 cs2 : List CapEntry)
    (h1 : listExtB capEntryExtB m.capabilities_client cc2 = true)
    (h2 : listExtB capEntryExtB m.capabilities_server cs2 = true) :
    manifestExtB m { m with capabilities_client := cc2, capabilities_server := cs2 }
      = true := by
  unfold manifestExtB
  simp [h1, h2, isPrefixB_refl, listExtB_refl _ moduleExtB_refl,
    listExtB_refl _ enumEntryExtB_refl]

theorem manifestExtB_set_deprecated (m : Manifest) (d2 : List DeprecatedEntry)
    (h : isPrefixB m.deprecated d2 = true) :
    manifestExtB m { m with deprecated := d2 } = true := by
  unfold manifestExtB
  simp [h, isPrefixB_refl, listExtB_refl _ moduleExtB_refl,
    listExtB_refl _ enumEntryExtB_refl, listExtB_refl _ capEntryExtB_refl]

theorem syncMethodsStep_extB (acc : Manifest × Nat) (x : String × SpecMethodInfo) :
    manifestExtB acc.1 (syncMethodsStep false acc x).1 = true := by
  unfold syncMethodsStep
  cases hf : find_method_in_manifest acc.1.modules x.1 with
  | none =>
      have hres : manifestExtB acc.1
          { acc.1 with
            modules := addMethodToModules acc.1.modules (get_module_id_from_method x.1)
              (newSyncMethod x.1 x.2) } = true :=
        manifestExtB_set_modules _ _ (addMethodToModules_listExtB _ _ _)
      exact hres
  | some e =>
      have hres : manifestExtB acc.1
          { acc.1 with
            modules := replaceMethodInModules acc.1.modules x.1
              (fillMethodEntry e x.2).1 } = true :=
        manifestExtB_set_modules _ _
          (replaceMethodInModules_listExtB _ _ _ _ hf (fillMethod_extB e x.2))
      exact hres

theorem syncNotifsStep_extB (acc : Manifest × Nat) (x : String × SpecNotifInfo) :
    manifestExtB acc.1 (syncNotifsStep false acc x).1 = true := by
  unfold syncNotifsStep
  cases hf : find_notification_in_manifest acc.1.modules x.1 with
  | none =>
      have hres : manifestExtB acc.1
          { acc.1 with
            modules := addNotifToModules acc.1.modules
              (get_module_id_from_notification x.1) (newSyncNotif x.1 x.2) } = true :=
        manifestExtB_set_modules _ _ (addNotifToModules_listExtB _ _ _)
      exact hres
  | some e =>
      have hres : manifestExtB acc.1
          { acc.1 with
            modules := replaceNotifInModules acc.1.modules x.1
              (fillNotifEntry e x.2).1 } = true :=
        manifestExtB_set_modules _ _
          (replaceNotifInModules_listExtB _ _ _ _ hf (fillNotif_extB e x.2))
      exact hres

theorem syncEnumsStep_extB (names0 : List String) (acc : Manifest × Nat)
    (x : String × List String) :
    manifestExtB acc.1 (syncEnumsStep names0 false acc x).1 = true := by
  unfold syncEnumsStep
  cases hc : names0.contains x.1 with
  | true =>
      rw [if_pos rfl]
      cases hl : lastEnumNamed acc.1.enums x.1 with
      | none => exact manifestExtB_refl acc.1
      | some e =>
          have hres : manifestExtB acc.1
              { acc.1 with
                enums := updateLastEnum acc.1.enums x.1 (enumUpdated e x.2) } = true :=
            manifestExtB_set_enums _ _
              (updateLastEnum_listExtB _ _ _ _ hl (enumUpdated_extB e x.2))
          exact hres
  | false =>
      simp only [Bool.false_eq_true, if_false]
      have hres : manifestExtB acc.1
          { acc.1 with enums := acc.1.enums ++ [enumNew x.1 x.2] } = true :=
        manifestExtB_set_enums _ _ (listExtB_append _ enumEntryExtB_refl _ _)
      exact hres

theorem syncCodesStep_extB (names0 : List String) (acc : Manifest × Nat)
    (x : String × Int) :
    manifestExtB acc.1 (syncCodesStep names0 false acc x).1 = true := by
  unfold syncCodesStep
  cases hc : names0.contains x.1 with
  | true =>
      rw [if_pos rfl]
      exact manifestExtB_refl acc.1
  | false =>
      simp only [Bool.false_eq_true, if_false]
      exact manifestExtB_set_codes _ _ (isPrefixB_append _ _)

theorem syncDeprecatedStep_extB (names0 : List String) (acc : Manifest × Nat)
    (x : String × String) :
    manifestExtB acc.1 (syncDeprecatedStep names0 false acc x).1 = true := by
  unfold syncDeprecatedStep
  cases hc : names0.contains x.1 with
  | true =>
      rw [if_pos rfl]
      exact manifestExtB_refl acc.1
  | false =>
      simp only [Bool.false_eq_true, if_false]
      exact manifestExtB_set_deprecated _ _ (isPrefixB_append _ _)

theorem syncCapStep_extB (props0 : List String) (acc : List CapEntry × Nat)
    (x : String × List String) :
    listExtB capEntryExtB acc.1 (syncCapStep props0 false acc x).1 = true := by
  unfold syncCapStep
  cases hc : props0.contains x.1 with
  | true =>
      rw [if_pos rfl]
      cases hl : lastCapNamed acc.1 x.1 with
      | none => exact listExtB_refl _ capEntryExtB_refl acc.1
      | some ce =>
          have hres : listExtB capEntryExtB acc.1
              (updateLastCap acc.1 x.1 (capUpdated ce x.2)) = true :=
            updateLastCap_listExtB _ _ _ _ hl (capUpdated_extB ce x.2)
          exact hres
  | false =>
      simp only [Bool.false_eq_true, if_false]
      have hres : listExtB capEntryExtB acc.1 (acc.1 ++ [capNew x.1 x.2]) = true :=
        listExtB_append _ capEntryExtB_refl _ _
      exact hres

theorem sync_methods_extB (m : Manifest) (l : List (String × SpecMethodInfo)) :
    manifestExtB m (sync_methods m l false).1 = true := by
  show manifestExtB m ((pySortPairs l).foldl (syncMethodsStep false) (m, 0)).1 = true
  exact foldlChain (fun a b : Manifest × Nat => manifestExtB a.1 b.1 = true)
    (syncMethodsStep false) (fun s => manifestExtB_refl s.1)
    (fun a b c h1 h2 => manifestExtB_trans _ _ _ h1 h2)
    (fun s x => syncMethodsStep_extB s x) (pySortPairs l) (m, 0)

theorem sync_notifications_extB (m : Manifest) (l : List (String × SpecNotifInfo)) :
    manifestExtB m (sync_notifications m l false).1 = true := by
  show manifestExtB m ((pySortPairs l).foldl (syncNotifsStep false) (m, 0)).1 = true
  exact foldlChain (fun a b : Manifest × Nat => manifestExtB a.1 b.1 = true)
    (syncNotifsStep false) (fun s => manifestExtB_refl s.1)
    (fun a b c h1 h2 => manifestExtB_trans _ _ _ h1 h2)
    (fun s x => syncNotifsStep_extB s x) (pySortPairs l) (m, 0)

theorem sync_enums_eq_foldl (m : Manifest) (l : List (String × List String)) (d : Bool) :
    sync_enums m l d =
      (pySortPairs l).foldl (syncEnumsStep (m.enums.map (fun e => e.name)) d) (m, 0) := rfl

theorem enumsFold_extB (names0 : List String) :
    ∀ (l : List (String × List String)) (m0 : Manifest) (c : Nat),
      manifestExtB m0 ((l.foldl (syncEnumsStep names0 false) (m0, c))).1 = true := by
  intro l
  induction l with
  | nil => intro m0 c; exact manifestExtB_refl m0
  | cons y ys ih =>
      intro m0 c
      rw [List.foldl_cons]
      rcases hstep : syncEnumsStep names0 false (m0, c) y with ⟨m1, c1⟩
      have h1 : manifestExtB m0 m1 = true := by
        have h2 := syncEnumsStep_extB names0 (m0, c) y
        rw [hstep] at h2
        exact h2
      exact manifestExtB_trans m0 m1 _ h1 (ih m1 c1)

theorem sync_enums_extB (m : Manifest) (l : List (String × List String)) :
    manifestExtB m (sync_enums m l false).1 = true := by
  have h := enumsFold_extB (m.enums.map (fun e => e.name)) (pySortPairs l) m 0
  exact h

theorem sync_error_codes_eq_foldl (m : Manifest) (l : List (String × Int)) (d : Bool) :
    sync_error_codes m l d =
      (pySortPairs l).foldl (syncCodesStep (m.error_codes.map (fun c => c.name)) d)
        (m, 0) := rfl

theorem codesFold_extB (names0 : List String) :
    ∀ (l : List (String × Int)) (m0 : Manifest) (c : Nat),
      manifestExtB m0 ((l.foldl (syncCodesStep names0 false) (m0, c))).1 = true := by
  intro l
  induction l with
  | nil => intro m0 c; exact manifestExtB_refl m0
  | cons y ys ih =>
      intro m0 c
      rw [List.foldl_cons]
      rcases hstep : syncCodesStep names0 false (m0, c) y with ⟨m1, c1⟩
      have h1 : manifestExtB m0 m1 = true := by
        have h2 := syncCodesStep_extB names0 (m0, c) y
        rw [hstep] at h2
        exact h2
      exact manifestExtB_trans m0 m1 _ h1 (ih m1 c1)

theorem sync_error_codes_extB (m : Manifest) (l : List (String × Int)) :
    manifestExtB m (sync_error_codes m l false).1 = true := by
  have h := codesFold_extB (m.error_codes.map (fun c => c.name)) (pySortPairs l) m 0
  exact h

theorem sync_deprecated_eq_foldl (m : Manifest) (l : List (String × String)) (d : Bool) :
    sync_deprecated m l d =
      (pySortPairs l).foldl (syncDeprecatedStep (m.deprecated.map (fun x => x.name)) d)
        (m, 0) := rfl

theorem deprecatedFold_extB (names0 : List String) :
    ∀ (l : List (String × String)) (m0 : Manifest) (c : Nat),
      manifestExtB m0 ((l.foldl (syncDeprecatedStep names0 false) (m0, c))).1 = true := by
  intro l
  induction l with
  | nil => intro m0 c; exact manifestExtB_refl m0
  | cons y ys ih =>
      intro m0 c
      rw [List.foldl_cons]
      rcases hstep : syncDeprecatedStep names0 false (m0, c) y with ⟨m1, c1⟩
      have h1 : manifestExtB m0 m1 = true := by
        have h2 := syncDeprecatedStep_extB names0 (m0, c) y
        rw [hstep] at h2
        exact h2
      exact manifestExtB_trans m0 m1 _ h1 (ih m1 c1)

theorem sync_deprecated_extB (m : Manifest) (l : List (String × String)) :
    manifestExtB m (sync_deprecated m l false).1 = true := by
  have h := deprecatedFold_extB (m.deprecated.map (fun x => x.name)) (pySortPairs l) m 0
  exact h

theorem sync_cap_list_extB (capList : List CapEntry) (caps : List (String × List String)) :
    listExtB capEntryExtB capList (sync_cap_list capList caps false).1 = true := by
  show listExtB capEntryExtB capList ((pySortPairs caps).foldl
    (syncCapStep (capList.map (fun c => c.property)) false) (capList, 0)).1 = true
  exact foldlChain (fun a b : List CapEntry × Nat => listExtB capEntryExtB a.1 b.1 = true)
    (syncCapStep (capList.map (fun c => c.property)) false)
    (fun s => listExtB_refl _ capEntryExtB_refl s.1)
    (fun a b c h1 h2 => listExtB_trans _ capEntryExtB_trans _ _ _ h1 h2)
    (fun s x => syncCapStep_extB (capList.map (fun c => c.property)) s x)
    (pySortPairs caps) (capList, 0)

theorem sync_capabilities_extB (m : Manifest) (cc sc : List (String × List String)) :
    manifestExtB m (sync_capabilities m cc sc false).1 = true := by
  have hres : manifestExtB m
      { m with
        capabilities_client := (sync_cap_list m.capabilities_client cc false).1,
        capabilities_server := (sync_cap_list m.capabilities_server sc false).1 } = true :=
    manifestExtB_set_caps m _ _ (sync_cap_list_extB m.capabilities_client cc)
      (sync_cap_list_extB m.capabilities_server sc)
  exact hres

theorem typesFold_extB (names0 : List String) (s2s : List (String × String))
    (swT : List (String × SwiftTypeInfo)) :
    ∀ (l : List String) (acc : Manifest × Nat),
      l.Nodup →
      (∀ t ∈ l, names0.contains t = true ∨ t ∉ acc.1.types.map Prod.fst) →
      isPrefixB acc.1.types
        ((l.foldl (syncTypesStep names0 s2s swT false) acc)).1.types = true := by
  intro l
  induction l with
  | nil => intro acc _ _; exact isPrefixB_refl _
  | cons y ys ih =>
      intro acc hnd hfresh
      rw [List.foldl_cons]
      cases hy : names0.contains y with
      | true =>
          have hstep : syncTypesStep names0 s2s swT false acc y = acc := by
            unfold syncTypesStep
            rw [if_pos hy]
          rw [hstep]
          exact ih acc (List.nodup_cons.mp hnd).2
            (fun t ht => hfresh t (List.mem_cons_of_mem y ht))
      | false =>
          have hkeys : y ∉ acc.1.types.map Prod.fst := by
            rcases hfresh y (List.mem_cons_self y ys) with hc | hk
            · rw [hy] at hc
              exact absurd hc Bool.false_ne_true
            · exact hk
          have hcond : ¬ (names0.contains y = true) := by
            rw [hy]
            exact Bool.false_ne_true
          have hstep : syncTypesStep names0 s2s swT false acc y =
              ({ acc.1 with
                  types := acc.1.types ++ [(y, newSyncType y s2s swT)] }, acc.2 + 1) := by
            unfold syncTypesStep
            rw [if_neg hcond, dictSet_not_mem _ _ _ hkeys]
            rfl
          rw [hstep]
          have hnd' := (List.nodup_cons.mp hnd).2
          have hyny := (List.nodup_cons.mp hnd).1
          have hrest := ih ({ acc.1 with
              types := acc.1.types ++ [(y, newSyncType y s2s swT)] }, acc.2 + 1) hnd'
            (by
              intro t ht
              rcases hfresh t (List.mem_cons_of_mem y ht) with hc | hk
              · exact Or.inl hc
              · refine Or.inr ?_
                show t ∉ (acc.1.types ++ [(y, newSyncType y s2s swT)]).map Prod.fst
                rw [List.map_append]
                intro hmemt
                rcases List.mem_append.mp hmemt with h1 | h2
                · exact hk h1
                · have : t = y := by simpa using h2
                  exact hyny (this ▸ ht))
          refine isPrefixB_trans _ _ _ ?_ hrest
          exact isPrefixB_append _ _

theorem sync_types_extB (m : Manifest) (sT : List String)
    (swT : List (String × SwiftTypeInfo)) (s2s : List (String × String))
    (hT : sT.Nodup) :
    manifestExtB m (sync_types m sT swT s2s false).1 = true := by
  have hpre : isPrefixB m.types (sync_types m sT swT s2s false).1.types = true := by
    show isPrefixB m.types ((pySortStr sT).foldl
      (syncTypesStep (manifestTypeNames m.types) s2s swT false) (m, 0)).1.types = true
    refine typesFold_extB (manifestTypeNames m.types) s2s swT (pySortStr sT) (m, 0)
      (pySortStr_nodup _ hT) ?_
    intro t _
    by_cases hc : (manifestTypeNames m.types).contains t = true
    · exact Or.inl hc
    · refine Or.inr ?_
      intro hk
      apply hc
      have : t ∈ manifestTypeNames m.types := by
        unfold manifestTypeNames
        exact List.mem_append.mpr (Or.inl hk)
      simpa [List.contains, List.elem_eq_mem] using this
  obtain ⟨f1, f2, f3, f4, f5, f6⟩ := sync_types_frames m sT swT s2s false
  unfold manifestExtB
  rw [f1, f2, f3, f4, f5, f6, hpre]
  simp [isPrefixB_refl, listExtB_refl _ moduleExtB_refl,
    listExtB_refl _ enumEntryExtB_refl, listExtB_refl _ capEntryExtB_refl]

/-- A manifest holding one enum entry whose `cases` field is already
populated with a single case. -/
def enumCaseManifest : Manifest :=
  { types := [], modules := [],
    enums := [
      { name := "LoggingLevel", swift := YField.val "LoggingLevel",
        file := some "",
        cases := [{ spec := some "debug", swift := some "debug", name := none }],
        verification := none }],
    error_codes := [], capabilities_client := [], capabilities_server := [],
    deprecated := [] }

/-- Synchronizer inputs whose spec lists two cases for that enum. -/
def enumCaseInputs : SyncInputs :=
  { swiftTypes := [], specTypes := [], specMethods := [], specNotifs := [],
    specEnums := [("LoggingLevel", ["debug", "error"])], specCodes := [],
    clientCaps := [], serverCaps := [], specDeprecated := [] }

/-- C3 counterexample.  The original claim says every field already present
on an existing entry is left with its exact prior value; but `sync_enums`
appends missing spec cases to an existing enum entry's populated `cases`
list, changing that field's value.  Concretely, a manifest whose enum
`LoggingLevel` already lists one case gains a second case when the spec
lists two. -/
theorem C3_counterexample :
    enumCaseManifest.enums.map (fun e => e.cases.length) = [1] ∧
    (syncAll enumCaseManifest enumCaseInputs false).1.enums.map
      (fun e => e.cases.length) = [2] := by decide

/-- C3 amended.  Additive-only sync, stated as extension: in apply mode the
synchronizer never removes or reorders existing entries and never
overwrites a populated scalar field; existing entries are only extended
(absent optional fields filled in, list-valued fields such as enum cases
and nested capabilities appended to) and new entries are only appended, in
every category.  Spec types form a Python set, so their names are assumed
pairwise distinct. -/
theorem C3_additive_only (m : Manifest) (A : SyncInputs) (hT : A.specTypes.Nodup) :
    manifestExtB m (syncAll m A false).1 = true := by
  have h1 : manifestExtB m (syncPipe1 m A).1 = true :=
    sync_types_extB m A.specTypes A.swiftTypes (build_spec_to_swift_mapping A.swiftTypes) hT
  have h2 : manifestExtB (syncPipe1 m A).1 (syncPipe2 m A).1 = true :=
    sync_methods_extB (syncPipe1 m A).1 A.specMethods
  have h3 : manifestExtB (syncPipe2 m A).1 (syncPipe3 m A).1 = true :=
    sync_notifications_extB (syncPipe2 m A).1 A.specNotifs
  have h4 : manifestExtB (syncPipe3 m A).1 (syncPipe4 m A).1 = true :=
    sync_enums_extB (syncPipe3 m A).1 A.specEnums
  have h5 : manifestExtB (syncPipe4 m A).1 (syncPipe5 m A).1 = true :=
    sync_error_codes_extB (syncPipe4 m A).1 A.specCodes
  have h6 : manifestExtB (syncPipe5 m A).1 (syncPipe6 m A).1 = true :=
    sync_capabilities_extB (syncPipe5 m A).1 A.clientCaps A.serverCaps
  have h7 : manifestExtB (syncPipe6 m A).1 (syncPipe7 m A).1 = true :=
    sync_deprecated_extB (syncPipe6 m A).1 A.specDeprecated
  have hchain : manifestExtB m (syncPipe7 m A).1 = true :=
    manifestExtB_trans _ _ _ (manifestExtB_trans _ _ _ (manifestExtB_trans _ _ _
      (manifestExtB_trans _ _ _ (manifestExtB_trans _ _ _
        (manifestExtB_trans _ _ _ h1 h2) h3) h4) h5) h6) h7
  exact hchain

theorem C3_witness :
    enumCaseInputs.specTypes.Nodup ∧
    manifestExtB enumCaseManifest (syncAll enumCaseManifest enumCaseInputs false).1
      = true :=
  ⟨by decide, C3_additive_only enumCaseManifest enumCaseInputs (by decide)⟩
